import Mathlib

/-!
Verification development for the `genmlir` frontend
(`src/standalone-python/genmlir/genmlir.py`): a shallow embedding in Lean 4
of the Python-to-MLIR lowering pass, together with proofs about the scope
analyzer, the name allocator, the expression/statement lowerer and the
module driver.

Python strings are modelled as `List Char`, Python dicts as
insertion-ordered association lists, MLIR values/blocks/functions as
numeric handles minted by counters, and the mutually recursive AST
visitors as fuel-indexed function records (`analAt` / `lowerAt`), so that
every definition is executable.  Python exceptions are modelled with the
`Except` monad.
-/

namespace Genmlir

/-- Characters of a Python string.  Python `str` values are modelled as
lists of characters, so that stripping and concatenation are easy to
reason about. -/
abbrev Str := List Char

/-- Embed a Lean string literal as a Python string value. -/
def str (s : String) : Str := s.data

/-- Lookup in an insertion-ordered association list; models Python
`dict.get` / `d[k]` reads. -/
def lookupA {α : Type} [DecidableEq α] {β : Type} : List (α × β) → α → Option β
  | [], _ => none
  | (k, v) :: rest, key => if k = key then some v else lookupA rest key

/-- Update a key in an insertion-ordered association list; models Python
`d[k] = v` (an existing key keeps its position, a new key is appended). -/
def updateA {α : Type} [DecidableEq α] {β : Type} : List (α × β) → α → β → List (α × β)
  | [], key, v => [(key, v)]
  | (k, w) :: rest, key, v =>
    if k = key then (k, v) :: rest else (k, w) :: updateA rest key v

/-- Remove a key from an association list; models Python
`d.pop(k, None)`. -/
def eraseA {α : Type} [DecidableEq α] {β : Type} : List (α × β) → α → List (α × β)
  | [], _ => []
  | (k, w) :: rest, key => if k = key then rest else (k, w) :: eraseA rest key

/-- The character for a decimal digit `d < 10`. -/
def digitChar (d : Nat) : Char := Char.ofNat (48 + d)

/-- Decimal representation of a natural number, as Python's `str(n)`
renders a non-negative `int` (used by the f-string in `fresh_symbol`). -/
def natRepr (n : Nat) : Str :=
  if n = 0 then [digitChar 0] else ((Nat.digits 10 n).map digitChar).reverse

/-- The digit value of a decimal digit character. -/
def charDigit (c : Char) : Nat := c.toNat - 48

/-- Left inverse of `natRepr`, used to prove it injective. -/
def decodeDecimal (cs : Str) : Nat := Nat.ofDigits 10 ((cs.map charDigit).reverse)

/-! ## Builtin registry (`BuiltinSet`)

The fixed bidirectional mapping seeded by `BuiltinSet.addBuiltins`.
Entries are `(python name, mlir name)` in the seeding order of the
source; `addBuiltin(mlirName, pyName)` stores `_builtins[pyName] =
mlirName`. -/

def builtinPairs : List (Str × Str) := [
  (str "abs", str "abs"), (str "aiter", str "aiter"), (str "all", str "all"),
  (str "any", str "any"), (str "anext", str "anext"), (str "ascii", str "ascii"),
  (str "bin", str "bin"), (str "bool", str "bool_builtin"),
  (str "breakpoint", str "breakpoint"), (str "bytearray", str "bytearray"),
  (str "bytes", str "bytes"), (str "callable", str "callable"),
  (str "chr", str "chr"), (str "classmethod", str "classmethod"),
  (str "compile", str "compile"), (str "complex", str "complex"),
  (str "delattr", str "delattr"), (str "dict", str "dict"),
  (str "dir", str "dir"), (str "divmod", str "divmod"),
  (str "enumerate", str "enumerate"), (str "eval", str "eval"),
  (str "exec", str "exec"), (str "filter", str "filter"),
  (str "float", str "float_builtin"), (str "format", str "format"),
  (str "frozenset", str "frozenset"), (str "getattr", str "getattr"),
  (str "globals", str "globals"), (str "hasattr", str "hasattr"),
  (str "hash", str "hash"), (str "help", str "help"), (str "hex", str "hex"),
  (str "id", str "id"), (str "input", str "input"),
  (str "int", str "int_builtin"), (str "isinstance", str "isinstance"),
  (str "issubclass", str "issubclass"), (str "iter", str "iter"),
  (str "len", str "len"), (str "list", str "list"),
  (str "locals", str "locals"), (str "map", str "map"), (str "max", str "max"),
  (str "memoryview", str "memoryview"), (str "min", str "min"),
  (str "next", str "next"), (str "object", str "object"),
  (str "oct", str "oct"), (str "open", str "open"), (str "ord", str "ord"),
  (str "pow", str "pow"), (str "print", str "print"),
  (str "property", str "property"), (str "range", str "range"),
  (str "repr", str "repr"), (str "reversed", str "reversed"),
  (str "round", str "round"), (str "set", str "set"),
  (str "setattr", str "setattr"), (str "slice", str "slice"),
  (str "sorted", str "sorted"), (str "staticmethod", str "staticmethod"),
  (str "str", str "str"), (str "sum", str "sum"), (str "super", str "super"),
  (str "tuple", str "tuple"), (str "type", str "type"),
  (str "vars", str "vars"), (str "zip", str "zip"),
  (str "__import__", str "import"), (str "__name__", str "scriptmain")]

/-- `builtin_mlir_name(name)`: resolve a Python builtin to its MLIR
symbol; `none` when the name is not a recognized builtin. -/
def builtin_mlir_name (name : Str) : Option Str := lookupA builtinPairs name

/-! ## AST

The node taxonomy of the supported subset, mirroring the `ast` node kinds
the visitors of the source handle.  Each scope-introducing node
(`lambda`, `functionDef`, comprehension generator) carries an `ident`
field standing for the Python object identity `id(node)` used as the
scope-map key.  `name` nodes carry `lineno`/`col_offset`, which are the
only source coordinates the claims need (the "Unknown variables"
message). -/

inductive AttrCtx | load | store | del
deriving Repr, DecidableEq

/-- Python constant payloads.  `bool` is kept separate from `int` because
`visit_Constant` classifies with `isinstance`, and in Python `bool` is a
subclass of `int`. -/
inductive ConstVal
  | str (s : Str)
  | int (n : Int)
  | bool (b : Bool)
  | none
deriving Repr, DecidableEq

/-- `isinstance(value, str)`. -/
def ConstVal.isStr : ConstVal → Bool
  | .str _ => true
  | _ => false

/-- `isinstance(value, int)`: true for `int` and also for `bool`, since
Python's `bool` is a subclass of `int`. -/
def ConstVal.isInt : ConstVal → Bool
  | .int _ => true
  | .bool _ => true
  | _ => false

/-- The `int` content of a constant that passed `isinstance(value, int)`;
`True` converts to 1 and `False` to 0. -/
def ConstVal.toInt : ConstVal → Int
  | .int n => n
  | .bool b => if b then 1 else 0
  | _ => 0

/-- The `str` content of a constant that passed `isinstance(value, str)`. -/
def ConstVal.strVal : ConstVal → Str
  | .str s => s
  | _ => []

inductive BinOpKind
  | add | bitAnd | bitOr | bitXor | div | floorDiv | lshift | mod
  | mult | matMult | pow | rshift | sub
deriving Repr, DecidableEq

inductive CmpOpKind
  | eq | gt | gtE | inOp | isOp | isNot | lt | ltE | notEq | notIn
deriving Repr, DecidableEq

inductive UnaryOpKind
  | invert | notOp | uAdd | uSub
deriving Repr, DecidableEq

mutual
inductive Expr where
  | attr (value : Expr) (attrName : Str) (ctx : AttrCtx)
  | binop (left : Expr) (op : BinOpKind) (right : Expr)
  | call (func : Expr) (args : List Expr) (keywords : List (Option Str × Expr))
  | compare (left : Expr) (ops : List CmpOpKind) (comparators : List Expr)
  | const (value : ConstVal)
  | formattedValue (value : Expr) (conversion : Int) (format_spec : Option Expr)
  | generatorExp
  | joinedStr (values : List Expr)
  | lambda (ident : Nat) (args : List Str) (body : Expr)
  | listE (elts : List Expr)
  | listComp (elt : Expr) (generators : List Comp)
  | name (id : Str) (lineno col_offset : Nat)
  | sliceE (lower upper step : Option Expr)
  | subscript (value : Expr) (slice : Expr)
  | tuple (elts : List Expr)
  | unaryop (op : UnaryOpKind) (operand : Expr)

/-- A comprehension generator `for target in iter`; `ident` models
`id(g)`, the key under which the generator's scope is stored. -/
inductive Comp where
  | mk (ident : Nat) (target : Expr) (iter : Expr) (is_async : Bool) (ifs : List Expr)
end

def Comp.ident : Comp → Nat | .mk i _ _ _ _ => i
def Comp.target : Comp → Expr | .mk _ t _ _ _ => t
def Comp.iter : Comp → Expr | .mk _ _ it _ _ => it
def Comp.isAsync : Comp → Bool | .mk _ _ _ a _ => a
def Comp.ifsEmpty : Comp → Bool | .mk _ _ _ _ ifs => ifs.isEmpty

inductive Stmt where
  | assign (targets : List Expr) (value : Expr)
  | augAssign (target : Expr) (op : BinOpKind) (value : Expr)
  | exprStmt (value : Expr)
  | forStmt (target : Expr) (iter : Expr) (body : List Stmt) (orelse : List Stmt)
  | functionDef (ident : Nat) (fname : Str) (args : List Str) (body : List Stmt)
  | ifStmt (test : Expr) (body : List Stmt) (orelse : List Stmt)
  | importStmt (names : List (Str × Option Str))
  | ret (value : Option Expr)
  | withStmt (items : List (Expr × Option Str)) (body : List Stmt)
  | whileStmt (test : Expr) (body : List Stmt) (orelse : List Stmt)

/-! ## Scope analyzer (`VariableScope`, `VariableCapture`)

`VariableScope.parent_vars` keeps the referenced `ast.Name` nodes; each
is modelled by its `(id, lineno, col_offset)` triple. -/

structure VariableScope where
  vars : List Str
  parent_vars : List (Str × Nat × Nat)
deriving Repr, DecidableEq

/-- The per-scope analyzer state: the shared scope map (`self.map`,
keyed by node identity), the locally defined names (`self.vars`, an
insertion-ordered `Dict[str, None]`) and the free references
(`self.references`, name → first referencing `Name` node). -/
structure VC where
  map : List (Nat × VariableScope)
  vars : List Str
  references : List (Str × Nat × Nat)
deriving Repr, DecidableEq

/-- `VariableCapture.mkScope`. -/
def VC.mkScope (vc : VC) : VariableScope := ⟨vc.vars, vc.references⟩

/-- Whether `references` already holds an entry for `name`. -/
def refsHas (refs : List (Str × Nat × Nat)) (name : Str) : Bool :=
  refs.any (fun r => r.1 = name)

/-- `VariableCapture.add_reference`: record a referenced name unless it
is a builtin, a local of this scope, or already recorded. -/
def addReference (vc : VC) (name : Str) (line col : Nat) : VC :=
  if builtin_mlir_name name = none ∧ name ∉ vc.vars ∧ refsHas vc.references name = false
  then { vc with references := vc.references ++ [(name, line, col)] }
  else vc

/-- Insert a name into the ordered local set (`self.vars[name] = None`). -/
def addVarName (vars : List Str) (name : Str) : List Str :=
  if name ∈ vars then vars else vars ++ [name]

/-- `VariableCapture.addVar`: define a name in this scope and drop any
pending free reference to it. -/
def addVar (vc : VC) (name : Str) : VC :=
  { vc with vars := addVarName vc.vars name, references := eraseA vc.references name }

/-- `VariableCapture.close_scope`: store the inner capture's scope under
the nested node's identity and re-raise the inner free references in the
outer scope.  The scope map is the dict shared with the inner capture,
so the updated map comes from `inner`. -/
def closeScope (outer : VC) (ident : Nat) (inner : VC) : VC :=
  let outer1 : VC := ⟨updateA inner.map ident inner.mkScope, outer.vars, outer.references⟩
  inner.references.foldl (fun vc r => addReference vc r.1 r.2.1 r.2.2) outer1

/-- `VariableCapture.addArgs`: each parameter becomes a local.  (The
source also asserts the absence of varargs, kw-only args, and defaults;
parameters are modelled as plain names, so those shapes cannot arise
here.) -/
def addArgs (vc : VC) (args : List Str) : VC :=
  args.foldl addVar vc

/-- The mutually recursive methods of `VariableCapture`, gathered in a
record so that the recursion can be tied by fuel (`analAt`). -/
structure AnalF where
  aExpr : Expr → VC → Except Str VC
  aExprList : List Expr → VC → Except Str VC
  aAddLhs : Expr → VC → Except Str VC
  aAddLhsList : List Expr → VC → Except Str VC
  aAssignLhs : Expr → VC → Except Str VC
  aAssignLhsList : List Expr → VC → Except Str VC
  aLC : List Comp → Expr → VC → Except Str VC
  aStmt : Stmt → VC → Except Str VC
  aStmts : List Stmt → VC → Except Str VC

/-- One step of the analyzer's expression visitor
(`VariableCapture.visit_*` for expressions). -/
def aExprF (rec : AnalF) : Expr → VC → Except Str VC
  | .attr value _ ctx, vc => do
    let vc ← rec.aExpr value vc
    match ctx with
    | .load => pure vc
    | .store => throw (str "Store attribute unsupported.")
    | .del => throw (str "Delete attribute unsupported.")
  | .binop left _ right, vc => do
    let vc ← rec.aExpr left vc
    rec.aExpr right vc
  | .call func args keywords, vc => do
    let vc ← rec.aExpr func vc
    let vc ← rec.aExprList args vc
    rec.aExprList (keywords.map Prod.snd) vc
  | .compare left _ comparators, vc => do
    let vc ← rec.aExpr left vc
    rec.aExprList comparators vc
  | .const _, vc => pure vc
  | .formattedValue value conversion format_spec, vc => do
    let vc ← rec.aExpr value vc
    if conversion ≠ -1 then throw (str "Conversion unsupported")
    match format_spec with
    | some f => rec.aExpr f vc
    | none => pure vc
  | .generatorExp, vc => pure vc
  | .joinedStr values, vc => rec.aExprList values vc
  | .lambda ident args body, vc => do
    let inner0 : VC := ⟨vc.map, [], []⟩
    let inner1 := addArgs inner0 args
    let inner2 ← rec.aExpr body inner1
    pure (closeScope vc ident inner2)
  | .listE elts, vc => rec.aExprList elts vc
  | .listComp elt generators, vc => rec.aLC generators elt vc
  | .name id lineno col, vc => pure (addReference vc id lineno col)
  | .sliceE lower upper step, vc => do
    let vc ← match upper with
      | some u => rec.aExpr u vc
      | none => pure vc
    let vc ← match lower with
      | some l => rec.aExpr l vc
      | none => pure vc
    match step with
    | some st => rec.aExpr st vc
    | none => pure vc
  | .subscript value slice, vc => do
    let vc ← rec.aExpr value vc
    rec.aExpr slice vc
  | .tuple elts, vc => rec.aExprList elts vc
  | .unaryop _ operand, vc => rec.aExpr operand vc

def aExprListF (rec : AnalF) : List Expr → VC → Except Str VC
  | [], vc => pure vc
  | e :: rest, vc => do
    let vc ← rec.aExpr e vc
    rec.aExprList rest vc

/-- `VariableCapture.addLhs`. -/
def aAddLhsF (rec : AnalF) : Expr → VC → Except Str VC
  | .tuple elts, vc => rec.aAddLhsList elts vc
  | .name id _ _, vc => pure (addVar vc id)
  | _, _ => throw (str "Unexpected target")

def aAddLhsListF (rec : AnalF) : List Expr → VC → Except Str VC
  | [], vc => pure vc
  | e :: rest, vc => do
    let vc ← rec.aAddLhs e vc
    rec.aAddLhsList rest vc

/-- `VariableCapture.addAssignLhs`: a subscript target is visited as
reads of its value and index; anything else goes through `addLhs`. -/
def aAssignLhsF (rec : AnalF) : Expr → VC → Except Str VC
  | .subscript value slice, vc => do
    let vc ← rec.aExpr value vc
    rec.aExpr slice vc
  | tgt, vc => rec.aAddLhs tgt vc

def aAssignLhsListF (rec : AnalF) : List Expr → VC → Except Str VC
  | [], vc => pure vc
  | e :: rest, vc => do
    let vc ← rec.aAssignLhs e vc
    rec.aAssignLhsList rest vc

/-- `VariableCapture.visit_ListComp`.  The first iterable is visited in
the current capture; every generator then opens a fresh capture (same
shared map) holding its target as a local, in which the next iterable —
and, innermost, the element expression — are visited.  Unwinding the
recursion closes the scopes innermost-first, exactly like the source's
`captures` array and its reverse `close_scope` loop. -/
def aLCF (rec : AnalF) : List Comp → Expr → VC → Except Str VC
  | [], elt, vc => rec.aExpr elt vc
  | g :: rest, elt, vc => do
    if g.isAsync then throw (str "AssertionError")
    if g.ifsEmpty = false then throw (str "AssertionError")
    let vc ← rec.aExpr g.iter vc
    let inner0 : VC := ⟨vc.map, [], []⟩
    let inner1 ← rec.aAddLhs g.target inner0
    let inner2 ← rec.aLC rest elt inner1
    pure (closeScope vc g.ident inner2)

/-- One step of the analyzer's statement visitor. -/
def aStmtF (rec : AnalF) : Stmt → VC → Except Str VC
  | .assign targets value, vc => do
    let vc ← rec.aExpr value vc
    rec.aAssignLhsList targets vc
  | .augAssign target _ value, vc => do
    let vc ← rec.aAssignLhs target vc
    rec.aExpr value vc
  | .exprStmt value, vc => rec.aExpr value vc
  | .forStmt target iter body orelse, vc => do
    let vc ← rec.aAddLhs target vc
    let vc ← rec.aExpr iter vc
    let vc ← rec.aStmts body vc
    rec.aStmts orelse vc
  | .functionDef ident fname args body, vc => do
    let vc := addVar vc fname
    let inner0 : VC := ⟨vc.map, [], []⟩
    let inner1 := addArgs inner0 args
    let inner2 ← rec.aStmts body inner1
    pure (closeScope vc ident inner2)
  | .ifStmt test body orelse, vc => do
    let vc ← rec.aExpr test vc
    let vc ← if body.isEmpty then pure vc else rec.aStmts body vc
    if orelse.isEmpty then pure vc else rec.aStmts orelse vc
  | .importStmt names, vc =>
    pure (names.foldl (fun vc nm => addVar vc (nm.2.getD nm.1)) vc)
  | .ret value, vc =>
    match value with
    | some v => rec.aExpr v vc
    | none => pure vc
  | .withStmt items body, vc => do
    let vc ← rec.aExprList (items.map Prod.fst) vc
    rec.aStmts body vc
  | .whileStmt test body orelse, vc => do
    let vc ← rec.aExpr test vc
    let vc ← rec.aStmts body vc
    rec.aStmts orelse vc

def aStmtsF (rec : AnalF) : List Stmt → VC → Except Str VC
  | [], vc => pure vc
  | s :: rest, vc => do
    let vc ← rec.aStmt s vc
    rec.aStmts rest vc

/-- Exhausted-fuel analyzer (recursion deeper than the supplied fuel). -/
def analFail : AnalF :=
  ⟨fun _ _ => throw (str "fuel"), fun _ _ => throw (str "fuel"),
   fun _ _ => throw (str "fuel"), fun _ _ => throw (str "fuel"),
   fun _ _ => throw (str "fuel"), fun _ _ => throw (str "fuel"),
   fun _ _ _ => throw (str "fuel"), fun _ _ => throw (str "fuel"),
   fun _ _ => throw (str "fuel")⟩

def analStep (rec : AnalF) : AnalF :=
  ⟨aExprF rec, aExprListF rec, aAddLhsF rec, aAddLhsListF rec,
   aAssignLhsF rec, aAssignLhsListF rec, aLCF rec, aStmtF rec, aStmtsF rec⟩

/-- The analyzer at a given recursion depth. -/
def analAt : Nat → AnalF
  | 0 => analFail
  | n + 1 => analStep (analAt n)

/-- Run the scope analysis of a module body from a fresh capture
(`VariableCapture(scope_map)` with an empty map). -/
def analyzeModule (fuel : Nat) (body : List Stmt) : Except Str VC :=
  (analAt fuel).aStmts body ⟨[], [], []⟩

/-! ## Name allocator (`Module.fresh_symbol`) -/

/-- Strip every `@` from a user-supplied base
(`nm.replace('@', '')`). -/
def stripAt (s : Str) : Str := s.filter (fun c => c ≠ '@')

/-- The stem actually used for a request: `None`, and bases that are
empty after stripping, fall back to `_mlir_gen`. -/
def freshStem (nm : Option Str) : Str :=
  match nm with
  | none => str "_mlir_gen"
  | some s =>
    let s := stripAt s
    if s = [] then str "_mlir_gen" else s

/-- `Module.fresh_symbol`.  The state is `Module._vars`, a dict mapping
each stem to the number of `@`-disambiguated names already minted for
it.  The first request of a stem returns the stem itself; request
`k + 1` returns `stem@(k-1)`-style names `stem@0, stem@1, …`. -/
def fresh_symbol (vars : List (Str × Nat)) (nm : Option Str) : Str × List (Str × Nat) :=
  let stem := freshStem nm
  match lookupA vars stem with
  | none => (stem, updateA vars stem 0)
  | some cnt => (stem ++ '@' :: natRepr cnt, updateA vars stem (cnt + 1))

/-- Run a sequence of requests through the allocator from a given
`_vars` state. -/
def freshListFrom (vars : List (Str × Nat)) : List (Option Str) → List Str
  | [] => []
  | b :: bs =>
    let (out, vars') := fresh_symbol vars b
    out :: freshListFrom vars' bs

/-- Run a sequence of requests from the module's initial empty dict. -/
def freshList (bs : List (Option Str)) : List Str := freshListFrom [] bs

/-- Modelled from the spec's words, for comparison with `fresh_symbol`:
"returns `base` the first time, then `base@0`, `base@1`, … on subsequent
requests", where the count is the number of earlier requests with the
same (stripped, fallback-applied) stem. -/
def specFreshName (prev : List (Option Str)) (b : Option Str) : Str :=
  let s := freshStem b
  let k := (prev.map freshStem).count s
  if k = 0 then s else s ++ '@' :: natRepr (k - 1)

def specFreshListFrom (prev : List (Option Str)) : List (Option Str) → List Str
  | [] => []
  | b :: bs => specFreshName prev b :: specFreshListFrom (prev ++ [b]) bs

def specFreshList (bs : List (Option Str)) : List Str := specFreshListFrom [] bs

/-- The shape of every name the allocator can return: the stem for the
first request, `stem@count` afterwards. -/
def encodeName (s : Str) (j : Nat) : Str :=
  if j = 0 then s else s ++ '@' :: natRepr (j - 1)

/-! ## IR model

MLIR values, blocks, and functions are numeric handles minted by
counters in `EmitState`; block ids index into `blocks`, function ids
into `funcs`.  Emitted operations are recorded in emission order with
the block that holds them (the `mlir.InsertionPoint` at emission time),
their operands, successors, and result handle. -/

abbrev Value := Nat
abbrev BlockId := Nat
abbrev FuncId := Nat

/-- A binary operator class passed to `apply_binop`: either an
arithmetic operator from `bin_operator_map` or a comparison operator
from `comparison_map`. -/
inductive PyBinKind
  | arith (op : BinOpKind)
  | cmp (op : CmpOpKind)
deriving Repr, DecidableEq

inductive OpKind where
  | cellAlloc
  | cellLoad (cell : Value)
  | cellStore (cell v : Value)
  | invokeOp (method : Value) (args : List Value) (keywords : List Str) (succs : List BlockId)
  | binOp (op : PyBinKind) (left right : Value) (succs : List BlockId)
  | unaryOp (op : UnaryOpKind) (operand : Value) (succs : List BlockId)
  | branch (args : List Value) (dest : BlockId)
  | condBranch (cond : Value) (trueArgs falseArgs : List Value) (trueDest falseDest : BlockId)
  | isInstanceOp (v : Value) (cls : Str)
  | mkExcept (v : Value)
  | mkReturn (v : Value)
  | funcReturn (vals : List Value)
  | truthyOp (v : Value)
  | noneOp
  | undefinedOp
  | strLit (s : Str)
  | s64Lit (n : Int)
  | intLit (s : Str)
  | builtinOp (name : Str)
  | getMethodOp (v : Value) (name : Str)
  | moduleOp (name : Str)
  | listOp (elts : List Value)
  | tupleOp (elts : List Value)
  | tupleCheck (v : Value) (n : Int)
  | tupleGet (v : Value) (i : Int)
  | arraySet (a i v : Value)
  | formattedStringOp (args : List Value)
  | scopeInit (names : List Str) (cells : List Value)
  | scopeExtend (scope : Value) (names : List Str) (cells : List Value)
  | functionRef (symbol : Str) (argNames : List Str) (scope : Value) (cells : List Value)
deriving Repr, DecidableEq

structure Op where
  block : BlockId
  kind : OpKind
  result : Option Value
deriving Repr, DecidableEq

structure BlockInfo where
  func : FuncId
  args : List Value
deriving Repr, DecidableEq

structure EmitState where
  nextValue : Nat
  blocks : List BlockInfo
  ops : List Op
  funcs : List Str
  freshVars : List (Str × Nat)
  scopeMap : List (Nat × VariableScope)
deriving Repr, DecidableEq

def emptyEmitState : EmitState := ⟨0, [], [], [], [], []⟩

/-- Mint a fresh value handle. -/
def freshValue (s : EmitState) : Value × EmitState :=
  (s.nextValue, { s with nextValue := s.nextValue + 1 })

/-- Mint `n` fresh value handles (block arguments). -/
def freshValues (n : Nat) (s : EmitState) : List Value × EmitState :=
  ((List.range n).map (fun i => s.nextValue + i), { s with nextValue := s.nextValue + n })

/-- The function (region) a block belongs to. -/
def blockFunc (s : EmitState) (b : BlockId) : Option FuncId :=
  (s.blocks[b]?).map (·.func)

/-- `block.create_after(...)` with `nargs` typed arguments: a fresh
block in the same region (function) as `b`. -/
def createBlockAfter (s : EmitState) (b : BlockId) (nargs : Nat) :
    BlockId × List Value × EmitState :=
  let f := ((s.blocks[b]?).map (·.func)).getD 0
  let (args, s) := freshValues nargs s
  (s.blocks.length, args, { s with blocks := s.blocks ++ [⟨f, args⟩] })

/-- Append a result-less op to block `b`. -/
def emitOp (s : EmitState) (b : BlockId) (k : OpKind) : EmitState :=
  { s with ops := s.ops ++ [⟨b, k, none⟩] }

/-- Append an op to block `b` and mint its result handle. -/
def emitOpV (s : EmitState) (b : BlockId) (k : OpKind) : Value × EmitState :=
  let (v, s) := freshValue s
  (v, { s with ops := s.ops ++ [⟨b, k, some v⟩] })

/-- `cell_alloc(block)`. -/
def cell_alloc (s : EmitState) (block : BlockId) : Value × EmitState :=
  emitOpV s block .cellAlloc

/-- `cell_load(block, cell)`. -/
def cell_load (s : EmitState) (block : BlockId) (cell : Value) : Value × EmitState :=
  emitOpV s block (.cellLoad cell)

/-- `cell_store(block, cell, value)`. -/
def cell_store (s : EmitState) (block : BlockId) (cell v : Value) : EmitState :=
  emitOp s block (.cellStore cell v)

/-- `truthy(block, x)`. -/
def truthy (s : EmitState) (block : BlockId) (x : Value) : Value × EmitState :=
  emitOpV s block (.truthyOp x)

/-- `invoke_next(next, curBlock, doneBlock, throwBlock)`: branch from
the cursor into a fresh `nextBlock`, invoke `next` there with a success
successor `bodyBlock` and a failure successor whose landing tests
`isinstance(exc, "StopIteration")` and conditionally branches to
`doneBlock` (no arguments) or to `throwBlock` (passing the thrown
value).  Returns `(nextBlock, bodyBlock, bodyValue)`. -/
def invoke_next (s : EmitState) (next : Value) (curBlock doneBlock throwBlock : BlockId) :
    (BlockId × BlockId × Value) × EmitState :=
  let (nextBlock, _, s) := createBlockAfter s curBlock 0
  let s := emitOp s curBlock (.branch [] nextBlock)
  let (bodyBlock, bodyArgs, s) := createBlockAfter s nextBlock 1
  let (exceptBlock, excArgs, s) := createBlockAfter s nextBlock 1
  let s := emitOp s nextBlock (.invokeOp next [] [] [bodyBlock, exceptBlock])
  let exception := excArgs.headD 0
  let (c, s) := emitOpV s exceptBlock (.isInstanceOp exception (str "StopIteration"))
  let s := emitOp s exceptBlock (.condBranch c [] [exception] doneBlock throwBlock)
  ((nextBlock, bodyBlock, bodyArgs.headD 0), s)

/-! ## Translator -/

abbrev CellMap := List (Str × Value)

/-- `alloc_variable_cells`: allocate one cell per local name into
`block`, extending the cell map and the parallel `names`/`cells`
accumulators. -/
def alloc_variable_cells (mapAcc : CellMap) (names : List Str) (cells : List Value)
    (block : BlockId) : List Str → EmitState → CellMap × List Str × List Value × EmitState
  | [], s => (mapAcc, names, cells, s)
  | var :: rest, s =>
    let (cell, s) := cell_alloc s block
    alloc_variable_cells (updateA mapAcc var cell) (names ++ [var]) (cells ++ [cell])
      block rest s

/-- The mutable per-instance attributes of `Translator`: the current
block cursor, the `onDone` cleanup chain (a stack of `with`-frames, each
holding the frame's `__exit__` methods in item order, innermost frame
first — the source chains closures through `prevDone`), the lazily
created landing pad, the cell map and the current scope value. -/
structure Tr where
  block : BlockId
  onDone : List (List Value)
  exceptBlock : Option BlockId
  cellMap : CellMap
  scopeValue : Value
deriving Repr, DecidableEq

abbrev Res (α : Type) := Except Str α

/-- `Module.get_scope`: scope-map lookup by node identity; a missing key
raises `KeyError`. -/
def get_scope (s : EmitState) (ident : Nat) : Res VariableScope :=
  match lookupA s.scopeMap ident with
  | some sc => .ok sc
  | none => throw (str "KeyError")

/-- `Translator.get_except_block`: return the function's landing pad,
creating it on first use.  The pad is one block with one argument whose
body wraps the thrown value in `MkExceptOp` and returns. -/
def get_except_block (tr : Tr) (s : EmitState) : BlockId × Tr × EmitState :=
  match tr.exceptBlock with
  | some b => (b, tr, s)
  | none =>
    let (eb, args, s) := createBlockAfter s tr.block 1
    let (r, s) := emitOpV s eb (.mkExcept (args.headD 0))
    let s := emitOp s eb (.funcReturn [r])
    (eb, { tr with exceptBlock := some eb }, s)

/-- `Translator.invoke`: the fallible call protocol — get the landing
pad, create a one-argument return block, and emit the invoke with
successors `(returnBlock, exceptBlock)`; the cursor moves to the return
block and the result is its block argument. -/
def invoke (tr : Tr) (s : EmitState) (method : Value) (args : List Value)
    (keywords : List Str) : Value × Tr × EmitState :=
  let (eb, tr, s) := get_except_block tr s
  let (rb, rargs, s) := createBlockAfter s tr.block 1
  let s := emitOp s tr.block (.invokeOp method args keywords [rb, eb])
  (rargs.headD 0, { tr with block := rb }, s)

/-- `Translator.apply_binop`: same protocol for binary (and comparison)
operator ops. -/
def apply_binop (tr : Tr) (s : EmitState) (left : Value) (op : PyBinKind) (right : Value) :
    Value × Tr × EmitState :=
  let (eb, tr, s) := get_except_block tr s
  let (rb, rargs, s) := createBlockAfter s tr.block 1
  let s := emitOp s tr.block (.binOp op left right [rb, eb])
  (rargs.headD 0, { tr with block := rb }, s)

/-- `Translator.undef_value` (the stderr diagnostic is not modelled). -/
def undef_value (tr : Tr) (s : EmitState) : Value × EmitState :=
  emitOpV s tr.block .undefinedOp

/-- `Translator.none_value`. -/
def none_value (tr : Tr) (s : EmitState) : Value × EmitState :=
  emitOpV s tr.block .noneOp

/-- `Translator.get_method`. -/
def get_method (tr : Tr) (s : EmitState) (w : Value) (name : Str) : Value × EmitState :=
  emitOpV s tr.block (.getMethodOp w name)

/-- `Translator.string_constant`. -/
def string_constant (tr : Tr) (s : EmitState) (c : Str) : Value × EmitState :=
  emitOpV s tr.block (.strLit c)

/-- Decimal rendering of a Python `int` (`str(c)`). -/
def intRepr (c : Int) : Str :=
  if c < 0 then '-' :: natRepr c.natAbs else natRepr c.natAbs

/-- `Translator.int_constant`: signed-64-bit-range integers become
`S64Lit`, larger ones `IntLit` with the decimal string.  (The source's
`r == None` check after this call is dead: both branches produce a
value.) -/
def int_constant (tr : Tr) (s : EmitState) (c : Int) : Value × EmitState :=
  if -(2 : Int) ^ 63 ≤ c ∧ c < 2 ^ 63 then emitOpV s tr.block (.s64Lit c)
  else emitOpV s tr.block (.intLit (intRepr c))

/-- `Translator.builtin`. -/
def builtin (tr : Tr) (s : EmitState) (name : Str) : Value × EmitState :=
  emitOpV s tr.block (.builtinOp name)

/-- `Translator.load_value_attribute`. -/
def load_value_attribute (tr : Tr) (s : EmitState) (v : Value) (attr : Str) :
    Value × Tr × EmitState :=
  let (get, s) := builtin tr s (str "getattr")
  let (sc, s) := string_constant tr s attr
  invoke tr s get [v, sc] []

/-- `Translator.format_value`. -/
def format_value (tr : Tr) (s : EmitState) (v format : Value) : Value × Tr × EmitState :=
  let (m, s) := get_method tr s v (str "__format__")
  invoke tr s m [v, format] []

/-- `Translator.pythonImport`: emit the module op and store it into the
cell of the local binding (`KeyError` when the binding has no cell). -/
def pythonImport (tr : Tr) (s : EmitState) (module name : Str) : Res EmitState :=
  let (m, s) := emitOpV s tr.block (.moduleOp module)
  match lookupA tr.cellMap name with
  | some cell => .ok (emitOp s tr.block (.cellStore cell m))
  | none => throw (str "KeyError")

/-- `Translator.joined_string`. -/
def joined_string (tr : Tr) (s : EmitState) (args : List Value) : Value × EmitState :=
  emitOpV s tr.block (.formattedStringOp args)

/-- `Translator.returnOp`. -/
def returnOpT (tr : Tr) (s : EmitState) (v : Value) : EmitState :=
  let (r, s) := emitOpV s tr.block (.mkReturn v)
  emitOp s tr.block (.funcReturn [r])

/-- Helper for `create_fun`: alias each captured variable's block
argument into the child cell map, collecting the name attributes, the
child cells, and the parent cells (`self._lookup_cell`, which raises
when the parent has no cell for the name). -/
def captureCells (parentMap : CellMap) : List (Str × Nat × Nat) → List Value →
    CellMap → List Str → List Value → List Value →
    Res (CellMap × List Str × List Value × List Value)
  | [], _, m, ns, cs, closure => .ok (m, ns, cs, closure)
  | v :: rest, cell :: cellsRest, m, ns, cs, closure =>
    match lookupA parentMap v.1 with
    | some parentCell =>
      captureCells parentMap rest cellsRest (updateA m v.1 cell) (ns ++ [v.1])
        (cs ++ [cell]) (closure ++ [parentCell])
    | none => throw (str "Could not find variable")
  | _ :: _, [], _, _, _, _ => throw (str "IndexError")

/-- Helper for `create_fun`: store each explicit argument value into the
corresponding parameter cell. -/
def storeParams (map : CellMap) (block : BlockId) : List Str → List Value → EmitState →
    Res EmitState
  | [], _, s => .ok s
  | nm :: rest, value :: vrest, s =>
    match lookupA map nm with
    | some cell => storeParams map block rest vrest (cell_store s block cell value)
    | none => throw (str "KeyError")
  | _ :: _, [], _ => throw (str "IndexError")

/-- `Translator.create_fun`: mint a fresh symbol, append the child
`FuncOp` with an entry block whose arguments are the inherited scope,
one cell per captured variable, and one value per parameter; alias
capture cells, allocate local cells, extend the scope, store parameter
values, and emit the closure value (`FunctionRef`) in the parent's
current block.  Returns the child translator and the closure value. -/
def create_fun (tr : Tr) (s : EmitState) (name : Str) (args : List Str)
    (var_scope : VariableScope) : Res (Tr × Value × EmitState) := do
  let arg_count := args.length
  let (symbol_name, fv) := fresh_symbol s.freshVars (some name)
  let s := { s with freshVars := fv }
  let captured_vars := var_scope.parent_vars
  let capture_count := captured_vars.length
  let funcId := s.funcs.length
  let s := { s with funcs := s.funcs ++ [symbol_name] }
  let (blockArgs, s) := freshValues (1 + capture_count + arg_count) s
  let fun_block := s.blocks.length
  let s := { s with blocks := s.blocks ++ [⟨funcId, blockArgs⟩] }
  let (m0, ns0, cs0, closure_cells) ←
    captureCells tr.cellMap captured_vars ((blockArgs.drop 1).take capture_count) [] [] [] []
  let (fun_cell_map, fun_name_attrs, fun_cells, s) :=
    alloc_variable_cells m0 ns0 cs0 fun_block var_scope.vars s
  let (fun_scope, s) := emitOpV s fun_block
    (.scopeExtend (blockArgs.headD 0) fun_name_attrs fun_cells)
  let s ← storeParams fun_cell_map fun_block args (blockArgs.drop (1 + capture_count)) s
  let fun_translator : Tr := ⟨fun_block, [], none, fun_cell_map, fun_scope⟩
  let (fun_value, s) := emitOpV s tr.block
    (.functionRef symbol_name args tr.scopeValue closure_cells)
  pure (fun_translator, fun_value, s)

/-- Run one `with`-frame's `__exit__` methods (already reversed by the
caller). -/
def runExits (tr : Tr) (s : EmitState) : List Value → Tr × EmitState
  | [] => (tr, s)
  | x :: rest =>
    let (_, tr, s) := invoke tr s x [] []
    runExits tr s rest

/-- Run an `onDone` chain: each frame invokes its `__exit__` methods in
reverse item order, innermost frame first. -/
def runOnDoneFrames (tr : Tr) (s : EmitState) : List (List Value) → Tr × EmitState
  | [] => (tr, s)
  | frame :: rest =>
    let (tr, s) := runExits tr s frame.reverse
    runOnDoneFrames tr s rest

/-- `Translator.importNames` loop body of `visit_Import`. -/
def importNames (tr : Tr) : List (Str × Option Str) → EmitState → Res EmitState
  | [], s => .ok s
  | (nm, asn) :: rest, s => do
    let s ← pythonImport tr s nm (asn.getD nm)
    importNames tr rest s

/-- The mutually recursive visitor methods of `Translator`, gathered in
a record so the recursion can be tied by fuel (`lowerAt`). -/
structure LowerF where
  vExpr : Expr → Tr → EmitState → Res (Value × Tr × EmitState)
  vExprList : List Expr → Tr → EmitState → Res (List Value × Tr × EmitState)
  vKeywords : List (Option Str × Expr) → List Value → List Str → Tr → EmitState →
    Res (List Value × List Str × Tr × EmitState)
  vCompareChain : Value → List CmpOpKind → List Expr → Tr → EmitState →
    Res (Value × Tr × EmitState)
  vJoinedParts : List Expr → Tr → EmitState → Res (List Value × Tr × EmitState)
  vAssignLhs : Expr → Value → Tr → EmitState → Res (Tr × EmitState)
  vAssignTupleElts : List Expr → Nat → Value → BlockId → Tr → EmitState →
    Res (Tr × EmitState)
  vListCompGens : List Comp → BlockId → BlockId → Option Value → Tr → EmitState →
    Res (Option Value × BlockId × Tr × EmitState)
  vWithItems : List (Expr × Option Str) → List Value → Tr → EmitState →
    Res (List Value × Tr × EmitState)
  vStmt : Stmt → Tr → EmitState → Res (Bool × Tr × EmitState)
  vStmts : List Stmt → Tr → EmitState → Res (Bool × Tr × EmitState)

/-- One step of the expression lowerer (`Translator.visit_*` for
expressions). -/
def vExprF (rec : LowerF) : Expr → Tr → EmitState → Res (Value × Tr × EmitState)
  | .attr value attrName ctx, tr, s => do
    let (val, tr, s) ← rec.vExpr value tr s
    match ctx with
    | .load => pure (load_value_attribute tr s val attrName)
    | .store => throw (str "Store attribute unsupported.")
    | .del => throw (str "Delete attribute unsupported.")
  | .binop left op right, tr, s => do
    -- `bin_operator_map` covers every Python binary operator class, so
    -- the undefined-value fallback of the source is unreachable here
    let (l, tr, s) ← rec.vExpr left tr s
    let (r, tr, s) ← rec.vExpr right tr s
    pure (apply_binop tr s l (.arith op) r)
  | .call func args keywords, tr, s => do
    let (f, tr, s) ← rec.vExpr func tr s
    let (argVals, tr, s) ← rec.vExprList args tr s
    let (allArgs, keyNames, tr, s) ← rec.vKeywords keywords argVals [] tr s
    pure (invoke tr s f allArgs keyNames)
  | .compare left ops comparators, tr, s => do
    let (l, tr, s) ← rec.vExpr left tr s
    rec.vCompareChain l ops comparators tr s
  | .const c, tr, s =>
    if c.isStr then
      let (v, s) := string_constant tr s c.strVal
      pure (v, tr, s)
    else if c.isInt then
      let (v, s) := int_constant tr s c.toInt
      pure (v, tr, s)
    else throw (str "Unknown Constant")
  | .formattedValue value conversion format_spec, tr, s => do
    let (v, tr, s) ← rec.vExpr value tr s
    if conversion ≠ -1 then throw (str "Conversion unsupported")
    match format_spec with
    | none =>
      let (format, s) := none_value tr s
      pure (format_value tr s v format)
    | some fs => do
      let (format, tr, s) ← rec.vExpr fs tr s
      pure (format_value tr s v format)
  | .generatorExp, tr, s =>
    let (v, s) := undef_value tr s
    pure (v, tr, s)
  | .joinedStr values, tr, s => do
    let (args, tr, s) ← rec.vJoinedParts values tr s
    let (v, s) := joined_string tr s args
    pure (v, tr, s)
  | .lambda ident args body, tr, s => do
    let scope ← get_scope s ident
    let (funTr, funValue, s) ← create_fun tr s (str "_lambda") args scope
    let (bodyVal, funTr, s) ← rec.vExpr body funTr s
    let s := returnOpT funTr s bodyVal
    pure (funValue, tr, s)
  | .listE elts, tr, s => do
    let (args, tr, s) ← rec.vExprList elts tr s
    let (v, s) := emitOpV s tr.block (.listOp args)
    pure (v, tr, s)
  | .listComp elt generators, tr, s => do
    let (throwBlock, tr, s) := get_except_block tr s
    let orig_cell_map := tr.cellMap
    let orig_scope := tr.scopeValue
    let (r, s) := emitOpV s tr.block (.listOp [])
    let (append, s) := get_method tr s r (str "append")
    let (finalBlock, _, s) := createBlockAfter s tr.block 0
    let doneBlock := finalBlock
    -- `self._cell_map = orig_cell_map.copy()`: same entries
    let (lastIter, doneBlock, tr, s) ← rec.vListCompGens generators doneBlock throwBlock none tr s
    let (ev, tr, s) ← rec.vExpr elt tr s
    let (_, tr, s) := invoke tr s append [ev] []
    let s := emitOp s tr.block (.branch [] doneBlock)
    let tr := { tr with block := finalBlock, cellMap := orig_cell_map, scopeValue := orig_scope }
    -- NOTE: the source returns `l`, the lowered iterable of the last
    -- generator — not the list handle `r` created above
    match lastIter with
    | some l => pure (l, tr, s)
    | none => throw (str "UnboundLocalError")
  | .name id _ _, tr, s =>
    match lookupA tr.cellMap id with
    | some cell =>
      let (v, s) := cell_load s tr.block cell
      pure (v, tr, s)
    | none =>
      match builtin_mlir_name id with
      | some mlirName =>
        let (v, s) := builtin tr s mlirName
        pure (v, tr, s)
      | none => throw (str "Could not find variable")
  | .sliceE lower upper step, tr, s => do
    let (upperV, tr, s) ←
      match upper with
      | some u => rec.vExpr u tr s
      | none =>
        let (v, s) := none_value tr s
        pure (v, tr, s)
    let (sliceFn, s) := builtin tr s (str "slice")
    match step with
    | some stp => do
      let (lowerV, tr, s) ←
        match lower with
        | some l => rec.vExpr l tr s
        | none =>
          let (v, s) := none_value tr s
          pure (v, tr, s)
      let (stepV, tr, s) ← rec.vExpr stp tr s
      pure (invoke tr s sliceFn [lowerV, upperV, stepV] [])
    | none =>
      match lower with
      | some l => do
        let (lowerV, tr, s) ← rec.vExpr l tr s
        pure (invoke tr s sliceFn [lowerV, upperV] [])
      | none => pure (invoke tr s sliceFn [upperV] [])
  | .subscript value slice, tr, s => do
    let (v, tr, s) ← rec.vExpr value tr s
    let (sl, tr, s) ← rec.vExpr slice tr s
    let (getitem, s) := get_method tr s v (str "__getitem__")
    pure (invoke tr s getitem [sl] [])
  | .tuple elts, tr, s => do
    let (args, tr, s) ← rec.vExprList elts tr s
    let (v, s) := emitOpV s tr.block (.tupleOp args)
    pure (v, tr, s)
  | .unaryop op operand, tr, s => do
    -- `unary_operator_map` covers every Python unary operator class
    let (arg, tr, s) ← rec.vExpr operand tr s
    let (eb, tr, s) := get_except_block tr s
    let (rb, rargs, s) := createBlockAfter s tr.block 1
    let s := emitOp s tr.block (.unaryOp op arg [rb, eb])
    pure (rargs.headD 0, { tr with block := rb }, s)

def vExprListF (rec : LowerF) : List Expr → Tr → EmitState → Res (List Value × Tr × EmitState)
  | [], tr, s => pure ([], tr, s)
  | e :: rest, tr, s => do
    let (v, tr, s) ← rec.vExpr e tr s
    let (vs, tr, s) ← rec.vExprList rest tr s
    pure (v :: vs, tr, s)

/-- The keyword-argument loop of `visit_Call`: values are appended to
the positional list, names collected; a `**kwargs` entry (no name)
raises. -/
def vKeywordsF (rec : LowerF) : List (Option Str × Expr) → List Value → List Str → Tr →
    EmitState → Res (List Value × List Str × Tr × EmitState)
  | [], args, keys, tr, s => pure (args, keys, tr, s)
  | (none, _) :: _, _, _, _, _ => throw (str "Did not expect ** in call")
  | (some k, e) :: rest, args, keys, tr, s => do
    let (v, tr, s) ← rec.vExpr e tr s
    rec.vKeywords rest (args ++ [v]) (keys ++ [k]) tr s

/-- The chained-comparison loop of `visit_Compare`.  `comparison_map`
is total on Python comparison operator classes, so the undefined
fallback is unreachable; note that the RESULT of each comparison
becomes the next left operand (`left = self.apply_binop(...)`). -/
def vCompareChainF (rec : LowerF) : Value → List CmpOpKind → List Expr → Tr → EmitState →
    Res (Value × Tr × EmitState)
  | left, [], _, tr, s => pure (left, tr, s)
  | _, _ :: _, [], _, _ => throw (str "StopIteration")
  | left, op :: ops, c :: cs, tr, s => do
    let (right, tr, s) ← rec.vExpr c tr s
    let (l2, tr, s) := apply_binop tr s left (.cmp op) right
    rec.vCompareChain l2 ops cs tr s

/-- The parts loop of `visit_JoinedStr`: each part must be a constant or
a formatted value. -/
def vJoinedPartsF (rec : LowerF) : List Expr → Tr → EmitState →
    Res (List Value × Tr × EmitState)
  | [], tr, s => pure ([], tr, s)
  | e :: rest, tr, s => do
    let (v, tr, s) ←
      match e with
      | .const c => rec.vExpr (.const c) tr s
      | .formattedValue a b c => rec.vExpr (.formattedValue a b c) tr s
      | _ => throw (str "Join expression expected constant or formatted value.")
    let (vs, tr, s) ← rec.vJoinedParts rest tr s
    pure (v :: vs, tr, s)

/-- `Translator.assign_lhs`. -/
def vAssignLhsF (rec : LowerF) : Expr → Value → Tr → EmitState → Res (Tr × EmitState)
  | .tuple elts, v, tr, s => do
    -- `with InsertionPoint(self.block)` captures the block object once
    let b0 := tr.block
    let s := emitOp s b0 (.tupleCheck v (Int.ofNat elts.length))
    rec.vAssignTupleElts elts 0 v b0 tr s
  | .subscript value slice, v, tr, s => do
    let (a, tr, s) ← rec.vExpr value tr s
    let (idx, tr, s) ← rec.vExpr slice tr s
    pure (tr, emitOp s tr.block (.arraySet a idx v))
  | .name id _ _, v, tr, s =>
    match lookupA tr.cellMap id with
    | some cell => pure (tr, cell_store s tr.block cell v)
    | none => throw (str "KeyError")
  | _, _, _, _ => throw (str "Unexpected target")

def vAssignTupleEltsF (rec : LowerF) : List Expr → Nat → Value → BlockId → Tr → EmitState →
    Res (Tr × EmitState)
  | [], _, _, _, tr, s => pure (tr, s)
  | e :: rest, i, v, b0, tr, s => do
    let (sv, s) := emitOpV s b0 (.tupleGet v (Int.ofNat i))
    let (tr, s) ← rec.vAssignLhs e sv tr s
    rec.vAssignTupleElts rest (i + 1) v b0 tr s

/-- The generator loop of `visit_ListComp`: lower the iterable in the
current context, obtain the iterator and its `__next__`, emit
`invoke_next`, allocate the generator scope's cells, extend the scope
value, assign the loop target, and nest the next generator with this
one's `nextBlock` as its done block.  Threads `l`, the lowered iterable
of the most recent generator. -/
def vListCompGensF (rec : LowerF) : List Comp → BlockId → BlockId → Option Value → Tr →
    EmitState → Res (Option Value × BlockId × Tr × EmitState)
  | [], doneBlock, _, lastIter, tr, s => pure (lastIter, doneBlock, tr, s)
  | g :: rest, doneBlock, throwBlock, _, tr, s => do
    if g.isAsync then throw (str "AssertionError")
    if g.ifsEmpty = false then throw (str "AssertionError")
    let (l, tr, s) ← rec.vExpr g.iter tr s
    let (im, s) := get_method tr s l (str "__iter__")
    let (i, tr, s) := invoke tr s im [] []
    let (next, s) := get_method tr s i (str "__next__")
    let ((nextBlock, bodyBlock, bodyValue), s) := invoke_next s next tr.block doneBlock throwBlock
    let tr := { tr with block := bodyBlock }
    let inner_var_scope ← get_scope s g.ident
    let (cm, var_name_attrs, cells, s) :=
      alloc_variable_cells tr.cellMap [] [] tr.block inner_var_scope.vars s
    let (newScope, s) := emitOpV s tr.block (.scopeExtend tr.scopeValue var_name_attrs cells)
    let tr := { tr with cellMap := cm, scopeValue := newScope }
    let (tr, s) ← rec.vAssignLhs g.target bodyValue tr s
    rec.vListCompGens rest nextBlock throwBlock (some l) tr s

/-- The items loop of `visit_With`: lower the context, get `__enter__`
and `__exit__`, call `__enter__`, and store into the optional binding —
which reads `self.map`, an attribute `Translator` does not have, so a
binding raises AttributeError. -/
def vWithItemsF (rec : LowerF) : List (Expr × Option Str) → List Value → Tr → EmitState →
    Res (List Value × Tr × EmitState)
  | [], acc, tr, s => pure (acc, tr, s)
  | (ctxExpr, optVar) :: rest, acc, tr, s => do
    let (ctx, tr, s) ← rec.vExpr ctxExpr tr s
    let (enter, s) := get_method tr s ctx (str "__enter__")
    let (exitm, s) := get_method tr s ctx (str "__exit__")
    let (_, tr, s) := invoke tr s enter [] []
    match optVar with
    | some _ => throw (str "AttributeError: map")
    | none => rec.vWithItems rest (acc ++ [exitm]) tr s

/-- One step of the statement lowerer (`Translator.visit_*` for
statements).  The returned Bool is the source's truthy return value:
`False` after a `return`, aborting the enclosing statement list. -/
def vStmtF (rec : LowerF) : Stmt → Tr → EmitState → Res (Bool × Tr × EmitState)
  | .assign targets value, tr, s => do
    if targets.length ≠ 1 then throw (str "Assignment must have single left-hand side.")
    let tgt := targets.headD (.const .none)
    let (r, tr, s) ← rec.vExpr value tr s
    let (tr, s) ← rec.vAssignLhs tgt r tr s
    pure (true, tr, s)
  | .augAssign _ _ _, tr, s =>
    -- `visit_AugAssign` is a placeholder: no IR is emitted
    pure (true, tr, s)
  | .exprStmt value, tr, s => do
    let (_, tr, s) ← rec.vExpr value tr s
    pure (true, tr, s)
  | .forStmt target iter body orelse, tr, s => do
    if orelse.length > 0 then throw (str "For orelse unsupported.")
    let (r, tr, s) ← rec.vExpr iter tr s
    let (enter, s) := get_method tr s r (str "__iter__")
    let (i, tr, s) := invoke tr s enter [] []
    let (next, s) := get_method tr s i (str "__next__")
    let (throwBlock, tr, s) := get_except_block tr s
    let (doneBlock, _, s) := createBlockAfter s tr.block 0
    let ((nextBlock, bodyBlock, value), s) := invoke_next s next tr.block doneBlock throwBlock
    let tr := { tr with block := bodyBlock }
    let (tr, s) ← rec.vAssignLhs target value tr s
    let (bodyCont, tr, s) ← rec.vStmts body tr s
    let s := if bodyCont then emitOp s tr.block (.branch [] nextBlock) else s
    pure (true, { tr with block := doneBlock }, s)
  | .functionDef ident fname args body, tr, s => do
    let scope ← get_scope s ident
    let (funTr, funValue, s) ← create_fun tr s fname args scope
    let (cont, funTr, s) ← rec.vStmts body funTr s
    let s :=
      if cont then
        let (nv, s2) := none_value funTr s
        returnOpT funTr s2 nv
      else s
    match lookupA tr.cellMap fname with
    | some cell => pure (true, tr, cell_store s tr.block cell funValue)
    | none => throw (str "KeyError")
  | .ifStmt test body orelse, tr, s => do
    let (testV, tr, s) ← rec.vExpr test tr s
    let (c, s) := truthy s tr.block testV
    let initBlock := tr.block
    let (newBlock, _, s) := createBlockAfter s initBlock 0
    let (falseBlock, tr, s) ←
      if orelse.isEmpty then pure (newBlock, tr, s)
      else do
        let (fb, _, s) := createBlockAfter s initBlock 0
        let tr := { tr with block := fb }
        let (cont, tr, s) ← rec.vStmts orelse tr s
        let s := if cont then emitOp s tr.block (.branch [] newBlock) else s
        pure (fb, tr, s)
    let (trueBlock, tr, s) ←
      if body.isEmpty then pure (newBlock, tr, s)
      else do
        let (tb, _, s) := createBlockAfter s initBlock 0
        let tr := { tr with block := tb }
        let (cont, tr, s) ← rec.vStmts body tr s
        let s := if cont then emitOp s tr.block (.branch [] newBlock) else s
        pure (tb, tr, s)
    let s := emitOp s initBlock (.condBranch c [] [] trueBlock falseBlock)
    pure (true, { tr with block := newBlock }, s)
  | .importStmt names, tr, s => do
    let s ← importNames tr names s
    pure (true, tr, s)
  | .ret value, tr, s => do
    -- `if self.onDone: self.onDone()`
    let (tr, s) :=
      if tr.onDone.isEmpty then (tr, s)
      else runOnDoneFrames tr s tr.onDone
    match value with
    | some e => do
      let (retv, tr, s) ← rec.vExpr e tr s
      pure (false, tr, returnOpT tr s retv)
    | none =>
      -- the source reads `self.funTranslator.none_value()`, but no
      -- `funTranslator` attribute is ever set on `Translator`, so a
      -- bare return raises AttributeError
      throw (str "AttributeError: funTranslator")
  | .withStmt items body, tr, s => do
    let (exitMethods, tr, s) ← rec.vWithItems items [] tr s
    let prevDone := tr.onDone
    let tr := { tr with onDone := exitMethods :: prevDone }
    let (cont, tr, s) ← rec.vStmts body tr s
    let tr := { tr with onDone := prevDone }
    if cont then
      -- `onDone()`: this frame's exits in reverse order, then the
      -- previous chain
      let (tr, s) := runOnDoneFrames tr s (exitMethods :: prevDone)
      pure (cont, tr, s)
    else
      pure (cont, tr, s)
  | .whileStmt test body orelse, tr, s => do
    if orelse.length > 0 then throw (str "While orelse unsupported.")
    let (testBlock, _, s) := createBlockAfter s tr.block 0
    let s := emitOp s tr.block (.branch [] testBlock)
    let tr := { tr with block := testBlock }
    let (testV, tr, s) ← rec.vExpr test tr s
    let (c, s) := truthy s tr.block testV
    let (bodyBlock, _, s) := createBlockAfter s tr.block 0
    let (doneBlock, _, s) := createBlockAfter s bodyBlock 0
    let s := emitOp s tr.block (.condBranch c [] [] bodyBlock doneBlock)
    let tr := { tr with block := bodyBlock }
    let (bodyCont, tr, s) ← rec.vStmts body tr s
    let s := if bodyCont then emitOp s tr.block (.branch [] testBlock) else s
    pure (true, { tr with block := doneBlock }, s)

def vStmtsF (rec : LowerF) : List Stmt → Tr → EmitState → Res (Bool × Tr × EmitState)
  | [], tr, s => pure (true, tr, s)
  | st :: rest, tr, s => do
    let (cont, tr, s) ← rec.vStmt st tr s
    if cont then rec.vStmts rest tr s
    else pure (false, tr, s)

/-- Exhausted-fuel lowerer. -/
def lowerFail : LowerF :=
  ⟨fun _ _ _ => throw (str "fuel"), fun _ _ _ => throw (str "fuel"),
   fun _ _ _ _ _ => throw (str "fuel"), fun _ _ _ _ _ => throw (str "fuel"),
   fun _ _ _ => throw (str "fuel"), fun _ _ _ _ => throw (str "fuel"),
   fun _ _ _ _ _ _ => throw (str "fuel"), fun _ _ _ _ _ _ => throw (str "fuel"),
   fun _ _ _ _ => throw (str "fuel"), fun _ _ _ => throw (str "fuel"),
   fun _ _ _ => throw (str "fuel")⟩

def lowerStep (rec : LowerF) : LowerF :=
  ⟨vExprF rec, vExprListF rec, vKeywordsF rec, vCompareChainF rec, vJoinedPartsF rec,
   vAssignLhsF rec, vAssignTupleEltsF rec, vListCompGensF rec, vWithItemsF rec,
   vStmtF rec, vStmtsF rec⟩

/-- The lowerer at a given recursion depth. -/
def lowerAt : Nat → LowerF
  | 0 => lowerFail
  | n + 1 => lowerStep (lowerAt n)

def visitExpr (fuel : Nat) (e : Expr) (tr : Tr) (s : EmitState) :
    Res (Value × Tr × EmitState) :=
  (lowerAt fuel).vExpr e tr s

def visitStmt (fuel : Nat) (st : Stmt) (tr : Tr) (s : EmitState) :
    Res (Bool × Tr × EmitState) :=
  (lowerAt fuel).vStmt st tr s

def visitStmts (fuel : Nat) (sts : List Stmt) (tr : Tr) (s : EmitState) :
    Res (Bool × Tr × EmitState) :=
  (lowerAt fuel).vStmts sts tr s

/-! ## Module driver (`translateModule`) -/

/-- One line of the "Unknown variables" message:
`f'  {a.lineno}:{a.col_offset}: {a.id}\n'`. -/
def offenderLine (r : Str × Nat × Nat) : Str :=
  str "  " ++ natRepr r.2.1 ++ str ":" ++ natRepr r.2.2 ++ str ": " ++ r.1 ++ str "\n"

/-- The "Unknown variables" message: a header line followed by one
`  line:col: name` line per lingering free reference, in recording
order. -/
def unknownVariablesMsg (refs : List (Str × Nat × Nat)) : Str :=
  str "Unknown variables:\n" ++ (refs.map offenderLine).flatten

/-- `translateModule`: run the scope analysis, fail with the
"Unknown variables" message when free references linger at module level
(before any function is created), then build `script_main`, allocate the
module-level cells, initialize the scope, lower the body and emit the
implicit `return none`.  The returned state is the MLIR module (on an
error the exception propagates and the partially built module is
discarded; the state returned alongside the error is the module as of
the uncaught raise that the claims examine). -/
def translateModule (fuel : Nat) (body : List Stmt) : Except Str Unit × EmitState :=
  let s0 := emptyEmitState
  match analyzeModule fuel body with
  | .error e => (.error e, s0)
  | .ok vc =>
    if vc.references.isEmpty = false then
      (.error (unknownVariablesMsg vc.references), s0)
    else
      let var_scope := vc.mkScope
      let s := { s0 with scopeMap := vc.map }
      let funcId := s.funcs.length
      let s := { s with funcs := s.funcs ++ [str "script_main"] }
      let fun_block := s.blocks.length
      let s := { s with blocks := s.blocks ++ [⟨funcId, []⟩] }
      if var_scope.parent_vars.isEmpty = false then
        (.error (str "Did not expect unknown variables"), s)
      else
        let (global_cell_map, fun_name_attrs, fun_cells, s) :=
          alloc_variable_cells [] [] [] fun_block var_scope.vars s
        let (fun_scope, s) := emitOpV s fun_block (.scopeInit fun_name_attrs fun_cells)
        let t : Tr := ⟨fun_block, [], none, global_cell_map, fun_scope⟩
        match (lowerAt fuel).vStmts body t s with
        | .error e => (.error e, s)
        | .ok (cont, t, s) =>
          let s :=
            if cont then
              let (nv, s2) := emitOpV s t.block .noneOp
              let (r, s3) := emitOpV s2 t.block (.mkReturn nv)
              emitOp s3 t.block (.funcReturn [r])
            else s
          (.ok (), s)

/-! ## Result projections (for stating facts about lowering runs) -/

/-- The value handle a successful expression lowering returns. -/
def resultValue : Res (Value × Tr × EmitState) → Option Value
  | .ok (v, _, _) => some v
  | .error _ => none

/-- The translator state after a successful expression lowering. -/
def resultTr : Res (Value × Tr × EmitState) → Option Tr
  | .ok (_, tr, _) => some tr
  | .error _ => none

/-- The ops emitted by a successful expression lowering (empty on
error). -/
def resultOps : Res (Value × Tr × EmitState) → List Op
  | .ok (_, _, s) => s.ops
  | .error _ => []

/-- The blocks of the state after a successful expression lowering. -/
def resultBlocks : Res (Value × Tr × EmitState) → List BlockInfo
  | .ok (_, _, s) => s.blocks
  | .error _ => []

/-! ## Block structure and control-flow reading of the emitted IR -/

/-- The ops recorded in block `b`, in emission order. -/
def opsOf (s : EmitState) (b : BlockId) : List Op :=
  s.ops.filter (fun op => op.block == b)

/-- The argument values of block `b`. -/
def blockArgs (s : EmitState) (b : BlockId) : List Value :=
  ((s.blocks[b]?).map (·.args)).getD []

/-- Interpret a StopIteration landing block: the block must start with
an `isinstance(exc, "StopIteration")` test followed by a conditional
branch on the test's result.  `stop` says whether the thrown value is a
StopIteration instance; the result is the successor the branch takes
and the values passed to it. -/
def stopDispatch (s : EmitState) (b : BlockId) (stop : Bool) :
    Option (BlockId × List Value) :=
  match opsOf s b with
  | ⟨_, .isInstanceOp _ cls, some c⟩ :: ⟨_, .condBranch c2 tArgs fArgs tDest fDest, _⟩ :: _ =>
    if cls = str "StopIteration" ∧ c2 = c then
      some (if stop then (tDest, tArgs) else (fDest, fArgs))
    else none
  | _ => none

/-! ## Properties

Invariants and preservation predicates used by the theorems below. -/

/-- The C9 property of one scope: no name is both a local and a free
reference. -/
def ScopeDisjoint (sc : VariableScope) : Prop :=
  ∀ r ∈ sc.parent_vars, r.1 ∉ sc.vars

/-- Analyzer state invariant: free references never name locals, the
reference dict has unique keys, and every scope stored so far is
disjoint. -/
def AInv (vc : VC) : Prop :=
  (∀ r ∈ vc.references, r.1 ∉ vc.vars) ∧
  (vc.references.map (fun r => r.1)).Nodup ∧
  ∀ e ∈ vc.map, ScopeDisjoint e.2

/-- An analyzer computation preserves the state invariant. -/
def AnalPres (f : VC → Except Str VC) : Prop :=
  ∀ vc vc', AInv vc → f vc = .ok vc' → AInv vc'

/-- A fallible op kind (one following the two-successor
success/throw protocol). -/
def OpKind.fallible : OpKind → Bool
  | .invokeOp _ _ _ _ => true
  | .binOp _ _ _ _ => true
  | .unaryOp _ _ _ => true
  | _ => false

/-- The successor list of an op kind (empty for non-branching ops). -/
def OpKind.succsOf : OpKind → List BlockId
  | .invokeOp _ _ _ succs => succs
  | .binOp _ _ _ succs => succs
  | .unaryOp _ _ succs => succs
  | _ => []

/-- Block `b` is a landing pad: its first recorded op is the
`MkExceptOp` wrapper.  Only `get_except_block` emits `MkExceptOp`, and
only as the first op of the block it creates. -/
def padAt (s : EmitState) (b : BlockId) : Prop :=
  ∃ op rest, opsOf s b = op :: rest ∧ ∃ v, op.kind = OpKind.mkExcept v

/-- A valid failure successor within function `f`: the function's
landing pad itself, or a StopIteration-test block (as emitted by
`invoke_next`) whose conditional branch falls through to that landing
pad. -/
def failTargetOk (s : EmitState) (f : FuncId) (b : BlockId) : Prop :=
  (padAt s b ∧ blockFunc s b = some f) ∨
  (∃ o1 o2 rest, opsOf s b = o1 :: o2 :: rest ∧
    (∃ v cls, o1.kind = OpKind.isInstanceOp v cls) ∧
    (∃ c ta fa td fd, o2.kind = OpKind.condBranch c ta fa td fd ∧
      padAt s fd ∧ blockFunc s fd = some f))

/-- A recorded fallible op follows the two-successor protocol, with its
failure successor reaching its function's landing pad. -/
def FallibleOk (s : EmitState) (op : Op) : Prop :=
  op.kind.fallible = true →
  ∃ f rb fb, blockFunc s op.block = some f ∧
    op.kind.succsOf = [rb, fb] ∧ failTargetOk s f fb

/-- Global well-formedness of the emitted module: ops sit in existing
blocks, blocks sit in existing functions, each function holds at most
one landing pad, and every fallible op follows the protocol. -/
def GINV (s : EmitState) : Prop :=
  (∀ op ∈ s.ops, op.block < s.blocks.length) ∧
  (∀ bi ∈ s.blocks, bi.func < s.funcs.length) ∧
  (∀ b1 b2, padAt s b1 → padAt s b2 → blockFunc s b1 = blockFunc s b2 → b1 = b2) ∧
  (∀ op ∈ s.ops, FallibleOk s op)

/-- Translator-local invariant: the cursor is a real block; a cached
`exceptBlock` is a landing pad of the cursor's function; while no
`exceptBlock` is cached, the cursor's function has no landing pad at
all (so the pad is created at most once, lazily). -/
def TINV (tr : Tr) (s : EmitState) : Prop :=
  tr.block < s.blocks.length ∧
  (∀ b, tr.exceptBlock = some b →
    padAt s b ∧ blockFunc s b = blockFunc s tr.block) ∧
  (tr.exceptBlock = none →
    ∀ b, padAt s b → blockFunc s b ≠ blockFunc s tr.block)

/-- The emission state only grows: blocks, ops and functions are
appended, never removed or reordered. -/
def Extends (s s' : EmitState) : Prop :=
  (∃ t, s'.blocks = s.blocks ++ t) ∧
  (∃ t, s'.ops = s.ops ++ t) ∧
  (∃ t, s'.funcs = s.funcs ++ t)

/-- Postcondition of one translator computation: the invariants hold
again, the state only grew, the cursor stayed within its function, and
every landing pad that appeared during the run lives either in the
computation's current function or in a function created during the
run. -/
def StepOk (tr : Tr) (s : EmitState) (tr' : Tr) (s' : EmitState) : Prop :=
  GINV s' ∧ TINV tr' s' ∧ Extends s s' ∧
  blockFunc s' tr'.block = blockFunc s tr.block ∧
  (∀ b, padAt s' b → padAt s b ∨ blockFunc s' b = blockFunc s tr.block ∨
    ∃ f, blockFunc s' b = some f ∧ s.funcs.length ≤ f)

/-- Preservation for a visitor returning `α × Tr × EmitState`. -/
def Pres {α : Type} (m : Tr → EmitState → Res (α × Tr × EmitState)) : Prop :=
  ∀ tr s a tr' s', GINV s → TINV tr s → m tr s = .ok (a, tr', s') → StepOk tr s tr' s'

/-- Preservation for a visitor returning `α × β × Tr × EmitState`. -/
def Pres2 {α β : Type} (m : Tr → EmitState → Res (α × β × Tr × EmitState)) : Prop :=
  ∀ tr s a b tr' s', GINV s → TINV tr s → m tr s = .ok (a, b, tr', s') →
    StepOk tr s tr' s'

/-- Preservation for a visitor returning `Tr × EmitState`. -/
def PresU (m : Tr → EmitState → Res (Tr × EmitState)) : Prop :=
  ∀ tr s tr' s', GINV s → TINV tr s → m tr s = .ok (tr', s') → StepOk tr s tr' s'

/-- Preservation for the tuple-target assignment loop; the captured
insertion block `b0` must exist. -/
def PresTup (m : List Expr → Nat → Value → BlockId → Tr → EmitState →
    Res (Tr × EmitState)) : Prop :=
  ∀ es i v b0 tr s tr' s', GINV s → TINV tr s → b0 < s.blocks.length →
    m es i v b0 tr s = .ok (tr', s') → StepOk tr s tr' s'

/-- Preservation for the list-comprehension generator loop; the throw
block handed down must be the current function's landing pad. -/
def PresLCG (m : List Comp → BlockId → BlockId → Option Value → Tr → EmitState →
    Res (Option Value × BlockId × Tr × EmitState)) : Prop :=
  ∀ gens dn thr l tr s out dn' tr' s', GINV s → TINV tr s →
    padAt s thr → blockFunc s thr = blockFunc s tr.block →
    m gens dn thr l tr s = .ok (out, dn', tr', s') → StepOk tr s tr' s'

/-- All visitor methods of a lowerer record preserve the invariants. -/
structure LowerFPres (rec : LowerF) : Prop where
  expr : ∀ e, Pres (rec.vExpr e)
  exprList : ∀ es, Pres (rec.vExprList es)
  keywords : ∀ ks args keys, Pres2 (rec.vKeywords ks args keys)
  compareChain : ∀ left ops cs, Pres (rec.vCompareChain left ops cs)
  joinedParts : ∀ es, Pres (rec.vJoinedParts es)
  assignLhs : ∀ e v, PresU (rec.vAssignLhs e v)
  assignTupleElts : PresTup rec.vAssignTupleElts
  listCompGens : PresLCG rec.vListCompGens
  withItems : ∀ items acc, Pres (rec.vWithItems items acc)
  stmt : ∀ st, Pres (rec.vStmt st)
  stmts : ∀ sts, Pres (rec.vStmts sts)

/-- All visitor methods of an analyzer record preserve the invariant. -/
structure AnalFPres (rec : AnalF) : Prop where
  expr : ∀ e, AnalPres (rec.aExpr e)
  exprList : ∀ es, AnalPres (rec.aExprList es)
  addLhs : ∀ e, AnalPres (rec.aAddLhs e)
  addLhsList : ∀ es, AnalPres (rec.aAddLhsList es)
  assignLhs : ∀ e, AnalPres (rec.aAssignLhs e)
  assignLhsList : ∀ es, AnalPres (rec.aAssignLhsList es)
  lc : ∀ gens elt, AnalPres (rec.aLC gens elt)
  stmt : ∀ st, AnalPres (rec.aStmt st)
  stmts : ∀ sts, AnalPres (rec.aStmts sts)

/-! # Theorems

## Association-list and decimal-rendering lemmas -/

theorem lookupA_updateA {α : Type} [DecidableEq α] {β : Type}
    (l : List (α × β)) (k : α) (v : β) (key : α) :
    lookupA (updateA l k v) key = if key = k then some v else lookupA l key := by
  induction l with
  | nil =>
    simp only [updateA, lookupA]
    by_cases h : k = key
    · simp [h]
    · have h' : ¬ key = k := fun hh => h hh.symm
      simp [h, h']
  | cons hd tl ih =>
    obtain ⟨k0, v0⟩ := hd
    simp only [updateA]
    by_cases hk : k0 = k
    · simp only [if_pos hk, lookupA]
      by_cases h : k0 = key
      · have h' : key = k := by rw [← h, hk]
        simp [h, h']
      · have h' : ¬ key = k := by
          intro hh; exact h (by rw [hk, hh])
        simp [h, h']
    · simp only [if_neg hk, lookupA, ih]
      by_cases h : k0 = key
      · have h' : ¬ key = k := by
          intro hh; exact hk (by rw [h, hh])
        simp [h, h']
      · simp [h]

theorem charDigit_digitChar {d : Nat} (hd : d < 10) : charDigit (digitChar d) = d := by
  interval_cases d <;> decide

theorem decodeDecimal_natRepr (n : Nat) : decodeDecimal (natRepr n) = n := by
  by_cases h : n = 0
  · subst h; decide
  · have hmap : (Nat.digits 10 n).map (fun c => charDigit (digitChar c)) =
        (Nat.digits 10 n).map id := by
      refine List.map_congr_left ?_
      intro d hdmem
      have hd : d < 10 := Nat.digits_lt_base (by norm_num) hdmem
      simpa using charDigit_digitChar hd
    simp only [decodeDecimal, natRepr, h, if_false, List.map_reverse, List.reverse_reverse,
      List.map_map]
    rw [show (charDigit ∘ digitChar) = fun c => charDigit (digitChar c) from rfl,
      hmap, List.map_id]
    exact Nat.ofDigits_digits 10 n

theorem natRepr_inj {a b : Nat} (h : natRepr a = natRepr b) : a = b := by
  have := congrArg decodeDecimal h
  simpa [decodeDecimal_natRepr] using this

theorem mem_stripAt {c : Char} {s : Str} (h : c ∈ stripAt s) : c ≠ '@' := by
  simp only [stripAt, List.mem_filter, decide_eq_true_eq] at h
  exact h.2

theorem atFree_freshStem (b : Option Str) : '@' ∉ freshStem b := by
  intro hmem
  match b with
  | none =>
    simp only [freshStem] at hmem
    revert hmem
    decide
  | some s =>
    simp only [freshStem] at hmem
    by_cases h : stripAt s = []
    · rw [h] at hmem
      revert hmem
      simp only [if_pos rfl]
      decide
    · rw [if_neg h] at hmem
      exact mem_stripAt hmem rfl

/-- Splitting at the first occurrence of a separator character is
unambiguous. -/
theorem splitAtChar {c : Char} :
    ∀ (s1 s2 t1 t2 : Str), c ∉ s1 → c ∉ s2 →
      s1 ++ c :: t1 = s2 ++ c :: t2 → s1 = s2 ∧ t1 = t2 := by
  intro s1
  induction s1 with
  | nil =>
    intro s2 t1 t2 _ h2 heq
    cases s2 with
    | nil => simpa using heq
    | cons x xs =>
      simp only [List.nil_append, List.cons_append, List.cons.injEq] at heq
      exact absurd heq.1 (by simpa using fun h => h2 (by simp [h]))
  | cons x xs ih =>
    intro s2 t1 t2 h1 h2 heq
    cases s2 with
    | nil =>
      simp only [List.cons_append, List.nil_append, List.cons.injEq] at heq
      exact absurd heq.1 (fun h => h1 (by simp [h]))
    | cons y ys =>
      simp only [List.cons_append, List.cons.injEq] at heq
      obtain ⟨hxy, hrest⟩ := heq
      have := ih ys t1 t2 (fun h => h1 (List.mem_cons_of_mem _ h))
        (fun h => h2 (List.mem_cons_of_mem _ h)) hrest
      exact ⟨by simp [hxy, this.1], this.2⟩

theorem encodeName_inj {s1 s2 : Str} {j1 j2 : Nat}
    (h1 : '@' ∉ s1) (h2 : '@' ∉ s2)
    (h : encodeName s1 j1 = encodeName s2 j2) : s1 = s2 ∧ j1 = j2 := by
  match j1, j2 with
  | 0, 0 =>
    simpa [encodeName] using h
  | 0, j + 1 =>
    simp only [encodeName] at h
    norm_num at h
    have : '@' ∈ s1 := by
      rw [h]; exact List.mem_append_right s2 (List.mem_cons_self '@' _)
    exact absurd this h1
  | j + 1, 0 =>
    simp only [encodeName] at h
    norm_num at h
    have : '@' ∈ s2 := by
      rw [← h]; exact List.mem_append_right s1 (List.mem_cons_self '@' _)
    exact absurd this h2
  | i + 1, j + 1 =>
    simp only [encodeName] at h
    norm_num at h
    obtain ⟨hs, ht⟩ := splitAtChar s1 s2 (natRepr i) (natRepr j) h1 h2 h
    exact ⟨hs, by rw [natRepr_inj ht]⟩

/-! ## C7: the name allocator -/

theorem specFreshName_encode (prev : List (Option Str)) (b : Option Str) :
    specFreshName prev b =
      encodeName (freshStem b) ((prev.map freshStem).count (freshStem b)) := by
  simp [specFreshName, encodeName]

theorem stemCount_append_same (prev : List (Option Str)) (b : Option Str) :
    ((prev ++ [b]).map freshStem).count (freshStem b)
      = (prev.map freshStem).count (freshStem b) + 1 := by
  simp [List.count_append]

theorem stemCount_append_le (prev : List (Option Str)) (b : Option Str) (s : Str) :
    (prev.map freshStem).count s ≤ ((prev ++ [b]).map freshStem).count s := by
  simp [List.count_append]

theorem stemCount_append_ne (prev : List (Option Str)) (b : Option Str) {s : Str}
    (h : ¬ s = freshStem b) :
    ((prev ++ [b]).map freshStem).count s = (prev.map freshStem).count s := by
  have h' : ¬ freshStem b = s := fun hh => h hh.symm
  simp [List.count_append, List.count_cons, h, h']

/-- The allocator state `_vars` tracks, per stem, one less than the
number of requests of that stem so far. -/
def FreshInv (vars : List (Str × Nat)) (prev : List (Option Str)) : Prop :=
  ∀ st, lookupA vars st =
    if (prev.map freshStem).count st = 0 then none
    else some ((prev.map freshStem).count st - 1)

theorem freshInv_step {vars : List (Str × Nat)} {prev : List (Option Str)}
    (hinv : FreshInv vars prev) (b : Option Str) :
    FreshInv (updateA vars (freshStem b)
        (if (prev.map freshStem).count (freshStem b) = 0 then 0
         else ((prev.map freshStem).count (freshStem b) - 1) + 1))
      (prev ++ [b]) := by
  intro st
  rw [lookupA_updateA]
  by_cases hst : st = freshStem b
  · rw [if_pos hst, hst, stemCount_append_same]
    by_cases hk : (prev.map freshStem).count (freshStem b) = 0
    · rw [if_pos hk, hk]
      norm_num
    · rw [if_neg hk]
      have h2 : ¬ (prev.map freshStem).count (freshStem b) + 1 = 0 := by omega
      rw [if_neg h2]
      congr 1
      omega
  · rw [if_neg hst, stemCount_append_ne prev b hst]
    exact hinv st

theorem freshListFrom_eq_spec :
    ∀ (bs : List (Option Str)) (vars : List (Str × Nat)) (prev : List (Option Str)),
      FreshInv vars prev → freshListFrom vars bs = specFreshListFrom prev bs := by
  intro bs
  induction bs with
  | nil => intro vars prev _; rfl
  | cons b rest ih =>
    intro vars prev hinv
    have hstem := hinv (freshStem b)
    have hnext := freshInv_step hinv b
    by_cases hk : ((prev.map freshStem).count (freshStem b)) = 0
    · rw [if_pos hk] at hstem
      rw [if_pos hk] at hnext
      have hout : fresh_symbol vars b = (freshStem b, updateA vars (freshStem b) 0) := by
        simp [fresh_symbol, hstem]
      simp [freshListFrom, specFreshListFrom, hout, specFreshName, hk, ih _ _ hnext]
    · rw [if_neg hk] at hstem
      rw [if_neg hk] at hnext
      have hout : fresh_symbol vars b =
          (freshStem b ++ '@' :: natRepr ((prev.map freshStem).count (freshStem b) - 1),
           updateA vars (freshStem b)
             (((prev.map freshStem).count (freshStem b) - 1) + 1)) := by
        simp [fresh_symbol, hstem]
      simp [freshListFrom, specFreshListFrom, hout, specFreshName, hk, ih _ _ hnext]

theorem freshList_eq_spec (bs : List (Option Str)) : freshList bs = specFreshList bs := by
  apply freshListFrom_eq_spec
  intro st
  simp [lookupA]

theorem mem_specFreshListFrom :
    ∀ (bs prev : List (Option Str)) (x : Str), x ∈ specFreshListFrom prev bs →
      ∃ s j, x = encodeName s j ∧ '@' ∉ s ∧ (prev.map freshStem).count s ≤ j := by
  intro bs
  induction bs with
  | nil => intro prev x hx; simp [specFreshListFrom] at hx
  | cons b rest ih =>
    intro prev x hx
    simp only [specFreshListFrom, List.mem_cons] at hx
    rcases hx with hx | hx
    · exact ⟨freshStem b, (prev.map freshStem).count (freshStem b),
        by rw [hx, specFreshName_encode], atFree_freshStem b, le_refl _⟩
    · obtain ⟨s, j, hxe, hat, hle⟩ := ih (prev ++ [b]) x hx
      exact ⟨s, j, hxe, hat, le_trans (stemCount_append_le prev b s) hle⟩

theorem pairwise_specFreshListFrom :
    ∀ (bs prev : List (Option Str)), (specFreshListFrom prev bs).Pairwise (· ≠ ·) := by
  intro bs
  induction bs with
  | nil => intro prev; simp [specFreshListFrom]
  | cons b rest ih =>
    intro prev
    simp only [specFreshListFrom, List.pairwise_cons]
    refine ⟨?_, ih (prev ++ [b])⟩
    intro y hy heq
    obtain ⟨s, j, hye, hat, hle⟩ := mem_specFreshListFrom rest (prev ++ [b]) y hy
    rw [specFreshName_encode, hye] at heq
    obtain ⟨hs, hj⟩ := encodeName_inj (atFree_freshStem b) hat heq
    rw [← hs, stemCount_append_same] at hle
    omega

/-- C7: `fresh_symbol` returns the (at-stripped) base the first time a
stem is requested and `base@0`, `base@1`, … afterwards; a null or empty
base uses the fallback stem `_mlir_gen` (all captured by the spec-level
`specFreshList`); the output names of any request sequence are pairwise
distinct; and the output sequence is a pure function of the request
sequence (the allocator is a Lean function of its input list). -/
theorem C7_fresh_symbol (bs : List (Option Str)) :
    freshList bs = specFreshList bs ∧ (freshList bs).Pairwise (· ≠ ·) := by
  refine ⟨freshList_eq_spec bs, ?_⟩
  rw [freshList_eq_spec bs]
  exact pairwise_specFreshListFrom bs []

/-! ## C9: scope analyzer locals/free disjointness -/

theorem exceptBind_ok {α β : Type} {m : Except Str α} {k : α → Except Str β} {b : β}
    (h : (m >>= k) = .ok b) : ∃ a, m = .ok a ∧ k a = .ok b := by
  cases m with
  | error e => simp [Bind.bind, Except.bind] at h
  | ok a => exact ⟨a, rfl, by simpa [Bind.bind, Except.bind] using h⟩

theorem eraseA_sublist {α : Type} [DecidableEq α] {β : Type} (l : List (α × β)) (k : α) :
    (eraseA l k).Sublist l := by
  induction l with
  | nil => simp [eraseA]
  | cons hd tl ih =>
    obtain ⟨k0, v0⟩ := hd
    by_cases h : k0 = k
    · rw [eraseA, if_pos h]
      exact List.sublist_cons_self (k0, v0) tl
    · rw [eraseA, if_neg h]
      exact ih.cons₂ (k0, v0)

theorem mem_eraseA {α : Type} [DecidableEq α] {β : Type} {l : List (α × β)} {k : α}
    {r : α × β} (h : r ∈ eraseA l k) : r ∈ l :=
  (eraseA_sublist l k).mem h

theorem eraseA_key_ne {α : Type} [DecidableEq α] {β : Type} {l : List (α × β)} {k : α}
    {r : α × β} (hnodup : (l.map (fun r => r.1)).Nodup) (h : r ∈ eraseA l k) : r.1 ≠ k := by
  induction l with
  | nil => simp [eraseA] at h
  | cons hd tl ih =>
    obtain ⟨k0, v0⟩ := hd
    simp only [List.map_cons, List.nodup_cons] at hnodup
    by_cases hk : k0 = k
    · rw [eraseA, if_pos hk] at h
      intro hrk
      exact hnodup.1 (hk ▸ hrk ▸ List.mem_map_of_mem _ h)
    · rw [eraseA, if_neg hk] at h
      rcases List.mem_cons.mp h with h | h
      · rw [h]; exact hk
      · exact ih hnodup.2 h

theorem eraseA_nodupKeys {α : Type} [DecidableEq α] {β : Type} {l : List (α × β)} {k : α}
    (hnodup : (l.map (fun r => r.1)).Nodup) : ((eraseA l k).map (fun r => r.1)).Nodup :=
  hnodup.sublist (List.Sublist.map _ (eraseA_sublist l k))

theorem mem_updateA {α : Type} [DecidableEq α] {β : Type} {l : List (α × β)} {k : α}
    {v : β} {e : α × β} (h : e ∈ updateA l k v) : e ∈ l ∨ e = (k, v) := by
  induction l with
  | nil => simpa [updateA] using h
  | cons hd tl ih =>
    obtain ⟨k0, v0⟩ := hd
    by_cases hk : k0 = k
    · rw [updateA, if_pos hk] at h
      rcases List.mem_cons.mp h with h | h
      · right; rw [h, hk]
      · left; exact List.mem_cons_of_mem _ h
    · rw [updateA, if_neg hk] at h
      rcases List.mem_cons.mp h with h | h
      · left; exact h ▸ List.mem_cons_self _ _
      · rcases ih h with h | h
        · left; exact List.mem_cons_of_mem _ h
        · right; exact h

theorem refsHas_false {refs : List (Str × Nat × Nat)} {n : Str}
    (h : refsHas refs n = false) : ∀ r ∈ refs, r.1 ≠ n := by
  intro r hr
  simp only [refsHas, List.any_eq_false, decide_eq_true_eq] at h
  exact h r hr

theorem addReference_inv {vc : VC} (h : AInv vc) (n : Str) (line col : Nat) :
    AInv (addReference vc n line col) := by
  obtain ⟨hrefs, hnodup, hmap⟩ := h
  unfold addReference
  by_cases hg : builtin_mlir_name n = none ∧ n ∉ vc.vars ∧ refsHas vc.references n = false
  · rw [if_pos hg]
    refine ⟨?_, ?_, hmap⟩
    · intro r hr
      rcases List.mem_append.mp hr with hr | hr
      · exact hrefs r hr
      · simp only [List.mem_singleton] at hr
        rw [hr]
        exact hg.2.1
    · rw [List.map_append]
      refine List.Nodup.append hnodup (by simp) ?_
      intro a ha hb
      simp only [List.map_cons, List.map_nil, List.mem_singleton] at hb
      obtain ⟨r, hr, hra⟩ := List.mem_map.mp ha
      exact refsHas_false hg.2.2 r hr (hra.trans hb)
  · rw [if_neg hg]
    exact ⟨hrefs, hnodup, hmap⟩

theorem mem_addVarName {vars : List Str} {n x : Str} (h : x ∈ addVarName vars n) :
    x ∈ vars ∨ x = n := by
  unfold addVarName at h
  by_cases hn : n ∈ vars
  · rw [if_pos hn] at h; exact Or.inl h
  · rw [if_neg hn] at h
    rcases List.mem_append.mp h with h | h
    · exact Or.inl h
    · simp only [List.mem_singleton] at h; exact Or.inr h

theorem addVar_inv {vc : VC} (h : AInv vc) (n : Str) : AInv (addVar vc n) := by
  obtain ⟨hrefs, hnodup, hmap⟩ := h
  refine ⟨?_, eraseA_nodupKeys hnodup, hmap⟩
  intro r hr hmem
  rcases mem_addVarName hmem with hmem | hmem
  · exact hrefs r (mem_eraseA hr) hmem
  · exact eraseA_key_ne hnodup hr hmem

theorem foldl_addVar_inv {vc : VC} (h : AInv vc) (ns : List Str) :
    AInv (ns.foldl addVar vc) := by
  induction ns generalizing vc with
  | nil => exact h
  | cons n rest ih => exact ih (addVar_inv h n)

theorem addArgs_inv {vc : VC} (h : AInv vc) (args : List Str) : AInv (addArgs vc args) :=
  foldl_addVar_inv h args

theorem foldl_addReference_inv {vc : VC} (h : AInv vc) (rs : List (Str × Nat × Nat)) :
    AInv (rs.foldl (fun vc r => addReference vc r.1 r.2.1 r.2.2) vc) := by
  induction rs generalizing vc with
  | nil => exact h
  | cons r rest ih => exact ih (addReference_inv h r.1 r.2.1 r.2.2)

theorem mkScope_disjoint {vc : VC} (h : AInv vc) : ScopeDisjoint vc.mkScope :=
  fun r hr => h.1 r hr

theorem closeScope_inv {outer inner : VC} (houter : AInv outer) (hinner : AInv inner)
    (ident : Nat) : AInv (closeScope outer ident inner) := by
  unfold closeScope
  apply foldl_addReference_inv
  refine ⟨houter.1, houter.2.1, ?_⟩
  intro e he
  rcases mem_updateA he with he | he
  · exact hinner.2.2 e he
  · rw [he]
    exact mkScope_disjoint hinner

theorem ainv_inner0 {vc : VC} (h : AInv vc) : AInv (⟨vc.map, [], []⟩ : VC) :=
  ⟨by simp, by simp, h.2.2⟩

theorem pure_ok {α : Type} {a b : α} (h : (pure a : Except Str α) = .ok b) : a = b := by
  simpa [pure, Except.pure] using h

theorem throw_ne_ok {α : Type} {e : Str} {b : α} :
    (throw e : Except Str α) ≠ .ok b := by
  simp [throw, throwThe, MonadExceptOf.throw]

theorem aOptExpr_pres {rec : AnalF} (h : AnalFPres rec) (o : Option Expr) :
    AnalPres (fun vc => match o with | some u => rec.aExpr u vc | none => pure vc) := by
  intro vc vc' hinv hok
  cases o with
  | some u => exact h.expr u vc vc' hinv hok
  | none => exact (pure_ok hok) ▸ hinv

theorem aExprF_pres {rec : AnalF} (h : AnalFPres rec) :
    ∀ e, AnalPres (aExprF rec e) := by
  intro e vc vc' hinv hok
  cases e with
  | attr value attrName ctx =>
    simp only [aExprF] at hok
    obtain ⟨vc1, h1, h2⟩ := exceptBind_ok hok
    have hinv1 := h.expr value vc vc1 hinv h1
    cases ctx with
    | load => exact (pure_ok h2) ▸ hinv1
    | store => exact absurd h2 throw_ne_ok
    | del => exact absurd h2 throw_ne_ok
  | binop left op right =>
    simp only [aExprF] at hok
    obtain ⟨vc1, h1, h2⟩ := exceptBind_ok hok
    exact h.expr right vc1 vc' (h.expr left vc vc1 hinv h1) h2
  | call func args keywords =>
    simp only [aExprF] at hok
    obtain ⟨vc1, h1, hok⟩ := exceptBind_ok hok
    obtain ⟨vc2, h2, h3⟩ := exceptBind_ok hok
    exact h.exprList _ vc2 vc' (h.exprList args vc1 vc2 (h.expr func vc vc1 hinv h1) h2) h3
  | compare left ops comparators =>
    simp only [aExprF] at hok
    obtain ⟨vc1, h1, h2⟩ := exceptBind_ok hok
    exact h.exprList comparators vc1 vc' (h.expr left vc vc1 hinv h1) h2
  | const c =>
    simp only [aExprF] at hok
    exact (pure_ok hok) ▸ hinv
  | formattedValue value conversion format_spec =>
    simp only [aExprF] at hok
    obtain ⟨vc1, h1, hok⟩ := exceptBind_ok hok
    have hinv1 := h.expr value vc vc1 hinv h1
    by_cases hc : conversion ≠ -1
    · rw [if_pos hc] at hok
      obtain ⟨u, hu, _⟩ := exceptBind_ok hok
      exact absurd hu throw_ne_ok
    · rw [if_neg hc] at hok
      obtain ⟨u, _, hok⟩ := exceptBind_ok hok
      exact aOptExpr_pres h format_spec vc1 vc' hinv1 hok
  | generatorExp =>
    simp only [aExprF] at hok
    exact (pure_ok hok) ▸ hinv
  | joinedStr values =>
    simp only [aExprF] at hok
    exact h.exprList values vc vc' hinv hok
  | lambda ident args body =>
    simp only [aExprF] at hok
    obtain ⟨inner2, h1, h2⟩ := exceptBind_ok hok
    have hinner := h.expr body _ _ (addArgs_inv (ainv_inner0 hinv) args) h1
    exact (pure_ok h2) ▸ closeScope_inv hinv hinner ident
  | listE elts =>
    simp only [aExprF] at hok
    exact h.exprList elts vc vc' hinv hok
  | listComp elt generators =>
    simp only [aExprF] at hok
    exact h.lc generators elt vc vc' hinv hok
  | name id lineno col =>
    simp only [aExprF] at hok
    exact (pure_ok hok) ▸ addReference_inv hinv id lineno col
  | sliceE lower upper step =>
    simp only [aExprF] at hok
    have hstep : ∀ vc0 vc1, AInv vc0 →
        (match step with | some st => rec.aExpr st vc0 | none => pure vc0) = .ok vc1 →
        AInv vc1 := fun vc0 vc1 hi hk => aOptExpr_pres h step vc0 vc1 hi hk
    cases upper with
    | some u =>
      obtain ⟨vc1, h1, hok⟩ := exceptBind_ok hok
      have hinv1 := h.expr u vc vc1 hinv h1
      cases lower with
      | some l =>
        obtain ⟨vc2, h2, hok⟩ := exceptBind_ok hok
        exact hstep vc2 vc' (h.expr l vc1 vc2 hinv1 h2) hok
      | none =>
        obtain ⟨vc2, h2, hok⟩ := exceptBind_ok hok
        exact hstep vc2 vc' ((pure_ok h2) ▸ hinv1) hok
    | none =>
      obtain ⟨vc1, h1, hok⟩ := exceptBind_ok hok
      have hinv1 := (pure_ok h1) ▸ hinv
      cases lower with
      | some l =>
        obtain ⟨vc2, h2, hok⟩ := exceptBind_ok hok
        exact hstep vc2 vc' (h.expr l vc1 vc2 hinv1 h2) hok
      | none =>
        obtain ⟨vc2, h2, hok⟩ := exceptBind_ok hok
        exact hstep vc2 vc' ((pure_ok h2) ▸ hinv1) hok
  | subscript value slice =>
    simp only [aExprF] at hok
    obtain ⟨vc1, h1, h2⟩ := exceptBind_ok hok
    exact h.expr slice vc1 vc' (h.expr value vc vc1 hinv h1) h2
  | tuple elts =>
    simp only [aExprF] at hok
    exact h.exprList elts vc vc' hinv hok
  | unaryop op operand =>
    simp only [aExprF] at hok
    exact h.expr operand vc vc' hinv hok

theorem aExprListF_pres {rec : AnalF} (h : AnalFPres rec) :
    ∀ es, AnalPres (aExprListF rec es) := by
  intro es vc vc' hinv hok
  cases es with
  | nil =>
    simp only [aExprListF] at hok
    exact (pure_ok hok) ▸ hinv
  | cons e rest =>
    simp only [aExprListF] at hok
    obtain ⟨vc1, h1, h2⟩ := exceptBind_ok hok
    exact h.exprList rest vc1 vc' (h.expr e vc vc1 hinv h1) h2

theorem aAddLhsF_pres {rec : AnalF} (h : AnalFPres rec) :
    ∀ e, AnalPres (aAddLhsF rec e) := by
  intro e vc vc' hinv hok
  cases e with
  | tuple elts =>
    simp only [aAddLhsF] at hok
    exact h.addLhsList elts vc vc' hinv hok
  | name id lineno col =>
    simp only [aAddLhsF] at hok
    exact (pure_ok hok) ▸ addVar_inv hinv id
  | attr a b c => exact absurd hok throw_ne_ok
  | binop a b c => exact absurd hok throw_ne_ok
  | call a b c => exact absurd hok throw_ne_ok
  | compare a b c => exact absurd hok throw_ne_ok
  | const a => exact absurd hok throw_ne_ok
  | formattedValue a b c => exact absurd hok throw_ne_ok
  | generatorExp => exact absurd hok throw_ne_ok
  | joinedStr a => exact absurd hok throw_ne_ok
  | lambda a b c => exact absurd hok throw_ne_ok
  | listE a => exact absurd hok throw_ne_ok
  | listComp a b => exact absurd hok throw_ne_ok
  | sliceE a b c => exact absurd hok throw_ne_ok
  | subscript a b => exact absurd hok throw_ne_ok
  | unaryop a b => exact absurd hok throw_ne_ok

theorem aAddLhsListF_pres {rec : AnalF} (h : AnalFPres rec) :
    ∀ es, AnalPres (aAddLhsListF rec es) := by
  intro es vc vc' hinv hok
  cases es with
  | nil =>
    simp only [aAddLhsListF] at hok
    exact (pure_ok hok) ▸ hinv
  | cons e rest =>
    simp only [aAddLhsListF] at hok
    obtain ⟨vc1, h1, h2⟩ := exceptBind_ok hok
    exact h.addLhsList rest vc1 vc' (h.addLhs e vc vc1 hinv h1) h2

theorem aAssignLhsF_pres {rec : AnalF} (h : AnalFPres rec) :
    ∀ e, AnalPres (aAssignLhsF rec e) := by
  intro e vc vc' hinv hok
  cases e with
  | subscript value slice =>
    simp only [aAssignLhsF] at hok
    obtain ⟨vc1, h1, h2⟩ := exceptBind_ok hok
    exact h.expr slice vc1 vc' (h.expr value vc vc1 hinv h1) h2
  | tuple elts => exact h.addLhs (.tuple elts) vc vc' hinv hok
  | name id lineno col => exact h.addLhs (.name id lineno col) vc vc' hinv hok
  | attr a b c => exact h.addLhs (.attr a b c) vc vc' hinv hok
  | binop a b c => exact h.addLhs (.binop a b c) vc vc' hinv hok
  | call a b c => exact h.addLhs (.call a b c) vc vc' hinv hok
  | compare a b c => exact h.addLhs (.compare a b c) vc vc' hinv hok
  | const a => exact h.addLhs (.const a) vc vc' hinv hok
  | formattedValue a b c => exact h.addLhs (.formattedValue a b c) vc vc' hinv hok
  | generatorExp => exact h.addLhs .generatorExp vc vc' hinv hok
  | joinedStr a => exact h.addLhs (.joinedStr a) vc vc' hinv hok
  | lambda a b c => exact h.addLhs (.lambda a b c) vc vc' hinv hok
  | listE a => exact h.addLhs (.listE a) vc vc' hinv hok
  | listComp a b => exact h.addLhs (.listComp a b) vc vc' hinv hok
  | sliceE a b c => exact h.addLhs (.sliceE a b c) vc vc' hinv hok
  | unaryop a b => exact h.addLhs (.unaryop a b) vc vc' hinv hok

theorem aAssignLhsListF_pres {rec : AnalF} (h : AnalFPres rec) :
    ∀ es, AnalPres (aAssignLhsListF rec es) := by
  intro es vc vc' hinv hok
  cases es with
  | nil =>
    simp only [aAssignLhsListF] at hok
    exact (pure_ok hok) ▸ hinv
  | cons e rest =>
    simp only [aAssignLhsListF] at hok
    obtain ⟨vc1, h1, h2⟩ := exceptBind_ok hok
    exact h.assignLhsList rest vc1 vc' (h.assignLhs e vc vc1 hinv h1) h2

theorem aLCF_pres {rec : AnalF} (h : AnalFPres rec) :
    ∀ gens elt, AnalPres (aLCF rec gens elt) := by
  intro gens elt vc vc' hinv hok
  cases gens with
  | nil =>
    simp only [aLCF] at hok
    exact h.expr elt vc vc' hinv hok
  | cons g rest =>
    simp only [aLCF] at hok
    by_cases ha : g.isAsync = true
    · rw [if_pos ha] at hok
      obtain ⟨u, hu, _⟩ := exceptBind_ok hok
      exact absurd hu throw_ne_ok
    · rw [if_neg ha] at hok
      obtain ⟨u1, _, hok⟩ := exceptBind_ok hok
      by_cases hb : g.ifsEmpty = false
      · rw [if_pos hb] at hok
        obtain ⟨u, hu, _⟩ := exceptBind_ok hok
        exact absurd hu throw_ne_ok
      · rw [if_neg hb] at hok
        obtain ⟨u2, _, hok⟩ := exceptBind_ok hok
        obtain ⟨vc1, h1, hok⟩ := exceptBind_ok hok
        have hinv1 := h.expr g.iter vc vc1 hinv h1
        obtain ⟨inner1, h2, hok⟩ := exceptBind_ok hok
        have hinner1 := h.addLhs g.target _ _ (ainv_inner0 hinv1) h2
        obtain ⟨inner2, h3, h4⟩ := exceptBind_ok hok
        have hinner2 := h.lc rest elt _ _ hinner1 h3
        exact (pure_ok h4) ▸ closeScope_inv hinv1 hinner2 g.ident

theorem aStmtF_pres {rec : AnalF} (h : AnalFPres rec) :
    ∀ st, AnalPres (aStmtF rec st) := by
  intro st vc vc' hinv hok
  cases st with
  | assign targets value =>
    simp only [aStmtF] at hok
    obtain ⟨vc1, h1, h2⟩ := exceptBind_ok hok
    exact h.assignLhsList targets vc1 vc' (h.expr value vc vc1 hinv h1) h2
  | augAssign target op value =>
    simp only [aStmtF] at hok
    obtain ⟨vc1, h1, h2⟩ := exceptBind_ok hok
    exact h.expr value vc1 vc' (h.assignLhs target vc vc1 hinv h1) h2
  | exprStmt value =>
    simp only [aStmtF] at hok
    exact h.expr value vc vc' hinv hok
  | forStmt target iter body orelse =>
    simp only [aStmtF] at hok
    obtain ⟨vc1, h1, hok⟩ := exceptBind_ok hok
    obtain ⟨vc2, h2, hok⟩ := exceptBind_ok hok
    obtain ⟨vc3, h3, h4⟩ := exceptBind_ok hok
    exact h.stmts orelse vc3 vc'
      (h.stmts body vc2 vc3 (h.expr iter vc1 vc2 (h.addLhs target vc vc1 hinv h1) h2) h3) h4
  | functionDef ident fname args body =>
    simp only [aStmtF] at hok
    obtain ⟨inner2, h1, h2⟩ := exceptBind_ok hok
    have hvc := addVar_inv hinv fname
    have hinner := h.stmts body _ _ (addArgs_inv (ainv_inner0 hvc) args) h1
    exact (pure_ok h2) ▸ closeScope_inv hvc hinner ident
  | ifStmt test body orelse =>
    simp only [aStmtF] at hok
    obtain ⟨vc1, h1, hok⟩ := exceptBind_ok hok
    have hinv1 := h.expr test vc vc1 hinv h1
    have hfin : ∀ vc2, AInv vc2 →
        (if orelse.isEmpty = true then pure vc2 else rec.aStmts orelse vc2) = .ok vc' →
        AInv vc' := by
      intro vc2 hi hk
      by_cases ho : orelse.isEmpty = true
      · rw [if_pos ho] at hk
        exact (pure_ok hk) ▸ hi
      · rw [if_neg ho] at hk
        exact h.stmts orelse vc2 vc' hi hk
    by_cases hb : body.isEmpty = true
    · rw [if_pos hb] at hok
      obtain ⟨vc2, h2, hok⟩ := exceptBind_ok hok
      exact hfin vc2 ((pure_ok h2) ▸ hinv1) hok
    · rw [if_neg hb] at hok
      obtain ⟨vc2, h2, hok⟩ := exceptBind_ok hok
      exact hfin vc2 (h.stmts body vc1 vc2 hinv1 h2) hok
  | importStmt names =>
    simp only [aStmtF] at hok
    refine (pure_ok hok) ▸ ?_
    clear hok
    revert hinv
    revert vc
    induction names with
    | nil => exact fun vc hinv => hinv
    | cons nm rest ih => exact fun vc hinv => ih _ (addVar_inv hinv (nm.2.getD nm.1))
  | ret value =>
    simp only [aStmtF] at hok
    cases value with
    | some v => exact h.expr v vc vc' hinv hok
    | none => exact (pure_ok hok) ▸ hinv
  | withStmt items body =>
    simp only [aStmtF] at hok
    obtain ⟨vc1, h1, h2⟩ := exceptBind_ok hok
    exact h.stmts body vc1 vc' (h.exprList _ vc vc1 hinv h1) h2
  | whileStmt test body orelse =>
    simp only [aStmtF] at hok
    obtain ⟨vc1, h1, hok⟩ := exceptBind_ok hok
    obtain ⟨vc2, h2, h3⟩ := exceptBind_ok hok
    exact h.stmts orelse vc2 vc'
      (h.stmts body vc1 vc2 (h.expr test vc vc1 hinv h1) h2) h3

theorem aStmtsF_pres {rec : AnalF} (h : AnalFPres rec) :
    ∀ sts, AnalPres (aStmtsF rec sts) := by
  intro sts vc vc' hinv hok
  cases sts with
  | nil =>
    simp only [aStmtsF] at hok
    exact (pure_ok hok) ▸ hinv
  | cons st rest =>
    simp only [aStmtsF] at hok
    obtain ⟨vc1, h1, h2⟩ := exceptBind_ok hok
    exact h.stmts rest vc1 vc' (h.stmt st vc vc1 hinv h1) h2

theorem analFail_pres : AnalFPres analFail := by
  constructor <;>
    first
      | exact fun _ _ _ _ hok => absurd hok throw_ne_ok
      | exact fun _ _ _ _ _ hok => absurd hok throw_ne_ok

theorem analStep_pres {rec : AnalF} (h : AnalFPres rec) : AnalFPres (analStep rec) :=
  ⟨aExprF_pres h, aExprListF_pres h, aAddLhsF_pres h, aAddLhsListF_pres h,
   aAssignLhsF_pres h, aAssignLhsListF_pres h, aLCF_pres h, aStmtF_pres h, aStmtsF_pres h⟩

theorem analAt_pres : ∀ n, AnalFPres (analAt n)
  | 0 => analFail_pres
  | n + 1 => analStep_pres (analAt_pres n)

/-- C9: for every AST and every `VariableScope` the scope analyzer
produces — the scopes stored in the scope map and the module-level
scope — the set of locally defined names and the names of the free
references are disjoint. -/
theorem C9_locals_free_disjoint (fuel : Nat) (body : List Stmt) (vc : VC)
    (h : analyzeModule fuel body = .ok vc) :
    (∀ e ∈ vc.map, ScopeDisjoint e.2) ∧ ScopeDisjoint vc.mkScope := by
  have hinv : AInv vc :=
    (analAt_pres fuel).stmts body ⟨[], [], []⟩ vc ⟨by simp, by simp, by simp⟩ h
  exact ⟨hinv.2.2, mkScope_disjoint hinv⟩

/-- Witness for C9 at a concrete program: `f = lambda x: x + y`
analyzes to a known capture state, and the theorem applies to it. -/
theorem C9_locals_free_disjoint_witness :
    (∀ e ∈ (⟨[(100, ⟨[str "x"], [(str "y", 1, 19)]⟩)], [str "f"],
        [(str "y", 1, 19)]⟩ : VC).map, ScopeDisjoint e.2) ∧
      ScopeDisjoint (⟨[(100, ⟨[str "x"], [(str "y", 1, 19)]⟩)], [str "f"],
        [(str "y", 1, 19)]⟩ : VC).mkScope :=
  C9_locals_free_disjoint 20
    [.assign [.name (str "f") 1 0]
      (.lambda 100 [str "x"]
        (.binop (.name (str "x") 1 15) .add (.name (str "y") 1 19)))]
    ⟨[(100, ⟨[str "x"], [(str "y", 1, 19)]⟩)], [str "f"], [(str "y", 1, 19)]⟩ rfl

/-! ## C8: the "Unknown variables" fatal error -/

theorem flatten_decomp {x : Str} :
    ∀ (L : List Str), x ∈ L → ∃ A B, L.flatten = A ++ (x ++ B) := by
  intro L
  induction L with
  | nil => intro h; simp at h
  | cons hd tl ih =>
    intro h
    rcases List.mem_cons.mp h with h | h
    · exact ⟨[], tl.flatten, by simp [h]⟩
    · obtain ⟨A, B, hAB⟩ := ih h
      exact ⟨hd ++ A, B, by simp [hAB]⟩

/-- C8: when the module-level scope analysis leaves free references,
`translateModule` fails with a message that is exactly the
"Unknown variables" header followed by one `line:col: name` line per
offender; the message begins with "Unknown variables", every offender's
line appears in it, and the module state still contains no function. -/
theorem C8_unknown_variables (fuel : Nat) (body : List Stmt) (vc : VC)
    (hana : analyzeModule fuel body = .ok vc) (hrefs : vc.references ≠ []) :
    translateModule fuel body =
      (.error (unknownVariablesMsg vc.references), emptyEmitState) ∧
    (∃ rest, unknownVariablesMsg vc.references = str "Unknown variables" ++ rest) ∧
    (∀ r ∈ vc.references, ∃ pre post,
      unknownVariablesMsg vc.references = pre ++ (offenderLine r ++ post)) ∧
    emptyEmitState.funcs = [] := by
  have hempty : vc.references.isEmpty = false := by
    cases h : vc.references with
    | nil => exact absurd h hrefs
    | cons a l => simp [h]
  refine ⟨?_, ?_, ?_, rfl⟩
  · simp only [translateModule, hana, hempty]
    simp
  · refine ⟨str ":\n" ++ (vc.references.map offenderLine).flatten, ?_⟩
    have hsplit : str "Unknown variables:\n" = str "Unknown variables" ++ str ":\n" := by
      decide
    rw [unknownVariablesMsg, hsplit, List.append_assoc]
  · intro r hr
    obtain ⟨A, B, hAB⟩ := flatten_decomp (vc.references.map offenderLine)
      (List.mem_map_of_mem offenderLine hr)
    exact ⟨str "Unknown variables:\n" ++ A, B, by
      rw [unknownVariablesMsg, hAB, List.append_assoc]⟩

/-- Witness for C8 at the concrete program `foo` (a bare reference to an
undefined name at line 3, column 4). -/
theorem C8_unknown_variables_witness :
    translateModule 20 [.exprStmt (.name (str "foo") 3 4)] =
      (.error (unknownVariablesMsg [(str "foo", 3, 4)]), emptyEmitState) ∧
    (∃ rest, unknownVariablesMsg [(str "foo", 3, 4)] = str "Unknown variables" ++ rest) ∧
    (∀ r ∈ [(str "foo", 3, 4)], ∃ pre post,
      unknownVariablesMsg [(str "foo", 3, 4)] = pre ++ (offenderLine r ++ post)) ∧
    emptyEmitState.funcs = [] :=
  C8_unknown_variables 20 [.exprStmt (.name (str "foo") 3 4)]
    ⟨[], [], [(str "foo", 3, 4)]⟩ rfl (by decide)

/-! ## C10: boolean constants take the integer branch -/

/-- C10: a boolean constant does not raise; because Python's `bool` is a
subclass of `int`, `visit_Constant` classifies it as an integer and
emits `s64_lit 1` for `True` and `s64_lit 0` for `False` in the current
block, whatever the surrounding state. -/
theorem C10_bool_constant (fuel : Nat) (b : Bool) (tr : Tr) (s : EmitState) :
    visitExpr (fuel + 1) (.const (.bool b)) tr s =
      .ok (s.nextValue, tr,
        { s with nextValue := s.nextValue + 1,
                 ops := s.ops ++
                   [⟨tr.block, .s64Lit (if b then 1 else 0), some s.nextValue⟩] }) := by
  cases b <;> rfl

/-! ## C2: chained comparisons reuse the previous RESULT, not the
previous right operand (evidence for the divergence) -/

/-- Lowering `a < b < c` (cells `a ↦ 0`, `b ↦ 1`, `c ↦ 2`): the first
comparison is `lt 3 4` (the loads of `a` and `b`); the second is
`lt 7 8` where `8` loads `c` but `7` is the block argument of the first
comparison's success successor (block 2) — the first comparison's
RESULT — and not `4`, the right operand the spec says is reused. -/
theorem C2_compare_left_is_result :
    (resultOps (visitExpr 20
        (.compare (.name (str "a") 1 0) [.lt, .lt]
          [.name (str "b") 1 4, .name (str "c") 1 8])
        ⟨0, [], none, [(str "a", 0), (str "b", 1), (str "c", 2)], 99⟩
        ⟨3, [⟨0, []⟩], [], [str "main"], [], []⟩)).filterMap
      (fun op => match op.kind with
        | .binOp k l r succs => some (k, l, r, succs)
        | _ => none) =
      [(.cmp .lt, 3, 4, [2, 1]), (.cmp .lt, 7, 8, [3, 1])] ∧
    resultBlocks (visitExpr 20
        (.compare (.name (str "a") 1 0) [.lt, .lt]
          [.name (str "b") 1 4, .name (str "c") 1 8])
        ⟨0, [], none, [(str "a", 0), (str "b", 1), (str "c", 2)], 99⟩
        ⟨3, [⟨0, []⟩], [], [str "main"], [], []⟩) =
      [⟨0, []⟩, ⟨0, [5]⟩, ⟨0, [7]⟩, ⟨0, [9]⟩] ∧
    (7 : Value) ≠ 4 := by
  refine ⟨?_, ?_, by decide⟩ <;> rfl

/-! ## C1: `visit_ListComp` returns the lowered iterable, not the list
handle (evidence for the divergence) -/

/-- Lowering `[x for x in xs]` (cell `xs ↦ 0`, generator scope
`{x}`): the empty list is created as `listOp []` with handle 3, the
iterable lowers to `cellLoad 0` with handle 5, and the expression's
returned value is 5 — the iterable — while the cursor does end at the
final block (2) with cell map and scope value restored. -/
theorem C1_listcomp_returns_iterable :
    resultValue (visitExpr 20
        (.listComp (.name (str "x") 1 1)
          [.mk 50 (.name (str "x") 1 7) (.name (str "xs") 1 12) false []])
        ⟨0, [], none, [(str "xs", 0)], 90⟩
        ⟨1, [⟨0, []⟩], [], [str "main"], [], [(50, ⟨[str "x"], []⟩)]⟩) = some 5 ∧
    (resultOps (visitExpr 20
        (.listComp (.name (str "x") 1 1)
          [.mk 50 (.name (str "x") 1 7) (.name (str "xs") 1 12) false []])
        ⟨0, [], none, [(str "xs", 0)], 90⟩
        ⟨1, [⟨0, []⟩], [], [str "main"], [], [(50, ⟨[str "x"], []⟩)]⟩)).filter
      (fun op => op.kind == OpKind.listOp []) = [⟨0, .listOp [], some 3⟩] ∧
    (resultOps (visitExpr 20
        (.listComp (.name (str "x") 1 1)
          [.mk 50 (.name (str "x") 1 7) (.name (str "xs") 1 12) false []])
        ⟨0, [], none, [(str "xs", 0)], 90⟩
        ⟨1, [⟨0, []⟩], [], [str "main"], [], [(50, ⟨[str "x"], []⟩)]⟩)).filter
      (fun op => op.kind == OpKind.cellLoad 0) = [⟨0, .cellLoad 0, some 5⟩] ∧
    resultTr (visitExpr 20
        (.listComp (.name (str "x") 1 1)
          [.mk 50 (.name (str "x") 1 7) (.name (str "xs") 1 12) false []])
        ⟨0, [], none, [(str "xs", 0)], 90⟩
        ⟨1, [⟨0, []⟩], [], [str "main"], [], [(50, ⟨[str "x"], []⟩)]⟩) =
      some ⟨2, [], some 1, [(str "xs", 0)], 90⟩ ∧
    (5 : Value) ≠ 3 := by
  refine ⟨?_, ?_, ?_, ?_, by decide⟩ <;> rfl

/-! ## C3: a bare `return` crashes instead of returning `none`
(evidence for the divergence) -/

/-- A `return` with no value raises AttributeError (the source reads
`self.funTranslator`, never set on `Translator`) instead of lowering the
none value. -/
theorem C3_bare_return_attribute_error :
    visitStmt 20 (.ret none) ⟨0, [], none, [], 90⟩
        ⟨1, [⟨0, []⟩], [], [str "main"], [], []⟩ =
      .error (str "AttributeError: funTranslator") := rfl

/-! ## C4: a `with ... as` binding crashes instead of storing the
`__enter__` result (evidence for the divergence) -/

/-- `with x as y: 1` raises AttributeError (the source stores through
`self.map`, an attribute `Translator` does not have) instead of storing
the `__enter__` result into the binding's cell. -/
theorem C4_with_binding_attribute_error :
    visitStmt 20
        (.withStmt [(.name (str "x") 1 5, some (str "y"))]
          [.exprStmt (.const (.int 1))])
        ⟨0, [], none, [(str "x", 0)], 90⟩
        ⟨1, [⟨0, []⟩], [], [str "main"], [], []⟩ =
      .error (str "AttributeError: map") := rfl

/-! ## C6: `invoke_next` routes StopIteration to the done block -/

/-- Explicit computation of one `invoke_next` emission. -/
theorem invoke_next_run (s : EmitState) (next : Value) (cur done thr : BlockId) :
    invoke_next s next cur done thr =
      ((s.blocks.length, s.blocks.length + 1, s.nextValue),
       { s with
          nextValue := s.nextValue + 3,
          blocks := s.blocks ++
            [⟨((s.blocks[cur]?).map (·.func)).getD 0, []⟩,
             ⟨((s.blocks[cur]?).map (·.func)).getD 0, [s.nextValue]⟩,
             ⟨((s.blocks[cur]?).map (·.func)).getD 0, [s.nextValue + 1]⟩],
          ops := s.ops ++
            [⟨cur, .branch [] s.blocks.length, none⟩,
             ⟨s.blocks.length, .invokeOp next [] []
               [s.blocks.length + 1, s.blocks.length + 2], none⟩,
             ⟨s.blocks.length + 2,
               .isInstanceOp (s.nextValue + 1) (str "StopIteration"),
               some (s.nextValue + 2)⟩,
             ⟨s.blocks.length + 2,
               .condBranch (s.nextValue + 2) [] [s.nextValue + 1] done thr,
               none⟩] }) := by
  have h1 : ∀ a : BlockInfo, (s.blocks ++ [a])[s.blocks.length]? = some a := fun a =>
    List.getElem?_concat_length s.blocks a
  have h2 : ∀ a b : BlockInfo, (s.blocks ++ [a, b])[s.blocks.length]? = some a := by
    intro a b
    rw [show s.blocks ++ [a, b] = (s.blocks ++ [a]) ++ [b] by simp,
      List.getElem?_append_left (by simp), List.getElem?_concat_length]
  simp only [invoke_next, createBlockAfter, freshValues, freshValue, emitOp, emitOpV,
    List.range_succ, List.range_zero, List.map_nil, List.map_cons, List.headD,
    List.length_append, List.length_cons, List.length_nil, List.nil_append,
    List.cons_append, List.append_assoc, h1, h2]
  norm_num

/-- C6: in the control-flow fragment `invoke_next` emits, the inner
invoke's failure successor is the isinstance-test block; from that
block, a thrown StopIteration instance is dispatched to the provided
done block (never to the throw block), and any other thrown value is
dispatched to the throw block together with the thrown value. -/
theorem C6_invoke_next_stop_iteration (next : Value) (cur done thr : BlockId)
    (s : EmitState)
    (hvalid : ∀ op ∈ s.ops, op.block < s.blocks.length)
    (hcur : cur < s.blocks.length) (hdt : done ≠ thr) :
    ∃ bb v s' exc,
      invoke_next s next cur done thr = ((s.blocks.length, bb, v), s') ∧
      blockArgs s' (s.blocks.length + 2) = [exc] ∧
      opsOf s' s.blocks.length =
        [⟨s.blocks.length, .invokeOp next [] []
          [s.blocks.length + 1, s.blocks.length + 2], none⟩] ∧
      (∀ stop, stopDispatch s' (s.blocks.length + 2) stop =
        some (if stop then (done, []) else (thr, [exc]))) ∧
      (∀ stop target args,
        stopDispatch s' (s.blocks.length + 2) stop = some (target, args) →
        (stop = true → target = done ∧ target ≠ thr) ∧
        (stop = false → target = thr ∧ args = [exc])) := by
  refine ⟨s.blocks.length + 1, s.nextValue,
    { s with
        nextValue := s.nextValue + 3,
        blocks := s.blocks ++
          [⟨((s.blocks[cur]?).map (·.func)).getD 0, []⟩,
           ⟨((s.blocks[cur]?).map (·.func)).getD 0, [s.nextValue]⟩,
           ⟨((s.blocks[cur]?).map (·.func)).getD 0, [s.nextValue + 1]⟩],
        ops := s.ops ++
          [⟨cur, .branch [] s.blocks.length, none⟩,
           ⟨s.blocks.length, .invokeOp next [] []
             [s.blocks.length + 1, s.blocks.length + 2], none⟩,
           ⟨s.blocks.length + 2,
             .isInstanceOp (s.nextValue + 1) (str "StopIteration"),
             some (s.nextValue + 2)⟩,
           ⟨s.blocks.length + 2,
             .condBranch (s.nextValue + 2) [] [s.nextValue + 1] done thr,
             none⟩] },
    s.nextValue + 1, invoke_next_run s next cur done thr, ?_, ?_, ?_, ?_⟩
  · simp only [blockArgs]
    rw [List.getElem?_append_right (by omega)]
    simp
  · have hnil : s.ops.filter (fun op => op.block == s.blocks.length) = [] := by
      rw [List.filter_eq_nil_iff]
      intro op hop
      simp [Nat.ne_of_lt (hvalid op hop)]
    have hc : cur ≠ s.blocks.length := Nat.ne_of_lt hcur
    have h2 : s.blocks.length + 2 ≠ s.blocks.length := by omega
    simp [opsOf, List.filter_append, hnil, hc, h2]
  · have hnil : s.ops.filter (fun op => op.block == s.blocks.length + 2) = [] := by
      rw [List.filter_eq_nil_iff]
      intro op hop
      have h3 := hvalid op hop
      have h4 : op.block ≠ s.blocks.length + 2 :=
        Nat.ne_of_lt (Nat.lt_add_right 2 h3)
      simp [h4]
    have hc : cur ≠ s.blocks.length + 2 :=
      Nat.ne_of_lt (Nat.lt_add_right 2 hcur)
    have h2 : s.blocks.length ≠ s.blocks.length + 2 := by omega
    intro stop
    cases stop <;>
      simp [stopDispatch, opsOf, List.filter_append, hnil, hc, h2]
  · have hnil : s.ops.filter (fun op => op.block == s.blocks.length + 2) = [] := by
      rw [List.filter_eq_nil_iff]
      intro op hop
      have h3 := hvalid op hop
      have h4 : op.block ≠ s.blocks.length + 2 :=
        Nat.ne_of_lt (Nat.lt_add_right 2 h3)
      simp [h4]
    have hc : cur ≠ s.blocks.length + 2 :=
      Nat.ne_of_lt (Nat.lt_add_right 2 hcur)
    have h2 : s.blocks.length ≠ s.blocks.length + 2 := by omega
    intro stop target args hdisp
    cases stop with
    | true =>
      simp [stopDispatch, opsOf, List.filter_append, hnil, hc, h2] at hdisp
      refine ⟨fun _ => ⟨hdisp.1.symm, ?_⟩, fun h => by simp at h⟩
      rw [hdisp.1.symm]
      exact hdt
    | false =>
      simp [stopDispatch, opsOf, List.filter_append, hnil, hc, h2] at hdisp
      exact ⟨fun h => by simp at h, fun _ => ⟨hdisp.1.symm, hdisp.2.symm⟩⟩

/-- Witness for C6 at a concrete state: one existing block, no ops,
`next = 4`, cursor block 0, done block 7, throw block 9. -/
theorem C6_invoke_next_stop_iteration_witness :
    ∃ bb v s' exc,
      invoke_next ⟨5, [⟨0, []⟩], [], [str "main"], [], []⟩ 4 0 7 9 = ((1, bb, v), s') ∧
      blockArgs s' 3 = [exc] ∧
      opsOf s' 1 = [⟨1, .invokeOp 4 [] [] [2, 3], none⟩] ∧
      (∀ stop, stopDispatch s' 3 stop =
        some (if stop then ((7 : BlockId), ([] : List Value)) else (9, [exc]))) ∧
      (∀ stop target args, stopDispatch s' 3 stop = some (target, args) →
        (stop = true → target = 7 ∧ target ≠ 9) ∧
        (stop = false → target = 9 ∧ args = [exc])) :=
  C6_invoke_next_stop_iteration 4 0 7 9 ⟨5, [⟨0, []⟩], [], [str "main"], [], []⟩
    (by intro op hop; simp at hop) (by decide) (by decide)

/-! ## C5: landing-pad uniqueness and the fallible-op protocol

### Monotonicity of the invariants under state growth -/

theorem extends_refl (s : EmitState) : Extends s s :=
  ⟨⟨[], by simp⟩, ⟨[], by simp⟩, ⟨[], by simp⟩⟩

theorem extends_trans {s1 s2 s3 : EmitState} (h12 : Extends s1 s2) (h23 : Extends s2 s3) :
    Extends s1 s3 := by
  obtain ⟨⟨tb, htb⟩, ⟨to2, hto⟩, ⟨tf, htf⟩⟩ := h12
  obtain ⟨⟨tb', htb'⟩, ⟨to2', hto'⟩, ⟨tf', htf'⟩⟩ := h23
  exact ⟨⟨tb ++ tb', by simp [htb', htb]⟩, ⟨to2 ++ to2', by simp [hto', hto]⟩,
    ⟨tf ++ tf', by simp [htf', htf]⟩⟩

theorem blocks_length_mono {s s' : EmitState} (h : Extends s s') :
    s.blocks.length ≤ s'.blocks.length := by
  obtain ⟨⟨t, ht⟩, _, _⟩ := h
  simp [ht]

theorem funcs_length_mono {s s' : EmitState} (h : Extends s s') :
    s.funcs.length ≤ s'.funcs.length := by
  obtain ⟨_, _, ⟨t, ht⟩⟩ := h
  simp [ht]

theorem opsOf_extends {s s' : EmitState} (h : Extends s s') (b : BlockId) :
    ∃ t, opsOf s' b = opsOf s b ++ t := by
  obtain ⟨_, ⟨t, ht⟩, _⟩ := h
  exact ⟨t.filter (fun op => op.block == b), by simp [opsOf, ht, List.filter_append]⟩

theorem padAt_mono {s s' : EmitState} {b : BlockId} (h : Extends s s') (hp : padAt s b) :
    padAt s' b := by
  obtain ⟨op, rest, hops, v, hk⟩ := hp
  obtain ⟨t, ht⟩ := opsOf_extends h b
  exact ⟨op, rest ++ t, by rw [ht, hops, List.cons_append], v, hk⟩

theorem blockFunc_mono {s s' : EmitState} {b : BlockId} (h : Extends s s')
    (hb : b < s.blocks.length) : blockFunc s' b = blockFunc s b := by
  obtain ⟨⟨t, ht⟩, _, _⟩ := h
  simp [blockFunc, ht, List.getElem?_append_left hb]

theorem blockFunc_congr {s s' : EmitState} (hblocks : s'.blocks = s.blocks) (b : BlockId) :
    blockFunc s' b = blockFunc s b := by
  simp [blockFunc, hblocks]

/-- A landing pad is a real block (it holds an op). -/
theorem padAt_valid {s : EmitState} {b : BlockId}
    (hov : ∀ op ∈ s.ops, op.block < s.blocks.length) (hp : padAt s b) :
    b < s.blocks.length := by
  obtain ⟨op, rest, hops, _⟩ := hp
  have hmem : op ∈ opsOf s b := by
    rw [hops]
    exact List.mem_cons_self _ _
  have hmf := List.mem_filter.mp hmem
  have hble : op.block = b := by simpa using hmf.2
  exact hble ▸ hov op hmf.1

/-- A test block named by `failTargetOk` is a real block. -/
theorem failTarget_valid {s : EmitState} {f : FuncId} {b : BlockId}
    (hov : ∀ op ∈ s.ops, op.block < s.blocks.length) (h : failTargetOk s f b) :
    b < s.blocks.length := by
  rcases h with ⟨hp, _⟩ | ⟨o1, o2, rest, hops, _⟩
  · exact padAt_valid hov hp
  · have hmem : o1 ∈ opsOf s b := by
      rw [hops]
      exact List.mem_cons_self _ _
    have hmf := List.mem_filter.mp hmem
    have hble : o1.block = b := by simpa using hmf.2
    exact hble ▸ hov o1 hmf.1

theorem failTargetOk_mono {s s' : EmitState} {f : FuncId} {b : BlockId}
    (hov : ∀ op ∈ s.ops, op.block < s.blocks.length)
    (h : Extends s s') (hft : failTargetOk s f b) : failTargetOk s' f b := by
  rcases hft with ⟨hp, hf⟩ | ⟨o1, o2, rest, hops, h1, c, ta, fa, td, fd, hk, hp, hf⟩
  · exact Or.inl ⟨padAt_mono h hp, by rw [blockFunc_mono h (padAt_valid hov hp), hf]⟩
  · obtain ⟨t, ht⟩ := opsOf_extends h b
    refine Or.inr ⟨o1, o2, rest ++ t, by rw [ht, hops]; simp, h1,
      c, ta, fa, td, fd, hk, padAt_mono h hp, ?_⟩
    rw [blockFunc_mono h (padAt_valid hov hp), hf]

theorem FallibleOk_mono {s s' : EmitState} {op : Op}
    (hov : ∀ op ∈ s.ops, op.block < s.blocks.length)
    (h : Extends s s') (hb : op.block < s.blocks.length)
    (hf : FallibleOk s op) : FallibleOk s' op := by
  intro hfal
  obtain ⟨f, rb, fb, hbf, hsucc, hft⟩ := hf hfal
  exact ⟨f, rb, fb, by rw [blockFunc_mono h hb, hbf], hsucc, failTargetOk_mono hov h hft⟩

/-- Transfer of the translator invariant along a growth step that
created no pad (the pad sets coincide). -/
theorem TINV_mono {tr : Tr} {s s' : EmitState} (ht : TINV tr s)
    (hov : ∀ op ∈ s.ops, op.block < s.blocks.length)
    (h : Extends s s')
    (hpads : ∀ b, padAt s' b → padAt s b) : TINV tr s' := by
  obtain ⟨hb, hsome, hnone⟩ := ht
  refine ⟨lt_of_lt_of_le hb (blocks_length_mono h), ?_, ?_⟩
  · intro b hbe
    obtain ⟨hp, hf⟩ := hsome b hbe
    exact ⟨padAt_mono h hp,
      by rw [blockFunc_mono h (padAt_valid hov hp), blockFunc_mono h hb, hf]⟩
  · intro hne b hp
    have hps := hpads b hp
    rw [blockFunc_mono h (padAt_valid hov hps), blockFunc_mono h hb]
    exact hnone hne b hps

/-! ### Appending one op -/

theorem opsOf_append_one {s s' : EmitState} {newOp : Op}
    (hops : s'.ops = s.ops ++ [newOp]) (b : BlockId) :
    opsOf s' b = opsOf s b ++ if newOp.block = b then [newOp] else [] := by
  simp only [opsOf, hops, List.filter_append]
  congr 1
  by_cases h : newOp.block = b <;> simp [h]

/-- Appending a non-`MkExceptOp` op changes no block's pad status. -/
theorem padAt_append_iff {s s' : EmitState} {newOp : Op}
    (hops : s'.ops = s.ops ++ [newOp])
    (hk : ∀ v, newOp.kind ≠ OpKind.mkExcept v) (b : BlockId) :
    padAt s' b ↔ padAt s b := by
  constructor
  · rintro ⟨op, rest, hob, v, hkind⟩
    rw [opsOf_append_one hops] at hob
    by_cases hbb : newOp.block = b
    · rw [if_pos hbb] at hob
      cases hcase : opsOf s b with
      | nil =>
        rw [hcase, List.nil_append] at hob
        have h1 : newOp = op := (List.cons.inj hob).1
        have h2 : newOp.kind = OpKind.mkExcept v := by
          rw [h1]
          exact hkind
        exact absurd h2 (hk v)
      | cons o os =>
        rw [hcase, List.cons_append] at hob
        exact ⟨o, os, hcase, v, by rw [(List.cons.inj hob).1]; exact hkind⟩
    · rw [if_neg hbb, List.append_nil] at hob
      exact ⟨op, rest, hob, v, hkind⟩
  · rintro ⟨op, rest, hob, v, hkind⟩
    refine ⟨op, rest ++ if newOp.block = b then [newOp] else [], ?_, v, hkind⟩
    rw [opsOf_append_one hops, hob, List.cons_append]

theorem GINV_append_nonfallible {s s' : EmitState} {newOp : Op} (hg : GINV s)
    (hops : s'.ops = s.ops ++ [newOp])
    (hblocks : s'.blocks = s.blocks) (hfuncs : s'.funcs = s.funcs)
    (hvalid : newOp.block < s.blocks.length)
    (hfal : newOp.kind.fallible = false)
    (hmk : ∀ v, newOp.kind ≠ OpKind.mkExcept v) : GINV s' := by
  have hext : Extends s s' :=
    ⟨⟨[], by simp [hblocks]⟩, ⟨[newOp], hops⟩, ⟨[], by simp [hfuncs]⟩⟩
  obtain ⟨hov, hbf, hpads, hfall⟩ := hg
  refine ⟨?_, ?_, ?_, ?_⟩
  · intro op hop
    rw [hops] at hop
    rw [hblocks]
    rcases List.mem_append.mp hop with hop | hop
    · exact hov op hop
    · simp only [List.mem_singleton] at hop
      rw [hop]
      exact hvalid
  · rw [hblocks, hfuncs]
    exact hbf
  · intro b1 b2 h1 h2 heq
    rw [blockFunc_congr hblocks, blockFunc_congr hblocks] at heq
    exact hpads b1 b2 ((padAt_append_iff hops hmk b1).mp h1)
      ((padAt_append_iff hops hmk b2).mp h2) heq
  · intro op hop
    rw [hops] at hop
    rcases List.mem_append.mp hop with hop | hop
    · exact FallibleOk_mono hov hext (hov op hop) (hfall op hop)
    · simp only [List.mem_singleton] at hop
      subst hop
      intro hf
      rw [hfal] at hf
      exact absurd hf (by simp)

theorem GINV_append_fallible {s s' : EmitState} {newOp : Op} {f : FuncId} {rb fb : BlockId}
    (hg : GINV s)
    (hops : s'.ops = s.ops ++ [newOp])
    (hblocks : s'.blocks = s.blocks) (hfuncs : s'.funcs = s.funcs)
    (hvalid : newOp.block < s.blocks.length)
    (hbfop : blockFunc s newOp.block = some f)
    (hsucc : newOp.kind.succsOf = [rb, fb])
    (hmk : ∀ v, newOp.kind ≠ OpKind.mkExcept v)
    (hft : failTargetOk s f fb) : GINV s' := by
  have hext : Extends s s' :=
    ⟨⟨[], by simp [hblocks]⟩, ⟨[newOp], hops⟩, ⟨[], by simp [hfuncs]⟩⟩
  obtain ⟨hov, hbf, hpads, hfall⟩ := hg
  refine ⟨?_, ?_, ?_, ?_⟩
  · intro op hop
    rw [hops] at hop
    rw [hblocks]
    rcases List.mem_append.mp hop with hop | hop
    · exact hov op hop
    · simp only [List.mem_singleton] at hop
      rw [hop]
      exact hvalid
  · rw [hblocks, hfuncs]
    exact hbf
  · intro b1 b2 h1 h2 heq
    rw [blockFunc_congr hblocks, blockFunc_congr hblocks] at heq
    exact hpads b1 b2 ((padAt_append_iff hops hmk b1).mp h1)
      ((padAt_append_iff hops hmk b2).mp h2) heq
  · intro op hop
    rw [hops] at hop
    rcases List.mem_append.mp hop with hop | hop
    · exact FallibleOk_mono hov hext (hov op hop) (hfall op hop)
    · simp only [List.mem_singleton] at hop
      subst hop
      intro _
      exact ⟨f, rb, fb, by rw [blockFunc_congr hblocks]; exact hbfop, hsucc,
        failTargetOk_mono hov hext hft⟩

/-! ### Composing steps -/

theorem StepOk_refl {tr : Tr} {s : EmitState} (hg : GINV s) (ht : TINV tr s) :
    StepOk tr s tr s :=
  ⟨hg, ht, extends_refl s, rfl, fun _ hb => Or.inl hb⟩

theorem StepOk_trans {tr tr1 tr2 : Tr} {s s1 s2 : EmitState}
    (h1 : StepOk tr s tr1 s1) (h2 : StepOk tr1 s1 tr2 s2) : StepOk tr s tr2 s2 := by
  obtain ⟨hg1, ht1, he1, hf1, hp1⟩ := h1
  obtain ⟨hg2, ht2, he2, hf2, hp2⟩ := h2
  refine ⟨hg2, ht2, extends_trans he1 he2, by rw [hf2, hf1], ?_⟩
  intro b hb
  rcases hp2 b hb with hb2 | hb2 | ⟨f, hbf, hle⟩
  · rcases hp1 b hb2 with hb1 | hb1 | ⟨f, hbf, hle⟩
    · exact Or.inl hb1
    · have hvb : b < s1.blocks.length := padAt_valid hg1.1 hb2
      exact Or.inr (Or.inl (by rw [blockFunc_mono he2 hvb, hb1]))
    · have hvb : b < s1.blocks.length := padAt_valid hg1.1 hb2
      exact Or.inr (Or.inr ⟨f, by rw [blockFunc_mono he2 hvb]; exact hbf, hle⟩)
  · exact Or.inr (Or.inl (by rw [hb2, hf1]))
  · exact Or.inr (Or.inr ⟨f, hbf, le_trans (funcs_length_mono he1) hle⟩)

/-- A step that created no pad and did not move the translator. -/
theorem StepOk_samePads {tr : Tr} {s s' : EmitState} (hg : GINV s) (ht : TINV tr s)
    (hg' : GINV s') (hext : Extends s s')
    (hpads : ∀ b, padAt s' b → padAt s b) : StepOk tr s tr s' :=
  ⟨hg', TINV_mono ht hg.1 hext hpads, hext,
    blockFunc_mono hext ht.1, fun b hb => Or.inl (hpads b hb)⟩

/-! ### Primitive emissions -/

theorem emitOp_step {tr : Tr} {s : EmitState} {b : BlockId} {k : OpKind}
    (hg : GINV s) (ht : TINV tr s) (hb : b < s.blocks.length)
    (hfal : OpKind.fallible k = false) (hmk : ∀ v, k ≠ OpKind.mkExcept v) :
    StepOk tr s tr (emitOp s b k) := by
  have hops : (emitOp s b k).ops = s.ops ++ [⟨b, k, none⟩] := rfl
  have hg' := GINV_append_nonfallible hg hops rfl rfl hb hfal hmk
  exact StepOk_samePads hg ht hg'
    ⟨⟨[], by simp [emitOp]⟩, ⟨_, hops⟩, ⟨[], by simp [emitOp]⟩⟩
    (fun b' => (padAt_append_iff hops hmk b').mp)

theorem emitOpV_step {tr : Tr} {s : EmitState} {b : BlockId} {k : OpKind}
    (hg : GINV s) (ht : TINV tr s) (hb : b < s.blocks.length)
    (hfal : OpKind.fallible k = false) (hmk : ∀ v, k ≠ OpKind.mkExcept v) :
    StepOk tr s tr (emitOpV s b k).2 := by
  have hops : (emitOpV s b k).2.ops = s.ops ++ [⟨b, k, some s.nextValue⟩] := rfl
  have hg' := GINV_append_nonfallible hg hops rfl rfl hb hfal hmk
  exact StepOk_samePads hg ht hg'
    ⟨⟨[], by simp [emitOpV, freshValue]⟩, ⟨_, hops⟩, ⟨[], by simp [emitOpV, freshValue]⟩⟩
    (fun b' => (padAt_append_iff hops hmk b').mp)

/-- Explicit computation of `createBlockAfter`. -/
theorem createBlockAfter_eq (s : EmitState) (b : BlockId) (n : Nat) :
    createBlockAfter s b n = (s.blocks.length,
      (List.range n).map (fun i => s.nextValue + i),
      { s with nextValue := s.nextValue + n,
               blocks := s.blocks ++ [⟨((s.blocks[b]?).map (·.func)).getD 0,
                 (List.range n).map (fun i => s.nextValue + i)⟩] }) := rfl

theorem createBlockAfter_step {s : EmitState} {b : BlockId} (n : Nat)
    (hg : GINV s) (hb : b < s.blocks.length) :
    GINV (createBlockAfter s b n).2.2 ∧ Extends s (createBlockAfter s b n).2.2 ∧
    (createBlockAfter s b n).1 = s.blocks.length ∧
    (createBlockAfter s b n).2.2.ops = s.ops ∧
    (createBlockAfter s b n).2.2.funcs = s.funcs ∧
    (createBlockAfter s b n).2.2.blocks.length = s.blocks.length + 1 ∧
    blockFunc (createBlockAfter s b n).2.2 s.blocks.length = blockFunc s b ∧
    (∀ b', padAt (createBlockAfter s b n).2.2 b' ↔ padAt s b') ∧
    (∀ b' < s.blocks.length, blockFunc (createBlockAfter s b n).2.2 b' = blockFunc s b') := by
  obtain ⟨hov, hbf, hpads, hfall⟩ := hg
  have hbsome : s.blocks[b]? = some s.blocks[b] := List.getElem?_eq_getElem hb
  have hblocks : (createBlockAfter s b n).2.2.blocks =
      s.blocks ++ [⟨((s.blocks[b]?).map (·.func)).getD 0,
        (List.range n).map (fun i => s.nextValue + i)⟩] := by
    rw [createBlockAfter_eq]
  have hlen : (createBlockAfter s b n).2.2.blocks.length = s.blocks.length + 1 := by
    rw [hblocks]
    simp
  have hext : Extends s (createBlockAfter s b n).2.2 :=
    ⟨⟨_, hblocks⟩, ⟨[], by rw [createBlockAfter_eq]; simp⟩,
     ⟨[], by rw [createBlockAfter_eq]; simp⟩⟩
  have hpadIff : ∀ b', padAt (createBlockAfter s b n).2.2 b' ↔ padAt s b' :=
    fun b' => Iff.rfl
  have hbfunc : ∀ b' < s.blocks.length,
      blockFunc (createBlockAfter s b n).2.2 b' = blockFunc s b' := by
    intro b' hb'
    rw [blockFunc, hblocks]
    simp [blockFunc, List.getElem?_append_left hb']
  refine ⟨⟨?_, ?_, ?_, ?_⟩, hext, rfl, rfl, rfl, hlen, ?_, hpadIff, hbfunc⟩
  · intro op hop
    have h1 := hov op hop
    rw [hlen]
    exact Nat.lt_succ_of_lt h1
  · intro bi hbi
    rw [hblocks] at hbi
    have hfuncs : (createBlockAfter s b n).2.2.funcs = s.funcs := by
      rw [createBlockAfter_eq]
    rw [hfuncs]
    rcases List.mem_append.mp hbi with hbi | hbi
    · exact hbf bi hbi
    · simp only [List.mem_singleton] at hbi
      rw [hbi]
      simp only [hbsome, Option.map_some, Option.getD_some]
      exact hbf _ (List.getElem_mem hb)
  · intro b1 b2 h1 h2 heq
    have h1' := (hpadIff b1).mp h1
    have h2' := (hpadIff b2).mp h2
    rw [hbfunc b1 (padAt_valid hov h1'), hbfunc b2 (padAt_valid hov h2')] at heq
    exact hpads b1 b2 h1' h2' heq
  · intro op hop
    exact FallibleOk_mono hov hext (hov op hop) (hfall op hop)
  · rw [blockFunc, hblocks]
    simp [blockFunc, hbsome]

/-! ### The landing pad -/

/-- Explicit computation of `get_except_block` when no pad is cached:
one fresh one-argument block holding `MkExceptOp` and a return. -/
theorem get_except_block_none_eq {tr : Tr} {s : EmitState} (h : tr.exceptBlock = none) :
    get_except_block tr s =
      (s.blocks.length,
       { tr with exceptBlock := some s.blocks.length },
       { s with
          nextValue := s.nextValue + 2,
          blocks := s.blocks ++
            [⟨((s.blocks[tr.block]?).map (·.func)).getD 0, [s.nextValue]⟩],
          ops := s.ops ++
            [⟨s.blocks.length, .mkExcept s.nextValue, some (s.nextValue + 1)⟩,
             ⟨s.blocks.length, .funcReturn [s.nextValue + 1], none⟩] }) := by
  simp only [get_except_block, h, createBlockAfter_eq, emitOpV, emitOp, freshValue,
    List.range_succ, List.range_zero, List.map_nil, List.map_cons, List.nil_append,
    List.headD, List.append_assoc, List.cons_append]
  norm_num

/-- `get_except_block` preserves the invariants, caches the pad, leaves
the cursor and the other translator fields alone, and returns a pad of
the cursor's function. -/
theorem get_except_block_step {tr : Tr} {s : EmitState} (hg : GINV s) (ht : TINV tr s) :
    StepOk tr s (get_except_block tr s).2.1 (get_except_block tr s).2.2 ∧
    (get_except_block tr s).2.1.block = tr.block ∧
    (get_except_block tr s).2.1.cellMap = tr.cellMap ∧
    (get_except_block tr s).2.1.scopeValue = tr.scopeValue ∧
    (get_except_block tr s).2.1.onDone = tr.onDone ∧
    (get_except_block tr s).2.1.exceptBlock = some (get_except_block tr s).1 ∧
    padAt (get_except_block tr s).2.2 (get_except_block tr s).1 ∧
    blockFunc (get_except_block tr s).2.2 (get_except_block tr s).1 =
      blockFunc (get_except_block tr s).2.2 tr.block := by
  obtain ⟨hov, hbf, hpads, hfall⟩ := hg
  obtain ⟨hbv, hsome, hnone⟩ := ht
  cases hexc : tr.exceptBlock with
  | some b =>
    have heq : get_except_block tr s = (b, tr, s) := by
      simp [get_except_block, hexc]
    rw [heq]
    obtain ⟨hp, hbfn⟩ := hsome b hexc
    exact ⟨StepOk_refl ⟨hov, hbf, hpads, hfall⟩ ⟨hbv, hsome, hnone⟩,
      rfl, rfl, rfl, rfl, hexc, hp, hbfn⟩
  | none =>
    rw [get_except_block_none_eq hexc]
    have hbsome : s.blocks[tr.block]? = some s.blocks[tr.block] :=
      List.getElem?_eq_getElem hbv
    set eb := s.blocks.length with heb
    set sC : EmitState :=
      { s with
          nextValue := s.nextValue + 2,
          blocks := s.blocks ++
            [⟨((s.blocks[tr.block]?).map (·.func)).getD 0, [s.nextValue]⟩],
          ops := s.ops ++
            [⟨eb, .mkExcept s.nextValue, some (s.nextValue + 1)⟩,
             ⟨eb, .funcReturn [s.nextValue + 1], none⟩] } with hsC
    have hext : Extends s sC := ⟨⟨_, rfl⟩, ⟨_, rfl⟩, ⟨[], by simp [hsC]⟩⟩
    have hlen : sC.blocks.length = s.blocks.length + 1 := by simp [hsC]
    -- ops of the fresh pad block
    have hopsOld : s.ops.filter (fun op => op.block == eb) = [] := by
      rw [List.filter_eq_nil_iff]
      intro op hop
      simp [Nat.ne_of_lt (hov op hop)]
    have hopsEb : opsOf sC eb =
        [⟨eb, .mkExcept s.nextValue, some (s.nextValue + 1)⟩,
         ⟨eb, .funcReturn [s.nextValue + 1], none⟩] := by
      simp [opsOf, hsC, List.filter_append, hopsOld]
    have hopsOther : ∀ b', b' ≠ eb → opsOf sC b' = opsOf s b' := by
      intro b' hne
      have hne' : ¬ (eb = b') := fun hh => hne hh.symm
      simp [opsOf, hsC, List.filter_append, hne']
    have hpadEb : padAt sC eb :=
      ⟨⟨eb, .mkExcept s.nextValue, some (s.nextValue + 1)⟩,
       [⟨eb, .funcReturn [s.nextValue + 1], none⟩], hopsEb, s.nextValue, rfl⟩
    have hpadIff : ∀ b', b' ≠ eb → (padAt sC b' ↔ padAt s b') := by
      intro b' hne
      unfold padAt
      rw [hopsOther b' hne]
    have hfuncEb : blockFunc sC eb = blockFunc s tr.block := by
      simp [blockFunc, hsC, List.getElem?_concat_length, hbsome]
    have hfuncOld : ∀ b' < s.blocks.length, blockFunc sC b' = blockFunc s b' := by
      intro b' hb'
      simp [blockFunc, hsC, List.getElem?_append_left hb']
    have hg' : GINV sC := by
      refine ⟨?_, ?_, ?_, ?_⟩
      · intro op hop
        simp only [hsC, List.mem_append, List.mem_cons, List.mem_singleton] at hop
        rw [hlen]
        rcases hop with hop | hop | hop | hop
        · exact Nat.lt_succ_of_lt (hov op hop)
        · rw [hop]; exact Nat.lt_succ_self _
        · rw [hop]; exact Nat.lt_succ_self _
        · exact absurd hop (List.not_mem_nil op)
      · intro bi hbi
        simp only [hsC, List.mem_append, List.mem_singleton] at hbi
        have hfuncs : sC.funcs = s.funcs := by simp [hsC]
        rw [hfuncs]
        rcases hbi with hbi | hbi
        · exact hbf bi hbi
        · rw [hbi]
          simp only [hbsome, Option.map_some, Option.getD_some]
          exact hbf _ (List.getElem_mem hbv)
      · intro b1 b2 h1 h2 heq
        by_cases hb1 : b1 = eb <;> by_cases hb2 : b2 = eb
        · rw [hb1, hb2]
        · -- b1 is the new pad, b2 an old pad: functions must differ
          exfalso
          have h2' := (hpadIff b2 hb2).mp h2
          rw [hb1, hfuncEb, hfuncOld b2 (padAt_valid hov h2')] at heq
          exact hnone hexc b2 h2' heq.symm
        · exfalso
          have h1' := (hpadIff b1 hb1).mp h1
          rw [hb2, hfuncEb, hfuncOld b1 (padAt_valid hov h1')] at heq
          exact hnone hexc b1 h1' heq
        · have h1' := (hpadIff b1 hb1).mp h1
          have h2' := (hpadIff b2 hb2).mp h2
          rw [hfuncOld b1 (padAt_valid hov h1'), hfuncOld b2 (padAt_valid hov h2')] at heq
          exact hpads b1 b2 h1' h2' heq
      · intro op hop
        simp only [hsC, List.mem_append, List.mem_cons, List.mem_singleton] at hop
        rcases hop with hop | hop | hop | hop
        · exact FallibleOk_mono hov hext (hov op hop) (hfall op hop)
        · rw [hop]
          intro hf
          simp [OpKind.fallible] at hf
        · rw [hop]
          intro hf
          simp [OpKind.fallible] at hf
        · exact absurd hop (List.not_mem_nil op)
    have htinv : TINV { tr with exceptBlock := some eb } sC := by
      refine ⟨by rw [hlen]; exact Nat.lt_succ_of_lt hbv, ?_, ?_⟩
      · intro b hbe
        simp only [Option.some.injEq] at hbe
        rw [← hbe]
        exact ⟨hpadEb, by rw [hfuncEb, hfuncOld tr.block hbv]⟩
      · intro hne
        simp at hne
    refine ⟨⟨hg', htinv, hext, by rw [hfuncOld tr.block hbv], ?_⟩,
      rfl, rfl, rfl, rfl, rfl, hpadEb, by rw [hfuncEb, hfuncOld tr.block hbv]⟩
    intro b hb
    by_cases hbe : b = eb
    · rw [hbe]
      exact Or.inr (Or.inl hfuncEb)
    · exact Or.inl ((hpadIff b hbe).mp hb)

theorem blockFunc_isSome {s : EmitState} {b : BlockId} (hb : b < s.blocks.length) :
    ∃ f, blockFunc s b = some f := by
  have : s.blocks[b]? = some s.blocks[b] := List.getElem?_eq_getElem hb
  exact ⟨s.blocks[b].func, by simp [blockFunc, this]⟩

/-- The common two-successor emission: given the landing pad, create
the one-argument return block and emit a fallible op with successors
`(returnBlock, pad)`; the cursor of the continuing translator moves to
the return block. -/
theorem fallible_protocol_step {tr1 : Tr} {s1 : EmitState} {eb : BlockId} {knd : OpKind}
    (hg1 : GINV s1) (ht1 : TINV tr1 s1)
    (hpad : padAt s1 eb) (hfn : blockFunc s1 eb = blockFunc s1 tr1.block)
    (hsuccs : knd.succsOf = [(createBlockAfter s1 tr1.block 1).1, eb])
    (hmk : ∀ v, knd ≠ OpKind.mkExcept v) :
    StepOk tr1 s1 { tr1 with block := (createBlockAfter s1 tr1.block 1).1 }
      (emitOp (createBlockAfter s1 tr1.block 1).2.2 tr1.block knd) := by
  obtain ⟨hg2, hext2, hrb, hops2, hfuncs2, hlen2, hfnew, hpadIff2, hfold2⟩ :=
    createBlockAfter_step 1 hg1 ht1.1
  set s2 := (createBlockAfter s1 tr1.block 1).2.2 with hs2
  set rb := (createBlockAfter s1 tr1.block 1).1 with hrbdef
  obtain ⟨f, hf⟩ := blockFunc_isSome ht1.1
  have hbval2 : tr1.block < s2.blocks.length := by
    rw [hlen2]
    exact Nat.lt_succ_of_lt ht1.1
  have hf2 : blockFunc s2 tr1.block = some f := by
    rw [hfold2 tr1.block ht1.1, hf]
  have hft2 : failTargetOk s2 f eb :=
    Or.inl ⟨(hpadIff2 eb).mpr hpad,
      by rw [hfold2 eb (padAt_valid hg1.1 hpad), hfn, hf]⟩
  have hops3 : (emitOp s2 tr1.block knd).ops = s2.ops ++ [⟨tr1.block, knd, none⟩] := rfl
  have hg3 : GINV (emitOp s2 tr1.block knd) :=
    GINV_append_fallible hg2 hops3 rfl rfl hbval2 hf2 hsuccs hmk hft2
  have hext3 : Extends s2 (emitOp s2 tr1.block knd) :=
    ⟨⟨[], by simp [emitOp]⟩, ⟨_, hops3⟩, ⟨[], by simp [emitOp]⟩⟩
  have hpadIff3 : ∀ b', padAt (emitOp s2 tr1.block knd) b' ↔ padAt s2 b' :=
    fun b' => padAt_append_iff hops3 hmk b'
  have hrblt : rb < s2.blocks.length := by
    rw [hrb, hlen2]
    exact Nat.lt_succ_self _
  have hbfe : ∀ b, blockFunc (emitOp s2 tr1.block knd) b = blockFunc s2 b :=
    fun b => @blockFunc_congr s2 (emitOp s2 tr1.block knd) rfl b
  have htinv3 : TINV { tr1 with block := rb } (emitOp s2 tr1.block knd) := by
    obtain ⟨hbv, hsome, hnone⟩ := ht1
    refine ⟨?_, ?_, ?_⟩
    · exact hrblt
    · intro b hbe
      obtain ⟨hp, hbfn⟩ := hsome b hbe
      have hbval : b < s1.blocks.length := padAt_valid hg1.1 hp
      refine ⟨(hpadIff3 b).mpr ((hpadIff2 b).mpr hp), ?_⟩
      show blockFunc (emitOp s2 tr1.block knd) b = blockFunc (emitOp s2 tr1.block knd) rb
      simp only [hbfe]
      rw [hfold2 b hbval, hrb, hfnew, hbfn]
    · intro hne b hp
      have hp2 := (hpadIff3 b).mp hp
      have hp1 := (hpadIff2 b).mp hp2
      have hbval : b < s1.blocks.length := padAt_valid hg1.1 hp1
      show blockFunc (emitOp s2 tr1.block knd) b ≠ blockFunc (emitOp s2 tr1.block knd) rb
      simp only [hbfe]
      rw [hfold2 b hbval, hrb, hfnew]
      exact hnone hne b hp1
  refine ⟨hg3, htinv3, extends_trans hext2 hext3, ?_, ?_⟩
  · show blockFunc (emitOp s2 tr1.block knd) rb = blockFunc s1 tr1.block
    simp only [hbfe]
    rw [hrb, hfnew]
  · intro b hb
    exact Or.inl ((hpadIff2 b).mp ((hpadIff3 b).mp hb))

/-- The full invoke-style protocol starting from an arbitrary
translator: get the pad, create the return block, emit the fallible op,
move the cursor. -/
theorem protocol_step {tr : Tr} {s : EmitState} (hg : GINV s) (ht : TINV tr s)
    (mkknd : BlockId → BlockId → OpKind)
    (hsucc : ∀ rb eb, (mkknd rb eb).succsOf = [rb, eb])
    (hmk : ∀ rb eb v, mkknd rb eb ≠ OpKind.mkExcept v) :
    StepOk tr s
      { (get_except_block tr s).2.1 with
          block := (createBlockAfter (get_except_block tr s).2.2
            (get_except_block tr s).2.1.block 1).1 }
      (emitOp (createBlockAfter (get_except_block tr s).2.2
          (get_except_block tr s).2.1.block 1).2.2
        (get_except_block tr s).2.1.block
        (mkknd (createBlockAfter (get_except_block tr s).2.2
            (get_except_block tr s).2.1.block 1).1
          (get_except_block tr s).1)) ∧
    (get_except_block tr s).2.1.cellMap = tr.cellMap ∧
    (get_except_block tr s).2.1.scopeValue = tr.scopeValue ∧
    (get_except_block tr s).2.1.onDone = tr.onDone := by
  obtain ⟨hstep1, hblk, hcm, hsv, hod, hexc, hpad, hfn⟩ := get_except_block_step hg ht
  have hfn' : blockFunc (get_except_block tr s).2.2 (get_except_block tr s).1 =
      blockFunc (get_except_block tr s).2.2 (get_except_block tr s).2.1.block := by
    rw [hblk]
    exact hfn
  have h2 := fallible_protocol_step hstep1.1 hstep1.2.1 hpad hfn'
    (hsucc (createBlockAfter (get_except_block tr s).2.2
        (get_except_block tr s).2.1.block 1).1
      (get_except_block tr s).1)
    (hmk (createBlockAfter (get_except_block tr s).2.2
        (get_except_block tr s).2.1.block 1).1
      (get_except_block tr s).1)
  exact ⟨StepOk_trans hstep1 h2, hcm, hsv, hod⟩

/-- `Translator.invoke` preserves the invariants and only moves the
cursor (cell map, scope value, cleanup stack unchanged). -/
theorem invoke_step {tr : Tr} {s : EmitState} (hg : GINV s) (ht : TINV tr s)
    (method : Value) (args : List Value) (kw : List Str) :
    StepOk tr s (invoke tr s method args kw).2.1 (invoke tr s method args kw).2.2 ∧
    (invoke tr s method args kw).2.1.cellMap = tr.cellMap ∧
    (invoke tr s method args kw).2.1.scopeValue = tr.scopeValue ∧
    (invoke tr s method args kw).2.1.onDone = tr.onDone := by
  obtain ⟨hstep, hcm, hsv, hod⟩ := protocol_step hg ht
    (fun rb eb => OpKind.invokeOp method args kw [rb, eb])
    (fun rb eb => rfl) (fun rb eb v h => OpKind.noConfusion h)
  exact ⟨hstep, hcm, hsv, hod⟩

/-- `Translator.apply_binop` preserves the invariants likewise. -/
theorem apply_binop_step {tr : Tr} {s : EmitState} (hg : GINV s) (ht : TINV tr s)
    (left : Value) (op : PyBinKind) (right : Value) :
    StepOk tr s (apply_binop tr s left op right).2.1 (apply_binop tr s left op right).2.2 ∧
    (apply_binop tr s left op right).2.1.cellMap = tr.cellMap ∧
    (apply_binop tr s left op right).2.1.scopeValue = tr.scopeValue ∧
    (apply_binop tr s left op right).2.1.onDone = tr.onDone := by
  obtain ⟨hstep, hcm, hsv, hod⟩ := protocol_step hg ht
    (fun rb eb => OpKind.binOp op left right [rb, eb])
    (fun rb eb => rfl) (fun rb eb v h => OpKind.noConfusion h)
  exact ⟨hstep, hcm, hsv, hod⟩

/-! ### Emission-only steps (ops appended, blocks and functions fixed) -/

theorem opsOf_append {s s' : EmitState} {t : List Op} (hops : s'.ops = s.ops ++ t)
    (b : BlockId) : opsOf s' b = opsOf s b ++ t.filter (fun op => op.block == b) := by
  simp [opsOf, hops, List.filter_append]

theorem opsOf_oob {s : EmitState} (hov : ∀ op ∈ s.ops, op.block < s.blocks.length)
    (b : BlockId) (hb : s.blocks.length ≤ b) : opsOf s b = [] := by
  rw [opsOf, List.filter_eq_nil_iff]
  intro op hop
  simp only [beq_iff_eq]
  intro he
  exact absurd (he ▸ hov op hop) (Nat.not_lt.mpr hb)

/-- Appending any ops that are not `MkExceptOp` changes no block's pad
status. -/
theorem padAt_append_list {s s' : EmitState} {t : List Op}
    (hops : s'.ops = s.ops ++ t)
    (hk : ∀ op ∈ t, ∀ v, op.kind ≠ OpKind.mkExcept v) (b : BlockId) :
    padAt s' b ↔ padAt s b := by
  constructor
  · rintro ⟨op, rest, hob, v, hkind⟩
    rw [opsOf_append hops] at hob
    cases hcase : opsOf s b with
    | nil =>
      rw [hcase, List.nil_append] at hob
      have hmem : op ∈ t.filter (fun op => op.block == b) := by
        rw [hob]
        exact List.mem_cons_self _ _
      exact absurd hkind (hk op (List.mem_of_mem_filter hmem) v)
    | cons o0 r0 =>
      rw [hcase, List.cons_append] at hob
      have h0 : o0 = op := (List.cons.inj hob).1
      exact ⟨o0, r0, hcase, v, h0 ▸ hkind⟩
  · rintro ⟨op, rest, hob, v, hkind⟩
    exact ⟨op, rest ++ t.filter (fun op => op.block == b),
      by rw [opsOf_append hops, hob, List.cons_append], v, hkind⟩

/-- Retarget the resulting cursor to any block of the same function. -/
theorem StepOk_retarget {tr tr' : Tr} {s s' : EmitState} {b : BlockId}
    (h : StepOk tr s tr' s') (hb : b < s'.blocks.length)
    (hf : blockFunc s' b = blockFunc s tr.block) :
    StepOk tr s { tr' with block := b } s' := by
  obtain ⟨hg', ht', hext, hsame, hnew⟩ := h
  obtain ⟨hbv, hsome, hnone⟩ := ht'
  refine ⟨hg', ⟨hb, ?_, ?_⟩, hext, hf, hnew⟩
  · intro pb hbe
    obtain ⟨hp, hpf⟩ := hsome pb hbe
    refine ⟨hp, ?_⟩
    show blockFunc s' pb = blockFunc s' b
    rw [hpf, hsame, hf]
  · intro hne pb hp
    show blockFunc s' pb ≠ blockFunc s' b
    rw [hf, ← hsame]
    exact hnone hne pb hp

/-- An emission-only step: ops were appended while blocks, functions and
the pad set stayed fixed; the cursor does not move. -/
theorem StepOk_of_emits {tr : Tr} {s s' : EmitState}
    (hg : GINV s) (ht : TINV tr s) (hg' : GINV s')
    (hblocks : s'.blocks = s.blocks) (hfuncs : s'.funcs = s.funcs)
    (hops : ∃ t, s'.ops = s.ops ++ t) (hpadIff : ∀ b, padAt s' b ↔ padAt s b) :
    StepOk tr s tr s' :=
  StepOk_samePads hg ht hg' ⟨⟨[], by simp [hblocks]⟩, hops, ⟨[], by simp [hfuncs]⟩⟩
    (fun b hb => (hpadIff b).mp hb)

theorem emitOp_emits {s : EmitState} {b : BlockId} (k : OpKind)
    (hg : GINV s) (hb : b < s.blocks.length)
    (hfal : OpKind.fallible k = false) (hmk : ∀ v, k ≠ OpKind.mkExcept v) :
    GINV (emitOp s b k) ∧ (emitOp s b k).blocks = s.blocks ∧
    (emitOp s b k).funcs = s.funcs ∧ (∃ t, (emitOp s b k).ops = s.ops ++ t) ∧
    (∀ b', padAt (emitOp s b k) b' ↔ padAt s b') := by
  have hops : (emitOp s b k).ops = s.ops ++ [⟨b, k, none⟩] := rfl
  exact ⟨GINV_append_nonfallible hg hops rfl rfl hb hfal hmk, rfl, rfl, ⟨_, hops⟩,
    fun b' => padAt_append_iff hops hmk b'⟩

theorem emitOpV_emits {s : EmitState} {b : BlockId} (k : OpKind)
    (hg : GINV s) (hb : b < s.blocks.length)
    (hfal : OpKind.fallible k = false) (hmk : ∀ v, k ≠ OpKind.mkExcept v) :
    GINV (emitOpV s b k).2 ∧ (emitOpV s b k).2.blocks = s.blocks ∧
    (emitOpV s b k).2.funcs = s.funcs ∧ (∃ t, (emitOpV s b k).2.ops = s.ops ++ t) ∧
    (∀ b', padAt (emitOpV s b k).2 b' ↔ padAt s b') := by
  have hops : (emitOpV s b k).2.ops = s.ops ++ [⟨b, k, some s.nextValue⟩] := rfl
  exact ⟨GINV_append_nonfallible hg hops rfl rfl hb hfal hmk, rfl, rfl, ⟨_, hops⟩,
    fun b' => padAt_append_iff hops hmk b'⟩

/-! ### `invoke_next` -/

theorem invoke_next_state_ok {s sE : EmitState} {cur thr nb bb : BlockId}
    {next bv : Value} {done : BlockId}
    (hg : GINV s) (hcur : cur < s.blocks.length)
    (hthr : padAt s thr) (hthrf : blockFunc s thr = blockFunc s cur)
    (hrun : invoke_next s next cur done thr = ((nb, bb, bv), sE)) :
    GINV sE ∧ Extends s sE ∧ (∀ b, padAt sE b ↔ padAt s b) ∧
    sE.funcs = s.funcs ∧ bb = s.blocks.length + 1 ∧
    blockFunc sE bb = blockFunc s cur ∧ sE.blocks.length = s.blocks.length + 3 := by
  obtain ⟨hov, hbf, hpads, hfall⟩ := hg
  have hbsome : s.blocks[cur]? = some s.blocks[cur] := List.getElem?_eq_getElem hcur
  rw [invoke_next_run] at hrun
  injection hrun with h1 h2
  injection h1 with hnb h1
  injection h1 with hbb hbv
  have hblocks : sE.blocks = s.blocks ++
      [⟨s.blocks[cur].func, []⟩, ⟨s.blocks[cur].func, [s.nextValue]⟩,
       ⟨s.blocks[cur].func, [s.nextValue + 1]⟩] := by
    rw [← h2]
    simp [hbsome]
  have hops : sE.ops = s.ops ++
      [⟨cur, .branch [] s.blocks.length, none⟩,
       ⟨s.blocks.length, .invokeOp next [] []
         [s.blocks.length + 1, s.blocks.length + 2], none⟩,
       ⟨s.blocks.length + 2, .isInstanceOp (s.nextValue + 1) (str "StopIteration"),
         some (s.nextValue + 2)⟩,
       ⟨s.blocks.length + 2, .condBranch (s.nextValue + 2) [] [s.nextValue + 1] done thr,
         none⟩] := by
    rw [← h2]
  have hfuncs : sE.funcs = s.funcs := by rw [← h2]
  have hext : Extends s sE := ⟨⟨_, hblocks⟩, ⟨_, hops⟩, ⟨[], by simp [hfuncs]⟩⟩
  have hlen : sE.blocks.length = s.blocks.length + 3 := by simp [hblocks]
  have hbfold : ∀ b, b < s.blocks.length → blockFunc sE b = blockFunc s b :=
    fun b hb => blockFunc_mono hext hb
  have hbf0 : blockFunc sE s.blocks.length = some s.blocks[cur].func := by
    simp [blockFunc, hblocks, List.getElem?_append_right (Nat.le_refl s.blocks.length)]
  have hbf1 : blockFunc sE (s.blocks.length + 1) = some s.blocks[cur].func := by
    simp [blockFunc, hblocks,
      List.getElem?_append_right (Nat.le_add_right s.blocks.length 1)]
  have hbfcur : blockFunc s cur = some s.blocks[cur].func := by
    simp [blockFunc, hbsome]
  have hmkall : ∀ op ∈
      [(⟨cur, .branch [] s.blocks.length, none⟩ : Op),
       ⟨s.blocks.length, .invokeOp next [] []
         [s.blocks.length + 1, s.blocks.length + 2], none⟩,
       ⟨s.blocks.length + 2, .isInstanceOp (s.nextValue + 1) (str "StopIteration"),
         some (s.nextValue + 2)⟩,
       ⟨s.blocks.length + 2, .condBranch (s.nextValue + 2) [] [s.nextValue + 1] done thr,
         none⟩], ∀ v, op.kind ≠ OpKind.mkExcept v := by
    intro op hop v
    simp only [List.mem_cons, List.not_mem_nil, or_false] at hop
    rcases hop with h | h | h | h <;> subst h <;> exact fun hc => OpKind.noConfusion hc
  have hpadIff : ∀ b, padAt sE b ↔ padAt s b := fun b => padAt_append_list hops hmkall b
  have hthrv : thr < s.blocks.length := padAt_valid hov hthr
  have hopsL2 : opsOf sE (s.blocks.length + 2) =
      [⟨s.blocks.length + 2, .isInstanceOp (s.nextValue + 1) (str "StopIteration"),
         some (s.nextValue + 2)⟩,
       ⟨s.blocks.length + 2, .condBranch (s.nextValue + 2) [] [s.nextValue + 1] done thr,
         none⟩] := by
    rw [opsOf_append hops,
      opsOf_oob hov (s.blocks.length + 2) (Nat.le_add_right s.blocks.length 2),
      List.nil_append]
    have hc1 : ¬(cur = s.blocks.length + 2) :=
      Nat.ne_of_lt (Nat.lt_add_right 2 hcur)
    have hc2 : ¬(s.blocks.length = s.blocks.length + 2) :=
      Nat.ne_of_lt (Nat.lt_add_of_pos_right (by decide))
    simp [hc1, hc2]
  have hovE : ∀ op ∈ sE.ops, op.block < sE.blocks.length := by
    intro op hop
    rw [hops] at hop
    rw [hlen]
    rcases List.mem_append.mp hop with h | h
    · exact Nat.lt_add_right 3 (hov op h)
    · simp only [List.mem_cons, List.not_mem_nil, or_false] at h
      rcases h with h | h | h | h <;> subst h
      · show cur < s.blocks.length + 3
        exact Nat.lt_add_right 3 hcur
      · show s.blocks.length < s.blocks.length + 3
        exact Nat.lt_add_of_pos_right (by decide)
      · show s.blocks.length + 2 < s.blocks.length + 3
        exact Nat.lt_succ_self _
      · show s.blocks.length + 2 < s.blocks.length + 3
        exact Nat.lt_succ_self _
  have hbfE : ∀ bi ∈ sE.blocks, bi.func < sE.funcs.length := by
    intro bi hbi
    rw [hblocks] at hbi
    rw [hfuncs]
    have hcb : s.blocks[cur] ∈ s.blocks := List.getElem_mem hcur
    rcases List.mem_append.mp hbi with h | h
    · exact hbf bi h
    · simp only [List.mem_cons, List.not_mem_nil, or_false] at h
      rcases h with h | h | h <;> subst h <;> exact hbf s.blocks[cur] hcb
  have hpadsE : ∀ b1 b2, padAt sE b1 → padAt sE b2 →
      blockFunc sE b1 = blockFunc sE b2 → b1 = b2 := by
    intro b1 b2 h1 h2 hf
    have h1s := (hpadIff b1).mp h1
    have h2s := (hpadIff b2).mp h2
    have hv1 := padAt_valid hov h1s
    have hv2 := padAt_valid hov h2s
    refine hpads b1 b2 h1s h2s ?_
    rw [← hbfold b1 hv1, ← hbfold b2 hv2]
    exact hf
  have hfallE : ∀ op ∈ sE.ops, FallibleOk sE op := by
    intro op hop
    rw [hops] at hop
    rcases List.mem_append.mp hop with h | h
    · exact FallibleOk_mono hov hext (hov op h) (hfall op h)
    · simp only [List.mem_cons, List.not_mem_nil, or_false] at h
      rcases h with h | h | h | h <;> subst h
      · intro hfal
        simp [OpKind.fallible] at hfal
      · intro hfal
        refine ⟨s.blocks[cur].func, s.blocks.length + 1, s.blocks.length + 2,
          hbf0, rfl, ?_⟩
        refine Or.inr ⟨_, _, [], hopsL2, ⟨_, _, rfl⟩, ⟨_, _, _, _, _, rfl, ?_, ?_⟩⟩
        · exact (hpadIff thr).mpr hthr
        · rw [hbfold thr hthrv, hthrf, hbfcur]
      · intro hfal
        simp [OpKind.fallible] at hfal
      · intro hfal
        simp [OpKind.fallible] at hfal
  refine ⟨⟨hovE, hbfE, hpadsE, hfallE⟩, hext, hpadIff, hfuncs, hbb.symm, ?_, hlen⟩
  rw [← hbb, hbf1, hbfcur]

/-- `invoke_next` preserves the invariants when the provided throw block
is the current function's landing pad; the cursor moves to the loop-body
block. -/
theorem invoke_next_step {tr : Tr} {s : EmitState} {thr : BlockId}
    (next : Value) (done : BlockId)
    (hg : GINV s) (ht : TINV tr s)
    (hthr : padAt s thr) (hthrf : blockFunc s thr = blockFunc s tr.block) :
    StepOk tr s { tr with block := (invoke_next s next tr.block done thr).1.2.1 }
      (invoke_next s next tr.block done thr).2 ∧
    (∀ b, padAt (invoke_next s next tr.block done thr).2 b ↔ padAt s b) := by
  have hrun : invoke_next s next tr.block done thr =
      (((invoke_next s next tr.block done thr).1.1,
        (invoke_next s next tr.block done thr).1.2.1,
        (invoke_next s next tr.block done thr).1.2.2),
       (invoke_next s next tr.block done thr).2) := rfl
  obtain ⟨hgE, hext, hpadIff, hfuncs, hbb, hbfbb, hlen⟩ :=
    invoke_next_state_ok hg ht.1 hthr hthrf hrun
  have hstep0 : StepOk tr s tr (invoke_next s next tr.block done thr).2 :=
    StepOk_samePads hg ht hgE hext (fun b hb => (hpadIff b).mp hb)
  have hbval : (invoke_next s next tr.block done thr).1.2.1 <
      (invoke_next s next tr.block done thr).2.blocks.length := by
    rw [hbb, hlen]
    exact Nat.add_lt_add_left (by decide) s.blocks.length
  exact ⟨StepOk_retarget hstep0 hbval hbfbb, hpadIff⟩

/-! ### Compound emitters -/

theorem alloc_variable_cells_emits (vars : List Str) :
    ∀ mapAcc names cells block s, GINV s → block < s.blocks.length →
    GINV (alloc_variable_cells mapAcc names cells block vars s).2.2.2 ∧
    (alloc_variable_cells mapAcc names cells block vars s).2.2.2.blocks = s.blocks ∧
    (alloc_variable_cells mapAcc names cells block vars s).2.2.2.funcs = s.funcs ∧
    (∃ t, (alloc_variable_cells mapAcc names cells block vars s).2.2.2.ops = s.ops ++ t) ∧
    (∀ b, padAt (alloc_variable_cells mapAcc names cells block vars s).2.2.2 b ↔
      padAt s b) := by
  induction vars with
  | nil =>
    intro mapAcc names cells block s hg hb
    exact ⟨hg, rfl, rfl, ⟨[], (List.append_nil s.ops).symm⟩, fun b => Iff.rfl⟩
  | cons var rest ih =>
    intro mapAcc names cells block s hg hb
    obtain ⟨hg1, hbl1, hfn1, ⟨t1, hop1⟩, hpi1⟩ :=
      emitOpV_emits OpKind.cellAlloc hg hb rfl (fun w h => OpKind.noConfusion h)
    have hb1 : block < (emitOpV s block OpKind.cellAlloc).2.blocks.length := by
      rw [hbl1]
      exact hb
    obtain ⟨hg2, hbl2, hfn2, ⟨t2, hop2⟩, hpi2⟩ :=
      ih (updateA mapAcc var (emitOpV s block OpKind.cellAlloc).1) (names ++ [var])
        (cells ++ [(emitOpV s block OpKind.cellAlloc).1]) block
        (emitOpV s block OpKind.cellAlloc).2 hg1 hb1
    have hunfold : alloc_variable_cells mapAcc names cells block (var :: rest) s =
        alloc_variable_cells (updateA mapAcc var (emitOpV s block OpKind.cellAlloc).1)
          (names ++ [var]) (cells ++ [(emitOpV s block OpKind.cellAlloc).1]) block rest
          (emitOpV s block OpKind.cellAlloc).2 := rfl
    rw [hunfold]
    exact ⟨hg2, by rw [hbl2, hbl1], by rw [hfn2, hfn1],
      ⟨t1 ++ t2, by rw [hop2, hop1, List.append_assoc]⟩,
      fun b => (hpi2 b).trans (hpi1 b)⟩

theorem storeParams_emits (nms : List Str) :
    ∀ vals map block s s', GINV s → block < s.blocks.length →
    storeParams map block nms vals s = .ok s' →
    GINV s' ∧ s'.blocks = s.blocks ∧ s'.funcs = s.funcs ∧
    (∃ t, s'.ops = s.ops ++ t) ∧ (∀ b, padAt s' b ↔ padAt s b) := by
  induction nms with
  | nil =>
    intro vals map block s s' hg hb hok
    injection hok with hs
    exact hs ▸ ⟨hg, rfl, rfl, ⟨[], (List.append_nil s.ops).symm⟩, fun b => Iff.rfl⟩
  | cons nm rest ih =>
    intro vals map block s s' hg hb hok
    cases vals with
    | nil => exact absurd hok throw_ne_ok
    | cons v vrest =>
      rw [show storeParams map block (nm :: rest) (v :: vrest) s =
          (match lookupA map nm with
           | some cell => storeParams map block rest vrest (cell_store s block cell v)
           | none => throw (str "KeyError")) from rfl] at hok
      cases hl : lookupA map nm with
      | none =>
        rw [hl] at hok
        exact absurd hok throw_ne_ok
      | some cell =>
        rw [hl] at hok
        obtain ⟨hg1, hbl1, hfn1, ⟨t1, hop1⟩, hpi1⟩ :=
          emitOp_emits (OpKind.cellStore cell v) hg hb rfl
            (fun w h => OpKind.noConfusion h)
        have hb1 : block < (cell_store s block cell v).blocks.length := by
          rw [show (cell_store s block cell v).blocks =
            (emitOp s block (OpKind.cellStore cell v)).blocks from rfl, hbl1]
          exact hb
        obtain ⟨hg2, hbl2, hfn2, ⟨t2, hop2⟩, hpi2⟩ :=
          ih vrest map block (cell_store s block cell v) s' hg1 hb1 hok
        exact ⟨hg2, by rw [hbl2]; exact hbl1, by rw [hfn2]; exact hfn1,
          ⟨t1 ++ t2, by rw [hop2, ← List.append_assoc, ← hop1]; rfl⟩,
          fun b => (hpi2 b).trans (hpi1 b)⟩

theorem pythonImport_emits {tr : Tr} {s s' : EmitState} {module name : Str}
    (hg : GINV s) (hb : tr.block < s.blocks.length)
    (hok : pythonImport tr s module name = .ok s') :
    GINV s' ∧ s'.blocks = s.blocks ∧ s'.funcs = s.funcs ∧
    (∃ t, s'.ops = s.ops ++ t) ∧ (∀ b, padAt s' b ↔ padAt s b) := by
  obtain ⟨hg1, hbl1, hfn1, ⟨t1, hop1⟩, hpi1⟩ :=
    emitOpV_emits (OpKind.moduleOp module) hg hb rfl (fun w h => OpKind.noConfusion h)
  have hb1 : tr.block < (emitOpV s tr.block (OpKind.moduleOp module)).2.blocks.length := by
    rw [hbl1]
    exact hb
  rw [show pythonImport tr s module name =
      (match lookupA tr.cellMap name with
       | some cell => .ok (emitOp (emitOpV s tr.block (OpKind.moduleOp module)).2 tr.block
           (OpKind.cellStore cell (emitOpV s tr.block (OpKind.moduleOp module)).1))
       | none => throw (str "KeyError")) from rfl] at hok
  cases hl : lookupA tr.cellMap name with
  | none =>
    rw [hl] at hok
    exact absurd hok throw_ne_ok
  | some cell =>
    rw [hl] at hok
    injection hok with hs
    obtain ⟨hg2, hbl2, hfn2, ⟨t2, hop2⟩, hpi2⟩ :=
      emitOp_emits (OpKind.cellStore cell (emitOpV s tr.block (OpKind.moduleOp module)).1)
        hg1 hb1 rfl (fun w h => OpKind.noConfusion h)
    exact hs ▸ ⟨hg2, by rw [hbl2, hbl1], by rw [hfn2, hfn1],
      ⟨t1 ++ t2, by rw [hop2, hop1, List.append_assoc]⟩,
      fun b => (hpi2 b).trans (hpi1 b)⟩

theorem importNames_emits (names : List (Str × Option Str)) :
    ∀ {tr : Tr} {s s' : EmitState}, GINV s → tr.block < s.blocks.length →
    importNames tr names s = .ok s' →
    GINV s' ∧ s'.blocks = s.blocks ∧ s'.funcs = s.funcs ∧
    (∃ t, s'.ops = s.ops ++ t) ∧ (∀ b, padAt s' b ↔ padAt s b) := by
  induction names with
  | nil =>
    intro tr s s' hg hb hok
    injection hok with hs
    exact hs ▸ ⟨hg, rfl, rfl, ⟨[], (List.append_nil s.ops).symm⟩, fun b => Iff.rfl⟩
  | cons p rest ih =>
    intro tr s s' hg hb hok
    rw [show importNames tr (p :: rest) s =
        (pythonImport tr s p.1 (p.2.getD p.1) >>= fun s1 => importNames tr rest s1)
        from rfl] at hok
    obtain ⟨s1, hok1, hok2⟩ := exceptBind_ok hok
    obtain ⟨hg1, hbl1, hfn1, ⟨t1, hop1⟩, hpi1⟩ := pythonImport_emits hg hb hok1
    have hb1 : tr.block < s1.blocks.length := by
      rw [hbl1]
      exact hb
    obtain ⟨hg2, hbl2, hfn2, ⟨t2, hop2⟩, hpi2⟩ := ih hg1 hb1 hok2
    exact ⟨hg2, by rw [hbl2, hbl1], by rw [hfn2, hfn1],
      ⟨t1 ++ t2, by rw [hop2, hop1, List.append_assoc]⟩,
      fun b => (hpi2 b).trans (hpi1 b)⟩

theorem returnOpT_emits {tr : Tr} {s : EmitState} (v : Value)
    (hg : GINV s) (hb : tr.block < s.blocks.length) :
    GINV (returnOpT tr s v) ∧ (returnOpT tr s v).blocks = s.blocks ∧
    (returnOpT tr s v).funcs = s.funcs ∧ (∃ t, (returnOpT tr s v).ops = s.ops ++ t) ∧
    (∀ b, padAt (returnOpT tr s v) b ↔ padAt s b) := by
  obtain ⟨hg1, hbl1, hfn1, ⟨t1, hop1⟩, hpi1⟩ :=
    emitOpV_emits (OpKind.mkReturn v) hg hb rfl (fun w h => OpKind.noConfusion h)
  have hb1 : tr.block < (emitOpV s tr.block (OpKind.mkReturn v)).2.blocks.length := by
    rw [hbl1]
    exact hb
  obtain ⟨hg2, hbl2, hfn2, ⟨t2, hop2⟩, hpi2⟩ :=
    emitOp_emits (OpKind.funcReturn [(emitOpV s tr.block (OpKind.mkReturn v)).1])
      hg1 hb1 rfl (fun w h => OpKind.noConfusion h)
  rw [show returnOpT tr s v =
      emitOp (emitOpV s tr.block (OpKind.mkReturn v)).2 tr.block
        (OpKind.funcReturn [(emitOpV s tr.block (OpKind.mkReturn v)).1]) from rfl]
  exact ⟨hg2, by rw [hbl2, hbl1], by rw [hfn2, hfn1],
    ⟨t1 ++ t2, by rw [hop2, hop1, List.append_assoc]⟩,
    fun b => (hpi2 b).trans (hpi1 b)⟩

theorem runExits_step (xs : List Value) :
    ∀ {tr : Tr} {s : EmitState}, GINV s → TINV tr s →
    StepOk tr s (runExits tr s xs).1 (runExits tr s xs).2 ∧
    (runExits tr s xs).1.cellMap = tr.cellMap ∧
    (runExits tr s xs).1.scopeValue = tr.scopeValue ∧
    (runExits tr s xs).1.onDone = tr.onDone := by
  induction xs with
  | nil =>
    intro tr s hg ht
    exact ⟨StepOk_refl hg ht, rfl, rfl, rfl⟩
  | cons x rest ih =>
    intro tr s hg ht
    rw [show runExits tr s (x :: rest) =
        runExits (invoke tr s x [] []).2.1 (invoke tr s x [] []).2.2 rest from rfl]
    obtain ⟨h1, hcm1, hsv1, hod1⟩ := invoke_step hg ht x [] []
    obtain ⟨h2, hcm2, hsv2, hod2⟩ := ih h1.1 h1.2.1
    exact ⟨StepOk_trans h1 h2, by rw [hcm2, hcm1], by rw [hsv2, hsv1], by rw [hod2, hod1]⟩

theorem runOnDoneFrames_step (frames : List (List Value)) :
    ∀ {tr : Tr} {s : EmitState}, GINV s → TINV tr s →
    StepOk tr s (runOnDoneFrames tr s frames).1 (runOnDoneFrames tr s frames).2 ∧
    (runOnDoneFrames tr s frames).1.cellMap = tr.cellMap ∧
    (runOnDoneFrames tr s frames).1.scopeValue = tr.scopeValue ∧
    (runOnDoneFrames tr s frames).1.onDone = tr.onDone := by
  induction frames with
  | nil =>
    intro tr s hg ht
    exact ⟨StepOk_refl hg ht, rfl, rfl, rfl⟩
  | cons frame rest ih =>
    intro tr s hg ht
    rw [show runOnDoneFrames tr s (frame :: rest) =
        runOnDoneFrames (runExits tr s frame.reverse).1 (runExits tr s frame.reverse).2
          rest from rfl]
    obtain ⟨h1, hcm1, hsv1, hod1⟩ := runExits_step frame.reverse hg ht
    obtain ⟨h2, hcm2, hsv2, hod2⟩ := ih h1.1 h1.2.1
    exact ⟨StepOk_trans h1 h2, by rw [hcm2, hcm1], by rw [hsv2, hsv1], by rw [hod2, hod1]⟩

/-! ### `create_fun` -/

/-- Appending a fresh function together with its entry block preserves
the global invariant; the new block belongs to the new function. -/
theorem funcs_blocks_append_ginv {s s' : EmitState} {fi : FuncId} {as : List Value}
    {sym : Str} (hg : GINV s) (hops : s'.ops = s.ops)
    (hblocks : s'.blocks = s.blocks ++ [⟨fi, as⟩])
    (hfuncs : s'.funcs = s.funcs ++ [sym])
    (hfi : fi = s.funcs.length) :
    GINV s' ∧ Extends s s' ∧ (∀ b, padAt s' b ↔ padAt s b) ∧
    blockFunc s' s.blocks.length = some fi ∧
    (∀ b, b < s.blocks.length → blockFunc s' b = blockFunc s b) ∧
    s'.blocks.length = s.blocks.length + 1 := by
  obtain ⟨hov, hbf, hpads, hfall⟩ := hg
  have hext : Extends s s' :=
    ⟨⟨_, hblocks⟩, ⟨[], by rw [hops, List.append_nil]⟩, ⟨_, hfuncs⟩⟩
  have hlen : s'.blocks.length = s.blocks.length + 1 := by simp [hblocks]
  have hflen : s'.funcs.length = s.funcs.length + 1 := by simp [hfuncs]
  have hpadIff : ∀ b, padAt s' b ↔ padAt s b := by
    intro b
    have hof : opsOf s' b = opsOf s b := by simp [opsOf, hops]
    simp only [padAt, hof]
  have hold : ∀ b, b < s.blocks.length → blockFunc s' b = blockFunc s b :=
    fun b hb => blockFunc_mono hext hb
  have hbfnew : blockFunc s' s.blocks.length = some fi := by
    simp [blockFunc, hblocks, List.getElem?_concat_length]
  refine ⟨⟨?_, ?_, ?_, ?_⟩, hext, hpadIff, hbfnew, hold, hlen⟩
  · intro op hop
    rw [hops] at hop
    rw [hlen]
    exact Nat.lt_succ_of_lt (hov op hop)
  · intro bi hbi
    rw [hblocks] at hbi
    rw [hflen]
    rcases List.mem_append.mp hbi with h | h
    · exact Nat.lt_succ_of_lt (hbf bi h)
    · simp only [List.mem_cons, List.not_mem_nil, or_false] at h
      subst h
      show fi < s.funcs.length + 1
      rw [hfi]
      exact Nat.lt_succ_self _
  · intro b1 b2 h1 h2 hf
    have h1s := (hpadIff b1).mp h1
    have h2s := (hpadIff b2).mp h2
    refine hpads b1 b2 h1s h2s ?_
    rw [← hold b1 (padAt_valid hov h1s), ← hold b2 (padAt_valid hov h2s)]
    exact hf
  · intro op hop
    rw [hops] at hop
    exact FallibleOk_mono hov hext (hov op hop) (hfall op hop)

/-- `Translator.create_fun` preserves the invariants of the parent's
state, creates no landing pad, and hands back a child translator whose
cursor is the fresh function's entry block, with no cached pad and an
empty cleanup stack. -/
theorem create_fun_step {tr : Tr} {s : EmitState} {name : Str} {args : List Str}
    {vs : VariableScope} {funTr : Tr} {fval : Value} {s' : EmitState}
    (hg : GINV s) (ht : TINV tr s)
    (hok : create_fun tr s name args vs = .ok (funTr, fval, s')) :
    GINV s' ∧ TINV funTr s' ∧ Extends s s' ∧
    (∀ b, padAt s' b ↔ padAt s b) ∧
    (∀ b, b < s.blocks.length → blockFunc s' b = blockFunc s b) ∧
    blockFunc s' funTr.block = some s.funcs.length ∧
    s'.funcs.length = s.funcs.length + 1 ∧
    funTr.exceptBlock = none ∧ funTr.onDone = [] ∧ funTr.block = s.blocks.length := by
  obtain ⟨q, hq, hok2⟩ := exceptBind_ok hok
  obtain ⟨m0, ns0, cs0, closure⟩ := q
  obtain ⟨sG, hsg, hok3⟩ := exceptBind_ok hok2
  have hpure := pure_ok hok3
  injection hpure with hfe hpure2
  injection hpure2 with hve hse
  set BARGS := (List.range (1 + vs.parent_vars.length + args.length)).map
    (fun i => s.nextValue + i) with hBARGS
  set SD : EmitState :=
    { s with
        nextValue := s.nextValue + (1 + vs.parent_vars.length + args.length),
        blocks := s.blocks ++ [⟨s.funcs.length, BARGS⟩],
        funcs := s.funcs ++ [(fresh_symbol s.freshVars (some name)).1],
        freshVars := (fresh_symbol s.freshVars (some name)).2 } with hSD
  have hopsD : SD.ops = s.ops := rfl
  have hblocksD : SD.blocks = s.blocks ++ [⟨s.funcs.length, BARGS⟩] := rfl
  have hfuncsD : SD.funcs = s.funcs ++ [(fresh_symbol s.freshVars (some name)).1] := rfl
  obtain ⟨hgD, hextD, hpiD, hbfD, holdD, hlenD⟩ :=
    funcs_blocks_append_ginv hg hopsD hblocksD hfuncsD rfl
  have hbD : s.blocks.length < SD.blocks.length := by
    rw [hlenD]
    exact Nat.lt_succ_self _
  obtain ⟨hgE, hblE, hfnE, ⟨tE, hopE⟩, hpiE⟩ :=
    alloc_variable_cells_emits vs.vars m0 ns0 cs0 s.blocks.length SD hgD hbD
  have hbE : s.blocks.length <
      (alloc_variable_cells m0 ns0 cs0 s.blocks.length vs.vars SD).2.2.2.blocks.length := by
    rw [hblE]
    exact hbD
  obtain ⟨hgF, hblF, hfnF, ⟨tF, hopF⟩, hpiF⟩ :=
    emitOpV_emits (OpKind.scopeExtend (BARGS.headD 0)
        (alloc_variable_cells m0 ns0 cs0 s.blocks.length vs.vars SD).2.1
        (alloc_variable_cells m0 ns0 cs0 s.blocks.length vs.vars SD).2.2.1)
      hgE hbE rfl (fun w h => OpKind.noConfusion h)
  have hsg' : storeParams (alloc_variable_cells m0 ns0 cs0 s.blocks.length vs.vars SD).1
      s.blocks.length args (BARGS.drop (1 + vs.parent_vars.length))
      (emitOpV (alloc_variable_cells m0 ns0 cs0 s.blocks.length vs.vars SD).2.2.2
        s.blocks.length
        (OpKind.scopeExtend (BARGS.headD 0)
          (alloc_variable_cells m0 ns0 cs0 s.blocks.length vs.vars SD).2.1
          (alloc_variable_cells m0 ns0 cs0 s.blocks.length vs.vars SD).2.2.1)).2
      = .ok sG := hsg
  have hbF : s.blocks.length <
      (emitOpV (alloc_variable_cells m0 ns0 cs0 s.blocks.length vs.vars SD).2.2.2
        s.blocks.length
        (OpKind.scopeExtend (BARGS.headD 0)
          (alloc_variable_cells m0 ns0 cs0 s.blocks.length vs.vars SD).2.1
          (alloc_variable_cells m0 ns0 cs0 s.blocks.length vs.vars SD).2.2.1)).2.blocks.length := by
    rw [hblF]
    exact hbE
  obtain ⟨hgG, hblG, hfnG, ⟨tG, hopG⟩, hpiG⟩ :=
    storeParams_emits args _ _ _ _ _ hgF hbF hsg'
  have hbtr : tr.block < sG.blocks.length := by
    rw [hblG, hblF, hblE, hlenD]
    exact Nat.lt_succ_of_lt ht.1
  obtain ⟨hgH, hblH, hfnH, ⟨tH, hopH⟩, hpiH⟩ :=
    emitOpV_emits (OpKind.functionRef (fresh_symbol s.freshVars (some name)).1 args
        tr.scopeValue closure)
      hgG hbtr rfl (fun w h => OpKind.noConfusion h)
  have hse' : (emitOpV sG tr.block (OpKind.functionRef (fresh_symbol s.freshVars (some name)).1
      args tr.scopeValue closure)).2 = s' := hse
  have hfe' : funTr = ⟨s.blocks.length, [], none,
      (alloc_variable_cells m0 ns0 cs0 s.blocks.length vs.vars SD).1,
      (emitOpV (alloc_variable_cells m0 ns0 cs0 s.blocks.length vs.vars SD).2.2.2
        s.blocks.length
        (OpKind.scopeExtend (BARGS.headD 0)
          (alloc_variable_cells m0 ns0 cs0 s.blocks.length vs.vars SD).2.1
          (alloc_variable_cells m0 ns0 cs0 s.blocks.length vs.vars SD).2.2.1)).1⟩ :=
    hfe.symm
  subst hse'
  subst hfe'
  have hblHD : (emitOpV sG tr.block
      (OpKind.functionRef (fresh_symbol s.freshVars (some name)).1 args
        tr.scopeValue closure)).2.blocks = SD.blocks := by
    rw [hblH, hblG, hblF, hblE]
  have hfnHD : (emitOpV sG tr.block
      (OpKind.functionRef (fresh_symbol s.freshVars (some name)).1 args
        tr.scopeValue closure)).2.funcs = SD.funcs := by
    rw [hfnH, hfnG, hfnF, hfnE]
  have hextH : Extends s (emitOpV sG tr.block
      (OpKind.functionRef (fresh_symbol s.freshVars (some name)).1 args
        tr.scopeValue closure)).2 := by
    refine extends_trans hextD
      ⟨⟨[], by rw [hblHD, List.append_nil]⟩,
       ⟨tE ++ (tF ++ (tG ++ tH)), ?_⟩,
       ⟨[], by rw [hfnHD, List.append_nil]⟩⟩
    rw [hopH, hopG, hopF, hopE]
    simp [List.append_assoc]
  have hpiHD : ∀ b, padAt (emitOpV sG tr.block
      (OpKind.functionRef (fresh_symbol s.freshVars (some name)).1 args
        tr.scopeValue closure)).2 b ↔ padAt s b :=
    fun b => (hpiH b).trans ((hpiG b).trans ((hpiF b).trans ((hpiE b).trans (hpiD b))))
  have hbfHnew : blockFunc (emitOpV sG tr.block
      (OpKind.functionRef (fresh_symbol s.freshVars (some name)).1 args
        tr.scopeValue closure)).2 s.blocks.length = some s.funcs.length := by
    rw [blockFunc_congr hblHD s.blocks.length]
    exact hbfD
  have hlenH : (emitOpV sG tr.block
      (OpKind.functionRef (fresh_symbol s.freshVars (some name)).1 args
        tr.scopeValue closure)).2.blocks.length = s.blocks.length + 1 := by
    rw [hblHD, hlenD]
  refine ⟨hgH, ⟨?_, ?_, ?_⟩, hextH, hpiHD, fun b hb => blockFunc_mono hextH hb, ?_, ?_,
    rfl, rfl, rfl⟩
  · show s.blocks.length < (emitOpV sG tr.block
      (OpKind.functionRef (fresh_symbol s.freshVars (some name)).1 args
        tr.scopeValue closure)).2.blocks.length
    rw [hlenH]
    exact Nat.lt_succ_self _
  · intro pb hbe
    exact Option.noConfusion hbe
  · intro hne pb hp
    have hps : padAt s pb := (hpiHD pb).mp hp
    have hpv : pb < s.blocks.length := padAt_valid hg.1 hps
    show blockFunc (emitOpV sG tr.block
      (OpKind.functionRef (fresh_symbol s.freshVars (some name)).1 args
        tr.scopeValue closure)).2 pb ≠
      blockFunc (emitOpV sG tr.block
        (OpKind.functionRef (fresh_symbol s.freshVars (some name)).1 args
          tr.scopeValue closure)).2 s.blocks.length
    rw [blockFunc_mono hextH hpv, hbfHnew]
    have hbsome : s.blocks[pb]? = some s.blocks[pb] := List.getElem?_eq_getElem hpv
    have hpbf : blockFunc s pb = some s.blocks[pb].func := by simp [blockFunc, hbsome]
    rw [hpbf]
    intro hcontra
    injection hcontra with hcf
    have hlt : s.blocks[pb].func < s.funcs.length :=
      hg.2.1 s.blocks[pb] (List.getElem_mem hpv)
    rw [hcf] at hlt
    exact absurd hlt (Nat.lt_irrefl _)
  · show blockFunc (emitOpV sG tr.block
      (OpKind.functionRef (fresh_symbol s.freshVars (some name)).1 args
        tr.scopeValue closure)).2 s.blocks.length = some s.funcs.length
    exact hbfHnew
  · show (emitOpV sG tr.block
      (OpKind.functionRef (fresh_symbol s.freshVars (some name)).1 args
        tr.scopeValue closure)).2.funcs.length = s.funcs.length + 1
    rw [hfnHD, hfuncsD]
    simp

/-! ### Remaining terminal helpers -/

theorem createBlockAfter_stepOk {tr : Tr} {s : EmitState} {b : BlockId} (n : Nat)
    (hg : GINV s) (ht : TINV tr s) (hb : b < s.blocks.length) :
    StepOk tr s tr (createBlockAfter s b n).2.2 := by
  obtain ⟨hg', hext, hnb, hops, hfuncs, hlen, hbfn, hpadIff, hfold⟩ :=
    createBlockAfter_step n hg hb
  exact StepOk_samePads hg ht hg' hext (fun b' hb' => (hpadIff b').mp hb')

theorem load_value_attribute_step {tr : Tr} {s : EmitState} (hg : GINV s) (ht : TINV tr s)
    (v : Value) (attr : Str) :
    StepOk tr s (load_value_attribute tr s v attr).2.1
      (load_value_attribute tr s v attr).2.2 ∧
    (load_value_attribute tr s v attr).2.1.cellMap = tr.cellMap ∧
    (load_value_attribute tr s v attr).2.1.scopeValue = tr.scopeValue ∧
    (load_value_attribute tr s v attr).2.1.onDone = tr.onDone := by
  have h1 : StepOk tr s tr (emitOpV s tr.block (OpKind.builtinOp (str "getattr"))).2 :=
    emitOpV_step hg ht ht.1 rfl (fun w h => OpKind.noConfusion h)
  have h2 : StepOk tr (emitOpV s tr.block (OpKind.builtinOp (str "getattr"))).2 tr
      (emitOpV (emitOpV s tr.block (OpKind.builtinOp (str "getattr"))).2 tr.block
        (OpKind.strLit attr)).2 :=
    emitOpV_step h1.1 h1.2.1 h1.2.1.1 rfl (fun w h => OpKind.noConfusion h)
  have h12 := StepOk_trans h1 h2
  obtain ⟨h3, hcm, hsv, hod⟩ := invoke_step h12.1 h12.2.1
    (emitOpV s tr.block (OpKind.builtinOp (str "getattr"))).1
    [v, (emitOpV (emitOpV s tr.block (OpKind.builtinOp (str "getattr"))).2 tr.block
      (OpKind.strLit attr)).1] []
  exact ⟨StepOk_trans h12 h3, hcm, hsv, hod⟩

theorem format_value_step {tr : Tr} {s : EmitState} (hg : GINV s) (ht : TINV tr s)
    (v format : Value) :
    StepOk tr s (format_value tr s v format).2.1 (format_value tr s v format).2.2 ∧
    (format_value tr s v format).2.1.cellMap = tr.cellMap ∧
    (format_value tr s v format).2.1.scopeValue = tr.scopeValue ∧
    (format_value tr s v format).2.1.onDone = tr.onDone := by
  have h1 : StepOk tr s tr
      (emitOpV s tr.block (OpKind.getMethodOp v (str "__format__"))).2 :=
    emitOpV_step hg ht ht.1 rfl (fun w h => OpKind.noConfusion h)
  obtain ⟨h2, hcm, hsv, hod⟩ := invoke_step h1.1 h1.2.1
    (emitOpV s tr.block (OpKind.getMethodOp v (str "__format__"))).1 [v, format] []
  exact ⟨StepOk_trans h1 h2, hcm, hsv, hod⟩

theorem int_constant_step {tr : Tr} {s : EmitState} (hg : GINV s) (ht : TINV tr s)
    (c : Int) : StepOk tr s tr (int_constant tr s c).2 := by
  rw [int_constant]
  by_cases hr : -(2 : Int) ^ 63 ≤ c ∧ c < 2 ^ 63
  · rw [if_pos hr]
    exact emitOpV_step hg ht ht.1 rfl (fun w h => OpKind.noConfusion h)
  · rw [if_neg hr]
    exact emitOpV_step hg ht ht.1 rfl (fun w h => OpKind.noConfusion h)

/-! ### Preservation of the visitor methods -/

theorem vExprListF_pres {rec : LowerF} (h : LowerFPres rec) (es : List Expr) :
    Pres (vExprListF rec es) := by
  intro tr s a tr' s' hg ht hok
  cases es with
  | nil =>
    have hpe := pure_ok hok
    injection hpe with h1 h2
    injection h2 with h2 h3
    subst h2
    subst h3
    exact StepOk_refl hg ht
  | cons e rest =>
    obtain ⟨p1, hok1, hok2⟩ := exceptBind_ok hok
    obtain ⟨v1, tr1, s1⟩ := p1
    obtain ⟨p2, hok3, hok4⟩ := exceptBind_ok hok2
    obtain ⟨vs2, tr2, s2⟩ := p2
    have hpe := pure_ok hok4
    injection hpe with h1 h2
    injection h2 with h2 h3
    subst h2
    subst h3
    have hs1 := h.expr e tr s v1 tr1 s1 hg ht hok1
    have hs2 := h.exprList rest tr1 s1 vs2 tr2 s2 hs1.1 hs1.2.1 hok3
    exact StepOk_trans hs1 hs2

theorem vKeywordsF_pres {rec : LowerF} (h : LowerFPres rec)
    (ks : List (Option Str × Expr)) (args : List Value) (keys : List Str) :
    Pres2 (vKeywordsF rec ks args keys) := by
  intro tr s a b tr' s' hg ht hok
  match ks with
  | [] =>
    have hpe := pure_ok hok
    injection hpe with h1 h2
    injection h2 with h2 h3
    injection h3 with h3 h4
    subst h3
    subst h4
    exact StepOk_refl hg ht
  | (none, e) :: rest => exact absurd hok throw_ne_ok
  | (some k, e) :: rest =>
    obtain ⟨p1, hok1, hok2⟩ := exceptBind_ok hok
    obtain ⟨v1, tr1, s1⟩ := p1
    have hs1 := h.expr e tr s v1 tr1 s1 hg ht hok1
    have hs2 := h.keywords rest (args ++ [v1]) (keys ++ [k]) tr1 s1 a b tr' s'
      hs1.1 hs1.2.1 hok2
    exact StepOk_trans hs1 hs2

theorem vCompareChainF_pres {rec : LowerF} (h : LowerFPres rec)
    (left : Value) (ops : List CmpOpKind) (cs : List Expr) :
    Pres (vCompareChainF rec left ops cs) := by
  intro tr s a tr' s' hg ht hok
  match ops, cs with
  | [], _ =>
    have hpe := pure_ok hok
    injection hpe with h1 h2
    injection h2 with h2 h3
    subst h2
    subst h3
    exact StepOk_refl hg ht
  | op :: ops', [] => exact absurd hok throw_ne_ok
  | op :: ops', c :: cs' =>
    obtain ⟨p1, hok1, hok2⟩ := exceptBind_ok hok
    obtain ⟨right, tr1, s1⟩ := p1
    have hs1 := h.expr c tr s right tr1 s1 hg ht hok1
    obtain ⟨hs2, hcm, hsv, hod⟩ := apply_binop_step hs1.1 hs1.2.1 left (.cmp op) right
    have hs3 := h.compareChain (apply_binop tr1 s1 left (.cmp op) right).1 ops' cs'
      (apply_binop tr1 s1 left (.cmp op) right).2.1
      (apply_binop tr1 s1 left (.cmp op) right).2.2 a tr' s' hs2.1 hs2.2.1 hok2
    exact StepOk_trans hs1 (StepOk_trans hs2 hs3)

theorem vJoinedPartsF_pres {rec : LowerF} (h : LowerFPres rec) (es : List Expr) :
    Pres (vJoinedPartsF rec es) := by
  intro tr s a tr' s' hg ht hok
  cases es with
  | nil =>
    have hpe := pure_ok hok
    injection hpe with h1 h2
    injection h2 with h2 h3
    subst h2
    subst h3
    exact StepOk_refl hg ht
  | cons e rest =>
    cases e
    case const c =>
      obtain ⟨p1, hok1, hok2⟩ := exceptBind_ok hok
      obtain ⟨v1, tr1, s1⟩ := p1
      obtain ⟨p2, hok3, hok4⟩ := exceptBind_ok hok2
      obtain ⟨vs2, tr2, s2⟩ := p2
      have hpe := pure_ok hok4
      injection hpe with h1 h2
      injection h2 with h2 h3
      subst h2
      subst h3
      have hs1 := h.expr (.const c) tr s v1 tr1 s1 hg ht hok1
      have hs2 := h.joinedParts rest tr1 s1 vs2 tr2 s2 hs1.1 hs1.2.1 hok3
      exact StepOk_trans hs1 hs2
    case formattedValue ea eb ec =>
      obtain ⟨p1, hok1, hok2⟩ := exceptBind_ok hok
      obtain ⟨v1, tr1, s1⟩ := p1
      obtain ⟨p2, hok3, hok4⟩ := exceptBind_ok hok2
      obtain ⟨vs2, tr2, s2⟩ := p2
      have hpe := pure_ok hok4
      injection hpe with h1 h2
      injection h2 with h2 h3
      subst h2
      subst h3
      have hs1 := h.expr (.formattedValue ea eb ec) tr s v1 tr1 s1 hg ht hok1
      have hs2 := h.joinedParts rest tr1 s1 vs2 tr2 s2 hs1.1 hs1.2.1 hok3
      exact StepOk_trans hs1 hs2
    all_goals exact absurd hok throw_ne_ok

theorem vAssignLhsF_pres {rec : LowerF} (h : LowerFPres rec) (e : Expr) (v : Value) :
    PresU (vAssignLhsF rec e v) := by
  intro tr s tr' s' hg ht hok
  cases e
  case tuple elts =>
    have hemit : StepOk tr s tr
        (emitOp s tr.block (OpKind.tupleCheck v (Int.ofNat elts.length))) :=
      emitOp_step hg ht ht.1 rfl (fun w hh => OpKind.noConfusion hh)
    have hs2 := h.assignTupleElts elts 0 v tr.block tr
      (emitOp s tr.block (OpKind.tupleCheck v (Int.ofNat elts.length))) tr' s'
      hemit.1 hemit.2.1 ht.1 hok
    exact StepOk_trans hemit hs2
  case subscript value slice =>
    obtain ⟨p1, hok1, hok2⟩ := exceptBind_ok hok
    obtain ⟨av, tr1, s1⟩ := p1
    obtain ⟨p2, hok3, hok4⟩ := exceptBind_ok hok2
    obtain ⟨idx, tr2, s2⟩ := p2
    have hpe := pure_ok hok4
    injection hpe with h1 h2
    subst h1
    subst h2
    have hs1 := h.expr value tr s av tr1 s1 hg ht hok1
    have hs2 := h.expr slice tr1 s1 idx tr2 s2 hs1.1 hs1.2.1 hok3
    have hemit : StepOk tr2 s2 tr2 (emitOp s2 tr2.block (OpKind.arraySet av idx v)) :=
      emitOp_step hs2.1 hs2.2.1 hs2.2.1.1 rfl (fun w hh => OpKind.noConfusion hh)
    exact StepOk_trans hs1 (StepOk_trans hs2 hemit)
  case name id lineno col =>
    have hok' : (match lookupA tr.cellMap id with
        | some cell => (pure (tr, cell_store s tr.block cell v) : Res (Tr × EmitState))
        | none => throw (str "KeyError")) = .ok (tr', s') := hok
    cases hl : lookupA tr.cellMap id with
    | none =>
      rw [hl] at hok'
      exact absurd hok' throw_ne_ok
    | some cell =>
      rw [hl] at hok'
      have hpe := pure_ok hok'
      injection hpe with h1 h2
      subst h1
      subst h2
      exact emitOp_step hg ht ht.1 rfl (fun w hh => OpKind.noConfusion hh)
  all_goals exact absurd hok throw_ne_ok

theorem vAssignTupleEltsF_pres {rec : LowerF} (h : LowerFPres rec) :
    PresTup (vAssignTupleEltsF rec) := by
  intro es i v b0 tr s tr' s' hg ht hb0 hok
  cases es with
  | nil =>
    have hpe := pure_ok hok
    injection hpe with h1 h2
    subst h1
    subst h2
    exact StepOk_refl hg ht
  | cons e rest =>
    obtain ⟨p1, hok1, hok2⟩ := exceptBind_ok hok
    obtain ⟨tr1, s1⟩ := p1
    have hemit : StepOk tr s tr (emitOpV s b0 (OpKind.tupleGet v (Int.ofNat i))).2 :=
      emitOpV_step hg ht hb0 rfl (fun w hh => OpKind.noConfusion hh)
    have hs1 := h.assignLhs e (emitOpV s b0 (OpKind.tupleGet v (Int.ofNat i))).1
      tr (emitOpV s b0 (OpKind.tupleGet v (Int.ofNat i))).2 tr1 s1
      hemit.1 hemit.2.1 hok1
    have hble : (emitOpV s b0 (OpKind.tupleGet v (Int.ofNat i))).2.blocks.length ≤
        s1.blocks.length := blocks_length_mono hs1.2.2.1
    have hb1 : b0 < s1.blocks.length := lt_of_lt_of_le hb0 hble
    have hs2 := h.assignTupleElts rest (i + 1) v b0 tr1 s1 tr' s'
      hs1.1 hs1.2.1 hb1 hok2
    exact StepOk_trans hemit (StepOk_trans hs1 hs2)

theorem vWithItemsF_pres {rec : LowerF} (h : LowerFPres rec)
    (items : List (Expr × Option Str)) (acc : List Value) :
    Pres (vWithItemsF rec items acc) := by
  intro tr s a tr' s' hg ht hok
  match items with
  | [] =>
    have hpe := pure_ok hok
    injection hpe with h1 h2
    injection h2 with h2 h3
    subst h2
    subst h3
    exact StepOk_refl hg ht
  | (ctxExpr, optVar) :: rest =>
    obtain ⟨p1, hok1, hok2⟩ := exceptBind_ok hok
    obtain ⟨ctx, tr1, s1⟩ := p1
    have hs1 := h.expr ctxExpr tr s ctx tr1 s1 hg ht hok1
    cases optVar with
    | some x => exact absurd hok2 throw_ne_ok
    | none =>
      have hs2 : StepOk tr1 s1 tr1
          (emitOpV s1 tr1.block (OpKind.getMethodOp ctx (str "__enter__"))).2 :=
        emitOpV_step hs1.1 hs1.2.1 hs1.2.1.1 rfl (fun w hh => OpKind.noConfusion hh)
      have hs3 : StepOk tr1
          (emitOpV s1 tr1.block (OpKind.getMethodOp ctx (str "__enter__"))).2 tr1
          (emitOpV (emitOpV s1 tr1.block (OpKind.getMethodOp ctx (str "__enter__"))).2
            tr1.block (OpKind.getMethodOp ctx (str "__exit__"))).2 :=
        emitOpV_step hs2.1 hs2.2.1 hs2.2.1.1 rfl (fun w hh => OpKind.noConfusion hh)
      obtain ⟨hs4, hcm4, hsv4, hod4⟩ := invoke_step hs3.1 hs3.2.1
        (emitOpV s1 tr1.block (OpKind.getMethodOp ctx (str "__enter__"))).1 [] []
      have hchain := StepOk_trans hs1 (StepOk_trans hs2 (StepOk_trans hs3 hs4))
      have hs5 := h.withItems rest
        (acc ++ [(emitOpV (emitOpV s1 tr1.block
            (OpKind.getMethodOp ctx (str "__enter__"))).2
          tr1.block (OpKind.getMethodOp ctx (str "__exit__"))).1])
        _ _ a tr' s' hchain.1 hchain.2.1 hok2
      exact StepOk_trans hchain hs5

/-- A landing pad of the current function stays the landing pad of the
cursor's function along any invariant-preserving step. -/
theorem pad_transport {tr trX : Tr} {s sX : EmitState} {thr : BlockId}
    (hg : GINV s) (hchain : StepOk tr s trX sX)
    (hthr : padAt s thr) (hthrf : blockFunc s thr = blockFunc s tr.block) :
    padAt sX thr ∧ blockFunc sX thr = blockFunc sX trX.block := by
  have hthrv : thr < s.blocks.length := padAt_valid hg.1 hthr
  refine ⟨padAt_mono hchain.2.2.1 hthr, ?_⟩
  rw [blockFunc_mono hchain.2.2.1 hthrv, hchain.2.2.2.1, hthrf]

theorem vListCompGensF_pres {rec : LowerF} (h : LowerFPres rec) :
    PresLCG (vListCompGensF rec) := by
  intro gens dn thr l tr s out dn' tr' s' hg ht hthr hthrf hok
  match gens with
  | [] =>
    have hpe := pure_ok hok
    injection hpe with h1 h2
    injection h2 with h2 h3
    injection h3 with h3 h4
    subst h3
    subst h4
    exact StepOk_refl hg ht
  | g :: rest =>
    simp only [vListCompGensF] at hok
    by_cases ha : g.isAsync = true
    · rw [if_pos ha] at hok
      obtain ⟨u, hu, _⟩ := exceptBind_ok hok
      exact absurd hu throw_ne_ok
    · rw [if_neg ha] at hok
      obtain ⟨u1, _, hok⟩ := exceptBind_ok hok
      by_cases hb : g.ifsEmpty = false
      · rw [if_pos hb] at hok
        obtain ⟨u, hu, _⟩ := exceptBind_ok hok
        exact absurd hu throw_ne_ok
      · rw [if_neg hb] at hok
        obtain ⟨u2, _, hok⟩ := exceptBind_ok hok
        obtain ⟨p1, hok1, hok⟩ := exceptBind_ok hok
        obtain ⟨lv, tr1, s1⟩ := p1
        have hs1 := h.expr g.iter tr s lv tr1 s1 hg ht hok1
        set MI := emitOpV s1 tr1.block (OpKind.getMethodOp lv (str "__iter__")) with hMI
        have hs2 : StepOk tr1 s1 tr1 MI.2 :=
          emitOpV_step hs1.1 hs1.2.1 hs1.2.1.1 rfl (fun w hh => OpKind.noConfusion hh)
        obtain ⟨hs3, hcm3, hsv3, hod3⟩ := invoke_step hs2.1 hs2.2.1 MI.1 [] []
        set IVK := invoke tr1 MI.2 MI.1 [] [] with hIVK
        have hs3' : StepOk tr1 MI.2 IVK.2.1 IVK.2.2 := hs3
        set MN := emitOpV IVK.2.2 IVK.2.1.block
          (OpKind.getMethodOp IVK.1 (str "__next__")) with hMN
        have hs4 : StepOk IVK.2.1 IVK.2.2 IVK.2.1 MN.2 :=
          emitOpV_step hs3'.1 hs3'.2.1 hs3'.2.1.1 rfl (fun w hh => OpKind.noConfusion hh)
        have hpre : StepOk tr s IVK.2.1 MN.2 :=
          StepOk_trans hs1 (StepOk_trans hs2 (StepOk_trans hs3' hs4))
        obtain ⟨hthr2, hthrf2⟩ := pad_transport hg hpre hthr hthrf
        obtain ⟨hstep5, hpads5⟩ := invoke_next_step MN.1 dn hpre.1 hpre.2.1 hthr2 hthrf2
        set INX := invoke_next MN.2 MN.1 IVK.2.1.block dn thr with hINX
        set TRB : Tr := { IVK.2.1 with block := INX.1.2.1 } with hTRB
        have hpre2 : StepOk tr s TRB INX.2 := StepOk_trans hpre hstep5
        obtain ⟨scp, hscp, hok⟩ := exceptBind_ok hok
        set ALC2 := alloc_variable_cells TRB.cellMap [] [] TRB.block scp.vars INX.2
          with hALC2
        obtain ⟨hgA, hblA, hfnA, ⟨tA, hopA⟩, hpiA⟩ :=
          alloc_variable_cells_emits scp.vars TRB.cellMap [] [] TRB.block INX.2
            hpre2.1 hpre2.2.1.1
        have hs6 : StepOk TRB INX.2 TRB ALC2.2.2.2 :=
          StepOk_of_emits hpre2.1 hpre2.2.1 hgA hblA hfnA ⟨tA, hopA⟩ hpiA
        set SEX := emitOpV ALC2.2.2.2 TRB.block
          (OpKind.scopeExtend TRB.scopeValue ALC2.2.1 ALC2.2.2.1) with hSEX
        have hbT : TRB.block < ALC2.2.2.2.blocks.length := by
          rw [show ALC2.2.2.2.blocks = INX.2.blocks from hblA]
          exact hpre2.2.1.1
        have hs7 : StepOk TRB ALC2.2.2.2 TRB SEX.2 :=
          emitOpV_step hs6.1 hs6.2.1 hbT rfl (fun w hh => OpKind.noConfusion hh)
        set TRC : Tr := { TRB with cellMap := ALC2.1, scopeValue := SEX.1 } with hTRC
        have hpre3 : StepOk tr s TRC SEX.2 :=
          StepOk_trans hpre2 (StepOk_trans hs6 hs7)
        obtain ⟨p2, hok2, hok⟩ := exceptBind_ok hok
        obtain ⟨tr2, s2⟩ := p2
        have hs8 := h.assignLhs g.target INX.1.2.2 TRC SEX.2 tr2 s2
          hpre3.1 hpre3.2.1 hok2
        have hpre4 : StepOk tr s tr2 s2 := StepOk_trans hpre3 hs8
        obtain ⟨hthr3, hthrf3⟩ := pad_transport hg hpre4 hthr hthrf
        have hs9 := h.listCompGens rest INX.1.1 thr (some lv) tr2 s2 out dn' tr' s'
          hpre4.1 hpre4.2.1 hthr3 hthrf3 hok
        exact StepOk_trans hpre4 hs9

theorem triple_eq_2_1 {α β γ : Type} {p : α × β × γ} {a : α} {b : β} {c : γ}
    (h : p = (a, b, c)) : p.2.1 = b := by rw [h]

theorem triple_eq_2_2 {α β γ : Type} {p : α × β × γ} {a : α} {b : β} {c : γ}
    (h : p = (a, b, c)) : p.2.2 = c := by rw [h]

/-- Lowering a child function's body and then resuming in the parent:
all pads created on the way live in the child's (or a later) fresh
function, so the parent translator's invariant survives. -/
theorem child_chain_parent {tr child childEnd : Tr} {s sMid sEnd : EmitState}
    (hg : GINV s) (ht : TINV tr s)
    (hcf : GINV sMid ∧ TINV child sMid ∧ Extends s sMid ∧
      (∀ b, padAt sMid b ↔ padAt s b) ∧
      (∀ b, b < s.blocks.length → blockFunc sMid b = blockFunc s b) ∧
      blockFunc sMid child.block = some s.funcs.length ∧
      sMid.funcs.length = s.funcs.length + 1 ∧
      child.exceptBlock = none ∧ child.onDone = [] ∧ child.block = s.blocks.length)
    (hchain : StepOk child sMid childEnd sEnd) :
    StepOk tr s tr sEnd := by
  obtain ⟨hgM, htM, hextM, hpiM, holdM, hbfc, hflen, hexc, hond, hblk⟩ := hcf
  obtain ⟨hgE, htE, hextE, hsameE, hnewE⟩ := hchain
  have hextSE : Extends s sEnd := extends_trans hextM hextE
  have htrv : tr.block < s.blocks.length := ht.1
  have htrvM : tr.block < sMid.blocks.length :=
    lt_of_lt_of_le htrv (blocks_length_mono hextM)
  have hbfEtr : blockFunc sEnd tr.block = blockFunc s tr.block := by
    rw [blockFunc_mono hextE htrvM, holdM tr.block htrv]
  have hbstr : s.blocks[tr.block]? = some s.blocks[tr.block] :=
    List.getElem?_eq_getElem htrv
  have hbftr : blockFunc s tr.block = some s.blocks[tr.block].func := by
    simp [blockFunc, hbstr]
  have hftrlt : s.blocks[tr.block].func < s.funcs.length :=
    hg.2.1 s.blocks[tr.block] (List.getElem_mem htrv)
  have hpadANY : ∀ b, padAt sEnd b →
      padAt s b ∨ (∃ f, blockFunc sEnd b = some f ∧ s.funcs.length ≤ f) := by
    intro b hb
    rcases hnewE b hb with hM | hM | ⟨f, hf, hle⟩
    · exact Or.inl ((hpiM b).mp hM)
    · refine Or.inr ⟨s.funcs.length, ?_, Nat.le_refl _⟩
      rw [hM, hbfc]
    · have hle' : s.funcs.length + 1 ≤ f := hflen ▸ hle
      exact Or.inr ⟨f, hf, Nat.le_of_succ_le hle'⟩
  refine ⟨hgE, ⟨?_, ?_, ?_⟩, hextSE, hbfEtr, ?_⟩
  · exact lt_of_lt_of_le htrvM (blocks_length_mono hextE)
  · intro pb hbe
    obtain ⟨hp, hpf⟩ := ht.2.1 pb hbe
    have hpv : pb < s.blocks.length := padAt_valid hg.1 hp
    refine ⟨padAt_mono hextSE hp, ?_⟩
    rw [blockFunc_mono hextSE hpv, hbfEtr]
    exact hpf
  · intro hne pb hp
    rcases hpadANY pb hp with hps | ⟨f, hf, hle⟩
    · have hpv : pb < s.blocks.length := padAt_valid hg.1 hps
      rw [blockFunc_mono hextSE hpv, hbfEtr]
      exact ht.2.2 hne pb hps
    · rw [hf, hbfEtr, hbftr]
      intro hcontra
      injection hcontra with hcf2
      rw [← hcf2] at hftrlt
      exact absurd (lt_of_le_of_lt hle hftrlt) (Nat.lt_irrefl _)
  · intro b hb
    rcases hpadANY b hb with hps | ⟨f, hf, hle⟩
    · exact Or.inl hps
    · exact Or.inr (Or.inr ⟨f, hf, hle⟩)

theorem ite_ok {c : Prop} [Decidable c] {α : Type} {x y : Except Str α} {b : α}
    (h : (if c then x else y) = .ok b) : (c ∧ x = .ok b) ∨ (¬c ∧ y = .ok b) := by
  by_cases hc : c
  · rw [if_pos hc] at h
    exact Or.inl ⟨hc, h⟩
  · rw [if_neg hc] at h
    exact Or.inr ⟨hc, h⟩

theorem vExprF_pres {rec : LowerF} (h : LowerFPres rec) (e : Expr) :
    Pres (vExprF rec e) := by
  intro tr s a tr' s' hg ht hok
  cases e
  case attr value attrName ctx =>
    obtain ⟨p1, hok1, hok2⟩ := exceptBind_ok hok
    obtain ⟨val, tr1, s1⟩ := p1
    have hs1 := h.expr value tr s val tr1 s1 hg ht hok1
    cases ctx with
    | load =>
      have hpe := pure_ok hok2
      have h2 := triple_eq_2_1 hpe
      have h3 := triple_eq_2_2 hpe
      subst h2
      subst h3
      obtain ⟨hs2, _, _, _⟩ := load_value_attribute_step hs1.1 hs1.2.1 val attrName
      exact StepOk_trans hs1 hs2
    | store => exact absurd hok2 throw_ne_ok
    | del => exact absurd hok2 throw_ne_ok
  case binop left op right =>
    obtain ⟨p1, hok1, hok2⟩ := exceptBind_ok hok
    obtain ⟨l1, tr1, s1⟩ := p1
    obtain ⟨p2, hok3, hok4⟩ := exceptBind_ok hok2
    obtain ⟨r1, tr2, s2⟩ := p2
    have hpe := pure_ok hok4
    have h2 := triple_eq_2_1 hpe
    have h3 := triple_eq_2_2 hpe
    subst h2
    subst h3
    have hs1 := h.expr left tr s l1 tr1 s1 hg ht hok1
    have hs2 := h.expr right tr1 s1 r1 tr2 s2 hs1.1 hs1.2.1 hok3
    obtain ⟨hs3, _, _, _⟩ := apply_binop_step hs2.1 hs2.2.1 l1 (.arith op) r1
    exact StepOk_trans hs1 (StepOk_trans hs2 hs3)
  case call func args keywords =>
    obtain ⟨p1, hok1, hok2⟩ := exceptBind_ok hok
    obtain ⟨fv, tr1, s1⟩ := p1
    obtain ⟨p2, hok3, hok4⟩ := exceptBind_ok hok2
    obtain ⟨avs, tr2, s2⟩ := p2
    obtain ⟨p3, hok5, hok6⟩ := exceptBind_ok hok4
    obtain ⟨aa, kn, tr3, s3⟩ := p3
    have hpe := pure_ok hok6
    have h2 := triple_eq_2_1 hpe
    have h3 := triple_eq_2_2 hpe
    subst h2
    subst h3
    have hs1 := h.expr func tr s fv tr1 s1 hg ht hok1
    have hs2 := h.exprList args tr1 s1 avs tr2 s2 hs1.1 hs1.2.1 hok3
    have hs3 := h.keywords keywords avs [] tr2 s2 aa kn tr3 s3 hs2.1 hs2.2.1 hok5
    obtain ⟨hs4, _, _, _⟩ := invoke_step hs3.1 hs3.2.1 fv aa kn
    exact StepOk_trans hs1 (StepOk_trans hs2 (StepOk_trans hs3 hs4))
  case compare left ops comparators =>
    obtain ⟨p1, hok1, hok2⟩ := exceptBind_ok hok
    obtain ⟨l1, tr1, s1⟩ := p1
    have hs1 := h.expr left tr s l1 tr1 s1 hg ht hok1
    have hs2 := h.compareChain l1 ops comparators tr1 s1 a tr' s' hs1.1 hs1.2.1 hok2
    exact StepOk_trans hs1 hs2
  case const c =>
    have hok' : (if c.isStr = true then
        (pure ((string_constant tr s c.strVal).1, tr, (string_constant tr s c.strVal).2) :
          Res (Value × Tr × EmitState))
      else if c.isInt = true then
        pure ((int_constant tr s c.toInt).1, tr, (int_constant tr s c.toInt).2)
      else throw (str "Unknown Constant")) = .ok (a, tr', s') := hok
    by_cases hstr : c.isStr = true
    · rw [if_pos hstr] at hok'
      have hpe := pure_ok hok'
      have h2 := triple_eq_2_1 hpe
      have h3 := triple_eq_2_2 hpe
      subst h2
      subst h3
      exact emitOpV_step hg ht ht.1 rfl (fun w hh => OpKind.noConfusion hh)
    · rw [if_neg hstr] at hok'
      by_cases hint : c.isInt = true
      · rw [if_pos hint] at hok'
        have hpe := pure_ok hok'
        have h2 := triple_eq_2_1 hpe
        have h3 := triple_eq_2_2 hpe
        subst h2
        subst h3
        exact int_constant_step hg ht c.toInt
      · rw [if_neg hint] at hok'
        exact absurd hok' throw_ne_ok
  case formattedValue value conversion format_spec =>
    obtain ⟨p1, hok1, hok2⟩ := exceptBind_ok hok
    obtain ⟨v1, tr1, s1⟩ := p1
    have hs1 := h.expr value tr s v1 tr1 s1 hg ht hok1
    rcases ite_ok hok2 with ⟨hc, hthen⟩ | ⟨hc, helse⟩
    · exact absurd hthen throw_ne_ok
    · cases format_spec with
      | none =>
        have hpe := pure_ok helse
        have h2 := triple_eq_2_1 hpe
        have h3 := triple_eq_2_2 hpe
        subst h2
        subst h3
        have hs2 : StepOk tr1 s1 tr1 (emitOpV s1 tr1.block OpKind.noneOp).2 :=
          emitOpV_step hs1.1 hs1.2.1 hs1.2.1.1 rfl (fun w hh => OpKind.noConfusion hh)
        obtain ⟨hs3, _, _, _⟩ := format_value_step hs2.1 hs2.2.1 v1
          (emitOpV s1 tr1.block OpKind.noneOp).1
        exact StepOk_trans hs1 (StepOk_trans hs2 hs3)
      | some fs =>
        obtain ⟨u, _, hok3⟩ := exceptBind_ok helse
        obtain ⟨p2, hok4, hok5⟩ := exceptBind_ok hok3
        obtain ⟨fv, tr2, s2⟩ := p2
        have hpe := pure_ok hok5
        have h2 := triple_eq_2_1 hpe
        have h3 := triple_eq_2_2 hpe
        subst h2
        subst h3
        have hs2 := h.expr fs tr1 s1 fv tr2 s2 hs1.1 hs1.2.1 hok4
        obtain ⟨hs3, _, _, _⟩ := format_value_step hs2.1 hs2.2.1 v1 fv
        exact StepOk_trans hs1 (StepOk_trans hs2 hs3)
  case generatorExp =>
    have hpe := pure_ok hok
    have h2 := triple_eq_2_1 hpe
    have h3 := triple_eq_2_2 hpe
    subst h2
    subst h3
    exact emitOpV_step hg ht ht.1 rfl (fun w hh => OpKind.noConfusion hh)
  case joinedStr values =>
    obtain ⟨p1, hok1, hok2⟩ := exceptBind_ok hok
    obtain ⟨argsv, tr1, s1⟩ := p1
    have hpe := pure_ok hok2
    have h2 := triple_eq_2_1 hpe
    have h3 := triple_eq_2_2 hpe
    subst h2
    subst h3
    have hs1 := h.joinedParts values tr s argsv tr1 s1 hg ht hok1
    have hs2 : StepOk tr1 s1 tr1
        (emitOpV s1 tr1.block (OpKind.formattedStringOp argsv)).2 :=
      emitOpV_step hs1.1 hs1.2.1 hs1.2.1.1 rfl (fun w hh => OpKind.noConfusion hh)
    exact StepOk_trans hs1 hs2
  case lambda ident largs body =>
    obtain ⟨scp, hscp, hok2⟩ := exceptBind_ok hok
    obtain ⟨pc, hcf, hok3⟩ := exceptBind_ok hok2
    obtain ⟨funTr, fv2, sMid⟩ := pc
    obtain ⟨p2, hbody, hok4⟩ := exceptBind_ok hok3
    obtain ⟨bodyVal, funTr2, s2⟩ := p2
    have hpe := pure_ok hok4
    have h2 := triple_eq_2_1 hpe
    have h3 := triple_eq_2_2 hpe
    subst h2
    subst h3
    have hcfs := create_fun_step hg ht hcf
    have hchild := h.expr body funTr sMid bodyVal funTr2 s2 hcfs.1 hcfs.2.1 hbody
    obtain ⟨hgR, hblR, hfnR, ⟨tR, hopR⟩, hpiR⟩ :=
      returnOpT_emits bodyVal hchild.1 hchild.2.1.1
    have hs3 : StepOk funTr2 s2 funTr2 (returnOpT funTr2 s2 bodyVal) :=
      StepOk_of_emits hchild.1 hchild.2.1 hgR hblR hfnR ⟨tR, hopR⟩ hpiR
    exact child_chain_parent hg ht hcfs (StepOk_trans hchild hs3)
  case listE elts =>
    obtain ⟨p1, hok1, hok2⟩ := exceptBind_ok hok
    obtain ⟨argsv, tr1, s1⟩ := p1
    have hpe := pure_ok hok2
    have h2 := triple_eq_2_1 hpe
    have h3 := triple_eq_2_2 hpe
    subst h2
    subst h3
    have hs1 := h.exprList elts tr s argsv tr1 s1 hg ht hok1
    have hs2 : StepOk tr1 s1 tr1 (emitOpV s1 tr1.block (OpKind.listOp argsv)).2 :=
      emitOpV_step hs1.1 hs1.2.1 hs1.2.1.1 rfl (fun w hh => OpKind.noConfusion hh)
    exact StepOk_trans hs1 hs2
  case listComp elt generators =>
    obtain ⟨hstep1, hblk1, hcm1, hsv1, hod1, hexc1, hpad1, hfn1⟩ := get_except_block_step hg ht
    set GEB := get_except_block tr s with hGEB
    have hstep1' : StepOk tr s GEB.2.1 GEB.2.2 := hstep1
    have hpad1' : padAt GEB.2.2 GEB.1 := hpad1
    have hfn1' : blockFunc GEB.2.2 GEB.1 = blockFunc GEB.2.2 tr.block := hfn1
    have hblk1' : GEB.2.1.block = tr.block := hblk1
    have hfn1'' : blockFunc GEB.2.2 GEB.1 = blockFunc GEB.2.2 GEB.2.1.block := by
      rw [hfn1', ← hblk1']
    set RL := emitOpV GEB.2.2 GEB.2.1.block (OpKind.listOp []) with hRL
    have hs2 : StepOk GEB.2.1 GEB.2.2 GEB.2.1 RL.2 :=
      emitOpV_step hstep1'.1 hstep1'.2.1 hstep1'.2.1.1 rfl
        (fun w hh => OpKind.noConfusion hh)
    set APD := emitOpV RL.2 GEB.2.1.block (OpKind.getMethodOp RL.1 (str "append"))
      with hAPD
    have hs3 : StepOk GEB.2.1 RL.2 GEB.2.1 APD.2 :=
      emitOpV_step hs2.1 hs2.2.1 hs2.2.1.1 rfl (fun w hh => OpKind.noConfusion hh)
    obtain ⟨hgC, hextC, hnbC, hopsC, hfnC, hlenC, hbfnC, hpiC, hfoldC⟩ :=
      createBlockAfter_step 0 hs3.1 hs3.2.1.1
    set CBF := createBlockAfter APD.2 GEB.2.1.block 0 with hCBF
    have hnbC' : CBF.1 = APD.2.blocks.length := hnbC
    have hlenC' : CBF.2.2.blocks.length = APD.2.blocks.length + 1 := hlenC
    have hbfnC' : blockFunc CBF.2.2 APD.2.blocks.length = blockFunc APD.2 GEB.2.1.block :=
      hbfnC
    have hs4 : StepOk GEB.2.1 APD.2 GEB.2.1 CBF.2.2 :=
      createBlockAfter_stepOk 0 hs3.1 hs3.2.1 hs3.2.1.1
    have hsuf : StepOk GEB.2.1 GEB.2.2 GEB.2.1 CBF.2.2 :=
      StepOk_trans hs2 (StepOk_trans hs3 hs4)
    have hpre : StepOk tr s GEB.2.1 CBF.2.2 := StepOk_trans hstep1' hsuf
    obtain ⟨hthrC, hthrfC⟩ := pad_transport hstep1'.1 hsuf hpad1' hfn1''
    obtain ⟨p1, hok1, hok2⟩ := exceptBind_ok hok
    obtain ⟨lastIter, dnB, tr2, s2⟩ := p1
    have hs5 := h.listCompGens generators CBF.1 GEB.1 none GEB.2.1 CBF.2.2
      lastIter dnB tr2 s2 hpre.1 hpre.2.1 hthrC hthrfC hok1
    obtain ⟨p2, hok3, hok4⟩ := exceptBind_ok hok2
    obtain ⟨ev, tr3, s3⟩ := p2
    have hs6 := h.expr elt tr2 s2 ev tr3 s3 hs5.1 hs5.2.1 hok3
    obtain ⟨hs7, _, _, _⟩ := invoke_step hs6.1 hs6.2.1 APD.1 [ev] []
    set IVA := invoke tr3 s3 APD.1 [ev] [] with hIVA
    have hs7' : StepOk tr3 s3 IVA.2.1 IVA.2.2 := hs7
    have hs8 : StepOk IVA.2.1 IVA.2.2 IVA.2.1
        (emitOp IVA.2.2 IVA.2.1.block (OpKind.branch [] dnB)) :=
      emitOp_step hs7'.1 hs7'.2.1 hs7'.2.1.1 rfl (fun w hh => OpKind.noConfusion hh)
    have hfull : StepOk tr s IVA.2.1
        (emitOp IVA.2.2 IVA.2.1.block (OpKind.branch [] dnB)) :=
      StepOk_trans hpre (StepOk_trans hs5
        (StepOk_trans hs6 (StepOk_trans hs7' hs8)))
    have hsuf2 : StepOk GEB.2.1 CBF.2.2 IVA.2.1
        (emitOp IVA.2.2 IVA.2.1.block (OpKind.branch [] dnB)) :=
      StepOk_trans hs5 (StepOk_trans hs6 (StepOk_trans hs7' hs8))
    have hvalC : CBF.1 < CBF.2.2.blocks.length := by
      rw [hnbC', hlenC']
      exact Nat.lt_succ_self _
    have hbfF : blockFunc CBF.2.2 CBF.1 = blockFunc s tr.block := by
      rw [hnbC', hbfnC']
      exact (StepOk_trans hstep1' (StepOk_trans hs2 hs3)).2.2.2.1
    have hvalF : CBF.1 <
        (emitOp IVA.2.2 IVA.2.1.block (OpKind.branch [] dnB)).blocks.length :=
      lt_of_lt_of_le hvalC (blocks_length_mono hsuf2.2.2.1)
    have hbfFF : blockFunc (emitOp IVA.2.2 IVA.2.1.block (OpKind.branch [] dnB)) CBF.1 =
        blockFunc s tr.block := by
      rw [blockFunc_mono hsuf2.2.2.1 hvalC, hbfF]
    have hret := StepOk_retarget hfull hvalF hbfFF
    cases lastIter with
    | none => exact absurd hok4 throw_ne_ok
    | some lval =>
      have hpe := pure_ok hok4
      have h2 := triple_eq_2_1 hpe
      have h3 := triple_eq_2_2 hpe
      subst h2
      subst h3
      exact hret
  case name id lineno col =>
    have hok' : (match lookupA tr.cellMap id with
        | some cell =>
          (pure ((cell_load s tr.block cell).1, tr, (cell_load s tr.block cell).2) :
            Res (Value × Tr × EmitState))
        | none =>
          match builtin_mlir_name id with
          | some mlirName =>
            pure ((builtin tr s mlirName).1, tr, (builtin tr s mlirName).2)
          | none => throw (str "Could not find variable")) = .ok (a, tr', s') := hok
    cases hl : lookupA tr.cellMap id with
    | some cell =>
      rw [hl] at hok'
      have hpe := pure_ok hok'
      have h2 := triple_eq_2_1 hpe
      have h3 := triple_eq_2_2 hpe
      subst h2
      subst h3
      exact emitOpV_step hg ht ht.1 rfl (fun w hh => OpKind.noConfusion hh)
    | none =>
      rw [hl] at hok'
      cases hbn : builtin_mlir_name id with
      | some mlirName =>
        rw [hbn] at hok'
        have hpe := pure_ok hok'
        have h2 := triple_eq_2_1 hpe
        have h3 := triple_eq_2_2 hpe
        subst h2
        subst h3
        exact emitOpV_step hg ht ht.1 rfl (fun w hh => OpKind.noConfusion hh)
      | none =>
        rw [hbn] at hok'
        exact absurd hok' throw_ne_ok
  case sliceE lower upper step =>
    cases upper with
    | some u =>
      obtain ⟨p1, hok1, hok2⟩ := exceptBind_ok hok
      obtain ⟨upperV, tr1, s1⟩ := p1
      have hs1 : StepOk tr s tr1 s1 := h.expr u tr s upperV tr1 s1 hg ht hok1
      have hs2 : StepOk tr1 s1 tr1
          (emitOpV s1 tr1.block (OpKind.builtinOp (str "slice"))).2 :=
        emitOpV_step hs1.1 hs1.2.1 hs1.2.1.1 rfl (fun w hh => OpKind.noConfusion hh)
      cases step with
      | some stp =>
        cases lower with
        | some lo =>
          obtain ⟨p2, hok3, hok4⟩ := exceptBind_ok hok2
          obtain ⟨lowerV, tr2, s2⟩ := p2
          have hs3 := h.expr lo tr1
            (emitOpV s1 tr1.block (OpKind.builtinOp (str "slice"))).2 lowerV tr2 s2
            hs2.1 hs2.2.1 hok3
          obtain ⟨p3, hok5, hok6⟩ := exceptBind_ok hok4
          obtain ⟨stepV, tr3, s3⟩ := p3
          have hs4 := h.expr stp tr2 s2 stepV tr3 s3 hs3.1 hs3.2.1 hok5
          have hpe := pure_ok hok6
          have h2 := triple_eq_2_1 hpe
          have h3 := triple_eq_2_2 hpe
          subst h2
          subst h3
          obtain ⟨hs5, _, _, _⟩ := invoke_step hs4.1 hs4.2.1
            (emitOpV s1 tr1.block (OpKind.builtinOp (str "slice"))).1
            [lowerV, upperV, stepV] []
          exact StepOk_trans hs1 (StepOk_trans hs2
            (StepOk_trans hs3 (StepOk_trans hs4 hs5)))
        | none =>
          obtain ⟨p2, hok3, hok4⟩ := exceptBind_ok hok2
          obtain ⟨lowerV, tr2, s2⟩ := p2
          have hpe2 := pure_ok hok3
          have g2 := triple_eq_2_1 hpe2
          have g3 := triple_eq_2_2 hpe2
          have hs3 : StepOk tr1
              (emitOpV s1 tr1.block (OpKind.builtinOp (str "slice"))).2 tr2 s2 := by
            rw [← g2, ← g3]
            exact emitOpV_step hs2.1 hs2.2.1 hs2.2.1.1 rfl
              (fun w hh => OpKind.noConfusion hh)
          obtain ⟨p3, hok5, hok6⟩ := exceptBind_ok hok4
          obtain ⟨stepV, tr3, s3⟩ := p3
          have hs4 := h.expr stp tr2 s2 stepV tr3 s3 hs3.1 hs3.2.1 hok5
          have hpe := pure_ok hok6
          have h2 := triple_eq_2_1 hpe
          have h3 := triple_eq_2_2 hpe
          subst h2
          subst h3
          obtain ⟨hs5, _, _, _⟩ := invoke_step hs4.1 hs4.2.1
            (emitOpV s1 tr1.block (OpKind.builtinOp (str "slice"))).1
            [lowerV, upperV, stepV] []
          exact StepOk_trans hs1 (StepOk_trans hs2
            (StepOk_trans hs3 (StepOk_trans hs4 hs5)))
      | none =>
        cases lower with
        | some lo =>
          obtain ⟨p2, hok3, hok4⟩ := exceptBind_ok hok2
          obtain ⟨lowerV, tr2, s2⟩ := p2
          have hs3 := h.expr lo tr1
            (emitOpV s1 tr1.block (OpKind.builtinOp (str "slice"))).2 lowerV tr2 s2
            hs2.1 hs2.2.1 hok3
          have hpe := pure_ok hok4
          have h2 := triple_eq_2_1 hpe
          have h3 := triple_eq_2_2 hpe
          subst h2
          subst h3
          obtain ⟨hs4, _, _, _⟩ := invoke_step hs3.1 hs3.2.1
            (emitOpV s1 tr1.block (OpKind.builtinOp (str "slice"))).1
            [lowerV, upperV] []
          exact StepOk_trans hs1 (StepOk_trans hs2 (StepOk_trans hs3 hs4))
        | none =>
          have hpe := pure_ok hok2
          have h2 := triple_eq_2_1 hpe
          have h3 := triple_eq_2_2 hpe
          subst h2
          subst h3
          obtain ⟨hs3, _, _, _⟩ := invoke_step hs2.1 hs2.2.1
            (emitOpV s1 tr1.block (OpKind.builtinOp (str "slice"))).1 [upperV] []
          exact StepOk_trans hs1 (StepOk_trans hs2 hs3)
    | none =>
      obtain ⟨p1, hok1, hok2⟩ := exceptBind_ok hok
      obtain ⟨upperV, tr1, s1⟩ := p1
      have hpe1 := pure_ok hok1
      have f2 := triple_eq_2_1 hpe1
      have f3 := triple_eq_2_2 hpe1
      have hs1 : StepOk tr s tr1 s1 := by
        rw [← f2, ← f3]
        exact emitOpV_step hg ht ht.1 rfl (fun w hh => OpKind.noConfusion hh)
      have hs2 : StepOk tr1 s1 tr1
          (emitOpV s1 tr1.block (OpKind.builtinOp (str "slice"))).2 :=
        emitOpV_step hs1.1 hs1.2.1 hs1.2.1.1 rfl (fun w hh => OpKind.noConfusion hh)
      cases step with
      | some stp =>
        cases lower with
        | some lo =>
          obtain ⟨p2, hok3, hok4⟩ := exceptBind_ok hok2
          obtain ⟨lowerV, tr2, s2⟩ := p2
          have hs3 := h.expr lo tr1
            (emitOpV s1 tr1.block (OpKind.builtinOp (str "slice"))).2 lowerV tr2 s2
            hs2.1 hs2.2.1 hok3
          obtain ⟨p3, hok5, hok6⟩ := exceptBind_ok hok4
          obtain ⟨stepV, tr3, s3⟩ := p3
          have hs4 := h.expr stp tr2 s2 stepV tr3 s3 hs3.1 hs3.2.1 hok5
          have hpe := pure_ok hok6
          have h2 := triple_eq_2_1 hpe
          have h3 := triple_eq_2_2 hpe
          subst h2
          subst h3
          obtain ⟨hs5, _, _, _⟩ := invoke_step hs4.1 hs4.2.1
            (emitOpV s1 tr1.block (OpKind.builtinOp (str "slice"))).1
            [lowerV, upperV, stepV] []
          exact StepOk_trans hs1 (StepOk_trans hs2
            (StepOk_trans hs3 (StepOk_trans hs4 hs5)))
        | none =>
          obtain ⟨p2, hok3, hok4⟩ := exceptBind_ok hok2
          obtain ⟨lowerV, tr2, s2⟩ := p2
          have hpe2 := pure_ok hok3
          have g2 := triple_eq_2_1 hpe2
          have g3 := triple_eq_2_2 hpe2
          have hs3 : StepOk tr1
              (emitOpV s1 tr1.block (OpKind.builtinOp (str "slice"))).2 tr2 s2 := by
            rw [← g2, ← g3]
            exact emitOpV_step hs2.1 hs2.2.1 hs2.2.1.1 rfl
              (fun w hh => OpKind.noConfusion hh)
          obtain ⟨p3, hok5, hok6⟩ := exceptBind_ok hok4
          obtain ⟨stepV, tr3, s3⟩ := p3
          have hs4 := h.expr stp tr2 s2 stepV tr3 s3 hs3.1 hs3.2.1 hok5
          have hpe := pure_ok hok6
          have h2 := triple_eq_2_1 hpe
          have h3 := triple_eq_2_2 hpe
          subst h2
          subst h3
          obtain ⟨hs5, _, _, _⟩ := invoke_step hs4.1 hs4.2.1
            (emitOpV s1 tr1.block (OpKind.builtinOp (str "slice"))).1
            [lowerV, upperV, stepV] []
          exact StepOk_trans hs1 (StepOk_trans hs2
            (StepOk_trans hs3 (StepOk_trans hs4 hs5)))
      | none =>
        cases lower with
        | some lo =>
          obtain ⟨p2, hok3, hok4⟩ := exceptBind_ok hok2
          obtain ⟨lowerV, tr2, s2⟩ := p2
          have hs3 := h.expr lo tr1
            (emitOpV s1 tr1.block (OpKind.builtinOp (str "slice"))).2 lowerV tr2 s2
            hs2.1 hs2.2.1 hok3
          have hpe := pure_ok hok4
          have h2 := triple_eq_2_1 hpe
          have h3 := triple_eq_2_2 hpe
          subst h2
          subst h3
          obtain ⟨hs4, _, _, _⟩ := invoke_step hs3.1 hs3.2.1
            (emitOpV s1 tr1.block (OpKind.builtinOp (str "slice"))).1
            [lowerV, upperV] []
          exact StepOk_trans hs1 (StepOk_trans hs2 (StepOk_trans hs3 hs4))
        | none =>
          have hpe := pure_ok hok2
          have h2 := triple_eq_2_1 hpe
          have h3 := triple_eq_2_2 hpe
          subst h2
          subst h3
          obtain ⟨hs3, _, _, _⟩ := invoke_step hs2.1 hs2.2.1
            (emitOpV s1 tr1.block (OpKind.builtinOp (str "slice"))).1 [upperV] []
          exact StepOk_trans hs1 (StepOk_trans hs2 hs3)
  case subscript value slice =>
    obtain ⟨p1, hok1, hok2⟩ := exceptBind_ok hok
    obtain ⟨v1, tr1, s1⟩ := p1
    obtain ⟨p2, hok3, hok4⟩ := exceptBind_ok hok2
    obtain ⟨sl, tr2, s2⟩ := p2
    have hpe := pure_ok hok4
    have h2 := triple_eq_2_1 hpe
    have h3 := triple_eq_2_2 hpe
    subst h2
    subst h3
    have hs1 := h.expr value tr s v1 tr1 s1 hg ht hok1
    have hs2 := h.expr slice tr1 s1 sl tr2 s2 hs1.1 hs1.2.1 hok3
    have hs3 : StepOk tr2 s2 tr2
        (emitOpV s2 tr2.block (OpKind.getMethodOp v1 (str "__getitem__"))).2 :=
      emitOpV_step hs2.1 hs2.2.1 hs2.2.1.1 rfl (fun w hh => OpKind.noConfusion hh)
    obtain ⟨hs4, _, _, _⟩ := invoke_step hs3.1 hs3.2.1
      (emitOpV s2 tr2.block (OpKind.getMethodOp v1 (str "__getitem__"))).1 [sl] []
    exact StepOk_trans hs1 (StepOk_trans hs2 (StepOk_trans hs3 hs4))
  case tuple elts =>
    obtain ⟨p1, hok1, hok2⟩ := exceptBind_ok hok
    obtain ⟨argsv, tr1, s1⟩ := p1
    have hpe := pure_ok hok2
    have h2 := triple_eq_2_1 hpe
    have h3 := triple_eq_2_2 hpe
    subst h2
    subst h3
    have hs1 := h.exprList elts tr s argsv tr1 s1 hg ht hok1
    have hs2 : StepOk tr1 s1 tr1 (emitOpV s1 tr1.block (OpKind.tupleOp argsv)).2 :=
      emitOpV_step hs1.1 hs1.2.1 hs1.2.1.1 rfl (fun w hh => OpKind.noConfusion hh)
    exact StepOk_trans hs1 hs2
  case unaryop op operand =>
    obtain ⟨p1, hok1, hok2⟩ := exceptBind_ok hok
    obtain ⟨arg, tr1, s1⟩ := p1
    have hs1 := h.expr operand tr s arg tr1 s1 hg ht hok1
    obtain ⟨hstep, _, _, _⟩ := protocol_step hs1.1 hs1.2.1
      (fun rb eb => OpKind.unaryOp op arg [rb, eb])
      (fun rb eb => rfl) (fun rb eb w hh => OpKind.noConfusion hh)
    have hpe := pure_ok hok2
    have h2 := triple_eq_2_1 hpe
    have h3 := triple_eq_2_2 hpe
    subst h2
    subst h3
    exact StepOk_trans hs1 hstep

set_option maxHeartbeats 3200000 in
theorem vStmtF_pres {rec : LowerF} (h : LowerFPres rec) (st : Stmt) :
    Pres (vStmtF rec st) := by
  intro tr s a tr' s' hg ht hok
  cases st
  case assign targets value =>
    rcases ite_ok hok with ⟨hc, hthen⟩ | ⟨hc, helse⟩
    · exact absurd hthen throw_ne_ok
    · obtain ⟨u, _, hok1⟩ := exceptBind_ok helse
      obtain ⟨p1, hok2, hok3⟩ := exceptBind_ok hok1
      obtain ⟨r1, tr1, s1⟩ := p1
      obtain ⟨p2, hok4, hok5⟩ := exceptBind_ok hok3
      obtain ⟨tr2, s2⟩ := p2
      have hpe := pure_ok hok5
      injection hpe with h1 h2
      injection h2 with h2 h3
      subst h2
      subst h3
      have hs1 := h.expr value tr s r1 tr1 s1 hg ht hok2
      have hs2 := h.assignLhs (targets.headD (.const .none)) r1 tr1 s1 tr2 s2
        hs1.1 hs1.2.1 hok4
      exact StepOk_trans hs1 hs2
  case augAssign target op value =>
    have hpe := pure_ok hok
    injection hpe with h1 h2
    injection h2 with h2 h3
    subst h2
    subst h3
    exact StepOk_refl hg ht
  case exprStmt value =>
    obtain ⟨p1, hok1, hok2⟩ := exceptBind_ok hok
    obtain ⟨v1, tr1, s1⟩ := p1
    have hpe := pure_ok hok2
    injection hpe with h1 h2
    injection h2 with h2 h3
    subst h2
    subst h3
    exact h.expr value tr s v1 tr1 s1 hg ht hok1
  case forStmt target iter body orelse =>
    rcases ite_ok hok with ⟨hc, hthen⟩ | ⟨hc, helse⟩
    · exact absurd hthen throw_ne_ok
    · obtain ⟨u, _, hok1⟩ := exceptBind_ok helse
      obtain ⟨p1, hok2, hok3⟩ := exceptBind_ok hok1
      obtain ⟨r1, tr1, s1⟩ := p1
      have hs1 := h.expr iter tr s r1 tr1 s1 hg ht hok2
      set MI := emitOpV s1 tr1.block (OpKind.getMethodOp r1 (str "__iter__")) with hMI
      have hs2 : StepOk tr1 s1 tr1 MI.2 :=
        emitOpV_step hs1.1 hs1.2.1 hs1.2.1.1 rfl (fun w hh => OpKind.noConfusion hh)
      obtain ⟨hs3, _, _, _⟩ := invoke_step hs2.1 hs2.2.1 MI.1 [] []
      set IVK := invoke tr1 MI.2 MI.1 [] [] with hIVK
      have hs3' : StepOk tr1 MI.2 IVK.2.1 IVK.2.2 := hs3
      set MN := emitOpV IVK.2.2 IVK.2.1.block
        (OpKind.getMethodOp IVK.1 (str "__next__")) with hMN
      have hs4 : StepOk IVK.2.1 IVK.2.2 IVK.2.1 MN.2 :=
        emitOpV_step hs3'.1 hs3'.2.1 hs3'.2.1.1 rfl (fun w hh => OpKind.noConfusion hh)
      obtain ⟨hstep5, hblk5, hcm5, hsv5, hod5, hexc5, hpad5, hfn5⟩ :=
        get_except_block_step hs4.1 hs4.2.1
      set GEB := get_except_block IVK.2.1 MN.2 with hGEB
      have hstep5' : StepOk IVK.2.1 MN.2 GEB.2.1 GEB.2.2 := hstep5
      have hpad5' : padAt GEB.2.2 GEB.1 := hpad5
      have hblk5' : GEB.2.1.block = IVK.2.1.block := hblk5
      have hfn5'' : blockFunc GEB.2.2 GEB.1 = blockFunc GEB.2.2 GEB.2.1.block := by
        rw [hblk5']
        exact hfn5
      obtain ⟨hgD, hextD, hnbD, hopsD, hfnD, hlenD, hbfnD, hpiD, hfoldD⟩ :=
        createBlockAfter_step 0 hstep5'.1 hstep5'.2.1.1
      set CBD := createBlockAfter GEB.2.2 GEB.2.1.block 0 with hCBD
      have hnbD' : CBD.1 = GEB.2.2.blocks.length := hnbD
      have hlenD' : CBD.2.2.blocks.length = GEB.2.2.blocks.length + 1 := hlenD
      have hbfnD' : blockFunc CBD.2.2 GEB.2.2.blocks.length =
          blockFunc GEB.2.2 GEB.2.1.block := hbfnD
      have hs6 : StepOk GEB.2.1 GEB.2.2 GEB.2.1 CBD.2.2 :=
        createBlockAfter_stepOk 0 hstep5'.1 hstep5'.2.1 hstep5'.2.1.1
      obtain ⟨hthr6, hthrf6⟩ := pad_transport hstep5'.1 hs6 hpad5' hfn5''
      obtain ⟨hstep7, hpads7⟩ := invoke_next_step MN.1 CBD.1 hs6.1 hs6.2.1 hthr6 hthrf6
      set INX := invoke_next CBD.2.2 MN.1 GEB.2.1.block CBD.1 GEB.1 with hINX
      set TRB : Tr := { GEB.2.1 with block := INX.1.2.1 } with hTRB
      have hpre0 : StepOk tr s GEB.2.1 GEB.2.2 :=
        StepOk_trans hs1 (StepOk_trans hs2 (StepOk_trans hs3' (StepOk_trans hs4 hstep5')))
      have hpreA : StepOk tr s TRB INX.2 :=
        StepOk_trans hpre0 (StepOk_trans hs6 hstep7)
      obtain ⟨p2, hok4, hok5⟩ := exceptBind_ok hok3
      obtain ⟨tr2, s2⟩ := p2
      have hs8 := h.assignLhs target INX.1.2.2 TRB INX.2 tr2 s2
        hpreA.1 hpreA.2.1 hok4
      obtain ⟨p3, hok6, hok7⟩ := exceptBind_ok hok5
      obtain ⟨bodyCont, tr3, s3⟩ := p3
      have hs9 := h.stmts body tr2 s2 bodyCont tr3 s3 hs8.1 hs8.2.1 hok6
      have hvalD : CBD.1 < CBD.2.2.blocks.length := by
        rw [hnbD', hlenD']
        exact Nat.lt_succ_self _
      have hbfD0 : blockFunc CBD.2.2 CBD.1 = blockFunc s tr.block := by
        rw [hnbD', hbfnD']
        exact hpre0.2.2.2.1
      cases bodyCont with
      | true =>
        have hpe := pure_ok hok7
        injection hpe with h1 h2
        injection h2 with h2 h3
        subst h2
        subst h3
        have hs10 : StepOk tr3 s3 tr3 (emitOp s3 tr3.block (OpKind.branch [] INX.1.1)) :=
          emitOp_step hs9.1 hs9.2.1 hs9.2.1.1 rfl (fun w hh => OpKind.noConfusion hh)
        have hsufD : StepOk GEB.2.1 CBD.2.2 tr3
            (emitOp s3 tr3.block (OpKind.branch [] INX.1.1)) :=
          StepOk_trans hstep7 (StepOk_trans hs8 (StepOk_trans hs9 hs10))
        have hfull : StepOk tr s tr3 (emitOp s3 tr3.block (OpKind.branch [] INX.1.1)) :=
          StepOk_trans hpreA (StepOk_trans hs8 (StepOk_trans hs9 hs10))
        have hvalF : CBD.1 <
            (emitOp s3 tr3.block (OpKind.branch [] INX.1.1)).blocks.length :=
          lt_of_lt_of_le hvalD (blocks_length_mono hsufD.2.2.1)
        have hbfF : blockFunc (emitOp s3 tr3.block (OpKind.branch [] INX.1.1)) CBD.1 =
            blockFunc s tr.block := by
          rw [blockFunc_mono hsufD.2.2.1 hvalD, hbfD0]
        exact StepOk_retarget hfull hvalF hbfF
      | false =>
        have hpe := pure_ok hok7
        injection hpe with h1 h2
        injection h2 with h2 h3
        subst h2
        subst h3
        have hsufD : StepOk GEB.2.1 CBD.2.2 tr3 s3 :=
          StepOk_trans hstep7 (StepOk_trans hs8 hs9)
        have hfull : StepOk tr s tr3 s3 :=
          StepOk_trans hpreA (StepOk_trans hs8 hs9)
        have hvalF : CBD.1 < s3.blocks.length :=
          lt_of_lt_of_le hvalD (blocks_length_mono hsufD.2.2.1)
        have hbfF : blockFunc s3 CBD.1 = blockFunc s tr.block := by
          rw [blockFunc_mono hsufD.2.2.1 hvalD, hbfD0]
        exact StepOk_retarget hfull hvalF hbfF
  case functionDef ident fname args body =>
    obtain ⟨scp, hscp, hok1⟩ := exceptBind_ok hok
    obtain ⟨pc, hcf, hok2⟩ := exceptBind_ok hok1
    obtain ⟨funTr, funValue, sMid⟩ := pc
    obtain ⟨p2, hbody, hok3⟩ := exceptBind_ok hok2
    obtain ⟨cont, funTr2, s2⟩ := p2
    have hcfs := create_fun_step hg ht hcf
    have hchild := h.stmts body funTr sMid cont funTr2 s2 hcfs.1 hcfs.2.1 hbody
    cases cont with
    | true =>
      have hnv : StepOk funTr2 s2 funTr2 (emitOpV s2 funTr2.block OpKind.noneOp).2 :=
        emitOpV_step hchild.1 hchild.2.1 hchild.2.1.1 rfl
          (fun w hh => OpKind.noConfusion hh)
      obtain ⟨hgR, hblR, hfnR, ⟨tR, hopR⟩, hpiR⟩ :=
        returnOpT_emits (emitOpV s2 funTr2.block OpKind.noneOp).1 hnv.1 hnv.2.1.1
      have hs10 : StepOk funTr2 (emitOpV s2 funTr2.block OpKind.noneOp).2 funTr2
          (returnOpT funTr2 (emitOpV s2 funTr2.block OpKind.noneOp).2
            (emitOpV s2 funTr2.block OpKind.noneOp).1) :=
        StepOk_of_emits hnv.1 hnv.2.1 hgR hblR hfnR ⟨tR, hopR⟩ hpiR
      have hparent := child_chain_parent hg ht hcfs
        (StepOk_trans hchild (StepOk_trans hnv hs10))
      have hok3' : (match lookupA tr.cellMap fname with
          | some cell => (pure (true, tr,
              cell_store (returnOpT funTr2 (emitOpV s2 funTr2.block OpKind.noneOp).2
                (emitOpV s2 funTr2.block OpKind.noneOp).1) tr.block cell funValue) :
              Res (Bool × Tr × EmitState))
          | none => throw (str "KeyError")) = .ok (a, tr', s') := hok3
      cases hl : lookupA tr.cellMap fname with
      | none =>
        rw [hl] at hok3'
        exact absurd hok3' throw_ne_ok
      | some cell =>
        rw [hl] at hok3'
        have hpe := pure_ok hok3'
        injection hpe with h1 h2
        injection h2 with h2 h3
        subst h2
        subst h3
        have hs11 : StepOk tr
            (returnOpT funTr2 (emitOpV s2 funTr2.block OpKind.noneOp).2
              (emitOpV s2 funTr2.block OpKind.noneOp).1) tr
            (cell_store (returnOpT funTr2 (emitOpV s2 funTr2.block OpKind.noneOp).2
              (emitOpV s2 funTr2.block OpKind.noneOp).1) tr.block cell funValue) :=
          emitOp_step hparent.1 hparent.2.1 hparent.2.1.1 rfl
            (fun w hh => OpKind.noConfusion hh)
        exact StepOk_trans hparent hs11
    | false =>
      have hparent := child_chain_parent hg ht hcfs hchild
      have hok3' : (match lookupA tr.cellMap fname with
          | some cell => (pure (true, tr, cell_store s2 tr.block cell funValue) :
              Res (Bool × Tr × EmitState))
          | none => throw (str "KeyError")) = .ok (a, tr', s') := hok3
      cases hl : lookupA tr.cellMap fname with
      | none =>
        rw [hl] at hok3'
        exact absurd hok3' throw_ne_ok
      | some cell =>
        rw [hl] at hok3'
        have hpe := pure_ok hok3'
        injection hpe with h1 h2
        injection h2 with h2 h3
        subst h2
        subst h3
        have hs11 : StepOk tr s2 tr (cell_store s2 tr.block cell funValue) :=
          emitOp_step hparent.1 hparent.2.1 hparent.2.1.1 rfl
            (fun w hh => OpKind.noConfusion hh)
        exact StepOk_trans hparent hs11
  case ifStmt test body orelse =>
    obtain ⟨p1, hok1, hok2⟩ := exceptBind_ok hok
    obtain ⟨testV, tr1, s1⟩ := p1
    have hs1 := h.expr test tr s testV tr1 s1 hg ht hok1
    set C := emitOpV s1 tr1.block (OpKind.truthyOp testV) with hC
    have hs2 : StepOk tr1 s1 tr1 C.2 :=
      emitOpV_step hs1.1 hs1.2.1 hs1.2.1.1 rfl (fun w hh => OpKind.noConfusion hh)
    obtain ⟨hgN, hextN, hnbN, hopsN, hfnN, hlenN, hbfnN, hpiN, hfoldN⟩ :=
      createBlockAfter_step 0 hs2.1 hs2.2.1.1
    set NB := createBlockAfter C.2 tr1.block 0 with hNB
    have hnbN' : NB.1 = C.2.blocks.length := hnbN
    have hlenN' : NB.2.2.blocks.length = C.2.blocks.length + 1 := hlenN
    have hbfnN' : blockFunc NB.2.2 C.2.blocks.length = blockFunc C.2 tr1.block := hbfnN
    have hs3 : StepOk tr1 C.2 tr1 NB.2.2 :=
      createBlockAfter_stepOk 0 hs2.1 hs2.2.1 hs2.2.1.1
    have hpre1 : StepOk tr s tr1 NB.2.2 :=
      StepOk_trans hs1 (StepOk_trans hs2 hs3)
    have hvalN0 : NB.1 < NB.2.2.blocks.length := by
      rw [hnbN', hlenN']
      exact Nat.lt_succ_self _
    have hbfN0 : blockFunc NB.2.2 NB.1 = blockFunc s tr.block := by
      rw [hnbN', hbfnN']
      exact (StepOk_trans hs1 hs2).2.2.2.1
    have finish : ∀ (falseBlockV trueBlockV : BlockId) (tr3 : Tr) (s3 : EmitState),
        StepOk tr1 NB.2.2 tr3 s3 →
        (pure (true, { tr3 with block := NB.1 },
            emitOp s3 tr1.block
              (OpKind.condBranch C.1 [] [] trueBlockV falseBlockV)) :
          Res (Bool × Tr × EmitState)) = .ok (a, tr', s') →
        StepOk tr s tr' s' := by
      intro falseBlockV trueBlockV tr3 s3 hmid hokP
      have hchain2 : StepOk tr s tr3 s3 := StepOk_trans hpre1 hmid
      have hvalInit : tr1.block < s3.blocks.length :=
        lt_of_lt_of_le hpre1.2.1.1 (blocks_length_mono hmid.2.2.1)
      have hsCBr : StepOk tr3 s3 tr3
          (emitOp s3 tr1.block
            (OpKind.condBranch C.1 [] [] trueBlockV falseBlockV)) :=
        emitOp_step hchain2.1 hchain2.2.1 hvalInit rfl
          (fun w hh => OpKind.noConfusion hh)
      have hpe := pure_ok hokP
      injection hpe with h1 h2
      injection h2 with h2 h3
      subst h2
      subst h3
      have hsufN : StepOk tr1 NB.2.2 tr3
          (emitOp s3 tr1.block
            (OpKind.condBranch C.1 [] [] trueBlockV falseBlockV)) :=
        StepOk_trans hmid hsCBr
      have hvalN : NB.1 < (emitOp s3 tr1.block
          (OpKind.condBranch C.1 [] [] trueBlockV falseBlockV)).blocks.length :=
        lt_of_lt_of_le hvalN0 (blocks_length_mono hsufN.2.2.1)
      have hbfN : blockFunc (emitOp s3 tr1.block
          (OpKind.condBranch C.1 [] [] trueBlockV falseBlockV)) NB.1 =
          blockFunc s tr.block := by
        rw [blockFunc_mono hsufN.2.2.1 hvalN0, hbfN0]
      exact StepOk_retarget (StepOk_trans hchain2 hsCBr) hvalN hbfN
    have truestage : ∀ (falseBlockV : BlockId) (tr2 : Tr) (s2 : EmitState),
        StepOk tr1 NB.2.2 tr2 s2 →
        (if body.isEmpty = true then
            (pure (NB.1, tr2, s2) : Res (BlockId × Tr × EmitState)) >>= fun y =>
              pure (true, { y.2.1 with block := NB.1 },
                emitOp y.2.2 tr1.block
                  (OpKind.condBranch C.1 [] [] y.1 falseBlockV))
          else
            rec.vStmts body { tr2 with block := (createBlockAfter s2 tr1.block 0).1 }
                (createBlockAfter s2 tr1.block 0).2.2 >>= fun p =>
              (pure ((createBlockAfter s2 tr1.block 0).1, p.2.1,
                  if p.1 = true then
                    emitOp p.2.2 p.2.1.block (OpKind.branch [] NB.1)
                  else p.2.2) :
                Res (BlockId × Tr × EmitState)) >>= fun y =>
                pure (true, { y.2.1 with block := NB.1 },
                  emitOp y.2.2 tr1.block
                    (OpKind.condBranch C.1 [] [] y.1 falseBlockV))) =
          .ok (a, tr', s') →
        StepOk tr s tr' s' := by
      intro falseBlockV tr2 s2 hFB hokT
      rcases ite_ok hokT with ⟨hcB, hT⟩ | ⟨hcB, hT⟩
      · obtain ⟨y, hy, hokP⟩ := exceptBind_ok hT
        have hqy := pure_ok hy
        rw [← hqy] at hokP
        exact finish falseBlockV NB.1 tr2 s2 hFB hokP
      · have hvt1 : tr1.block < s2.blocks.length :=
          lt_of_lt_of_le hpre1.2.1.1 (blocks_length_mono hFB.2.2.1)
        have hpre2 : StepOk tr s tr2 s2 := StepOk_trans hpre1 hFB
        obtain ⟨gT, hextT2, hnbT2, hopsT2, hfnT2, hlenT2, hbfnT2, hpiT2, hfoldT2⟩ :=
          createBlockAfter_step 0 hpre2.1 hvt1
        have hsCB2 : StepOk tr2 s2 tr2 (createBlockAfter s2 tr1.block 0).2.2 :=
          createBlockAfter_stepOk 0 hpre2.1 hpre2.2.1 hvt1
        have hvalO : (createBlockAfter s2 tr1.block 0).1 <
            (createBlockAfter s2 tr1.block 0).2.2.blocks.length := by
          rw [hnbT2, hlenT2]
          exact Nat.lt_succ_self _
        have hbfO : blockFunc (createBlockAfter s2 tr1.block 0).2.2
            (createBlockAfter s2 tr1.block 0).1 = blockFunc s2 tr2.block := by
          rw [hnbT2, hbfnT2]
          have ha : blockFunc s2 tr1.block = blockFunc NB.2.2 tr1.block :=
            blockFunc_mono hFB.2.2.1 hpre1.2.1.1
          have hb : blockFunc NB.2.2 tr1.block = blockFunc s tr.block :=
            hpre1.2.2.2.1
          have hc2 : blockFunc s2 tr2.block = blockFunc s tr.block :=
            hpre2.2.2.2.1
          rw [ha, hb, hc2]
        have hsRe2 := StepOk_retarget hsCB2 hvalO hbfO
        obtain ⟨p, hokB, hokJ⟩ := exceptBind_ok hT
        obtain ⟨contB, trB, sB⟩ := p
        have hsB := h.stmts body
          { tr2 with block := (createBlockAfter s2 tr1.block 0).1 }
          (createBlockAfter s2 tr1.block 0).2.2 contB trB sB
          hsRe2.1 hsRe2.2.1 hokB
        cases contB with
        | true =>
          obtain ⟨y, hy, hokP⟩ := exceptBind_ok hokJ
          have hqy := pure_ok hy
          rw [← hqy] at hokP
          have hsBr : StepOk trB sB trB
              (emitOp sB trB.block (OpKind.branch [] NB.1)) :=
            emitOp_step hsB.1 hsB.2.1 hsB.2.1.1 rfl
              (fun w hh => OpKind.noConfusion hh)
          exact finish falseBlockV (createBlockAfter s2 tr1.block 0).1 trB
            (emitOp sB trB.block (OpKind.branch [] NB.1))
            (StepOk_trans hFB (StepOk_trans hsRe2 (StepOk_trans hsB hsBr))) hokP
        | false =>
          obtain ⟨y, hy, hokP⟩ := exceptBind_ok hokJ
          have hqy := pure_ok hy
          rw [← hqy] at hokP
          exact finish falseBlockV (createBlockAfter s2 tr1.block 0).1 trB sB
            (StepOk_trans hFB (StepOk_trans hsRe2 hsB)) hokP
    rcases ite_ok hok2 with ⟨hcO, hO⟩ | ⟨hcO, hO⟩
    · obtain ⟨yF, hyF, hokT⟩ := exceptBind_ok hO
      have hqF := pure_ok hyF
      rw [← hqF] at hokT
      exact truestage NB.1 tr1 NB.2.2 (StepOk_refl hpre1.1 hpre1.2.1) hokT
    · have hvt1 : tr1.block < NB.2.2.blocks.length := hpre1.2.1.1
      obtain ⟨gO, hextO, hnbO, hopsO, hfnO, hlenO, hbfnO, hpiO, hfoldO⟩ :=
        createBlockAfter_step 0 hpre1.1 hvt1
      have hsCB : StepOk tr1 NB.2.2 tr1 (createBlockAfter NB.2.2 tr1.block 0).2.2 :=
        createBlockAfter_stepOk 0 hpre1.1 hpre1.2.1 hvt1
      have hvalO : (createBlockAfter NB.2.2 tr1.block 0).1 <
          (createBlockAfter NB.2.2 tr1.block 0).2.2.blocks.length := by
        rw [hnbO, hlenO]
        exact Nat.lt_succ_self _
      have hbfO : blockFunc (createBlockAfter NB.2.2 tr1.block 0).2.2
          (createBlockAfter NB.2.2 tr1.block 0).1 = blockFunc NB.2.2 tr1.block := by
        rw [hnbO]
        exact hbfnO
      have hsRe := StepOk_retarget hsCB hvalO hbfO
      obtain ⟨pO, hokO, hokJ⟩ := exceptBind_ok hO
      obtain ⟨contO, trO, sO⟩ := pO
      have hsO := h.stmts orelse
        { tr1 with block := (createBlockAfter NB.2.2 tr1.block 0).1 }
        (createBlockAfter NB.2.2 tr1.block 0).2.2 contO trO sO
        hsRe.1 hsRe.2.1 hokO
      cases contO with
      | true =>
        obtain ⟨yF, hyF, hokT⟩ := exceptBind_ok hokJ
        have hqF := pure_ok hyF
        rw [← hqF] at hokT
        have hsBr : StepOk trO sO trO
            (emitOp sO trO.block (OpKind.branch [] NB.1)) :=
          emitOp_step hsO.1 hsO.2.1 hsO.2.1.1 rfl (fun w hh => OpKind.noConfusion hh)
        exact truestage (createBlockAfter NB.2.2 tr1.block 0).1 trO
          (emitOp sO trO.block (OpKind.branch [] NB.1))
          (StepOk_trans hsRe (StepOk_trans hsO hsBr)) hokT
      | false =>
        obtain ⟨yF, hyF, hokT⟩ := exceptBind_ok hokJ
        have hqF := pure_ok hyF
        rw [← hqF] at hokT
        exact truestage (createBlockAfter NB.2.2 tr1.block 0).1 trO sO
          (StepOk_trans hsRe hsO) hokT
  case importStmt names =>
    obtain ⟨s1, hok1, hok2⟩ := exceptBind_ok hok
    have hpe := pure_ok hok2
    injection hpe with h1 h2
    injection h2 with h2 h3
    subst h2
    subst h3
    obtain ⟨hg1, hbl1, hfn1, hops1, hpi1⟩ := importNames_emits names hg ht.1 hok1
    exact StepOk_of_emits hg ht hg1 hbl1 hfn1 hops1 hpi1
  case ret value =>
    have hPR : StepOk tr s
        (if tr.onDone.isEmpty = true then (tr, s)
          else runOnDoneFrames tr s tr.onDone).1
        (if tr.onDone.isEmpty = true then (tr, s)
          else runOnDoneFrames tr s tr.onDone).2 := by
      by_cases hcD : tr.onDone.isEmpty = true
      · rw [if_pos hcD]
        exact StepOk_refl hg ht
      · rw [if_neg hcD]
        exact (runOnDoneFrames_step tr.onDone hg ht).1
    cases value with
    | some e =>
      obtain ⟨p1, hok1, hok2⟩ := exceptBind_ok hok
      obtain ⟨retv, tr1, s1⟩ := p1
      have hs1 := h.expr e
        (if tr.onDone.isEmpty = true then (tr, s)
          else runOnDoneFrames tr s tr.onDone).1
        (if tr.onDone.isEmpty = true then (tr, s)
          else runOnDoneFrames tr s tr.onDone).2
        retv tr1 s1 hPR.1 hPR.2.1 hok1
      have hpe := pure_ok hok2
      injection hpe with h1 h2
      injection h2 with h2 h3
      subst h2
      subst h3
      obtain ⟨hgR, hblR, hfnR, ⟨tR, hopR⟩, hpiR⟩ :=
        returnOpT_emits retv hs1.1 hs1.2.1.1
      have hs2 : StepOk tr1 s1 tr1 (returnOpT tr1 s1 retv) :=
        StepOk_of_emits hs1.1 hs1.2.1 hgR hblR hfnR ⟨tR, hopR⟩ hpiR
      exact StepOk_trans hPR (StepOk_trans hs1 hs2)
    | none => exact absurd hok throw_ne_ok
  case withStmt items body =>
    obtain ⟨p1, hok1, hok2⟩ := exceptBind_ok hok
    obtain ⟨exitMethods, tr1, s1⟩ := p1
    have hs1 := h.withItems items [] tr s exitMethods tr1 s1 hg ht hok1
    obtain ⟨p2, hok3, hok4⟩ := exceptBind_ok hok2
    obtain ⟨cont, tr3, s3⟩ := p2
    have hs2 : StepOk { tr1 with onDone := exitMethods :: tr1.onDone } s1 tr3 s3 :=
      h.stmts body { tr1 with onDone := exitMethods :: tr1.onDone } s1 cont tr3 s3
        hs1.1 hs1.2.1 hok3
    have hs2' : StepOk tr1 s1 tr3 s3 := hs2
    cases cont with
    | true =>
      have htT4 : TINV { tr3 with onDone := tr1.onDone } s3 := hs2'.2.1
      obtain ⟨hs3, hcm3, hsv3, hod3⟩ :=
        runOnDoneFrames_step (exitMethods :: tr1.onDone) hs2'.1 htT4
      have hs3' : StepOk tr3 s3
          (runOnDoneFrames { tr3 with onDone := tr1.onDone } s3
            (exitMethods :: tr1.onDone)).1
          (runOnDoneFrames { tr3 with onDone := tr1.onDone } s3
            (exitMethods :: tr1.onDone)).2 := hs3
      have hpe := pure_ok hok4
      have h2 := triple_eq_2_1 hpe
      have h3 := triple_eq_2_2 hpe
      subst h2
      subst h3
      exact StepOk_trans hs1 (StepOk_trans hs2' hs3')
    | false =>
      have hpe := pure_ok hok4
      injection hpe with h1 h2
      injection h2 with h2 h3
      subst h2
      subst h3
      exact StepOk_trans hs1 hs2'
  case whileStmt test body orelse =>
    rcases ite_ok hok with ⟨hc, hthen⟩ | ⟨hc, helse⟩
    · exact absurd hthen throw_ne_ok
    · obtain ⟨u, _, hok1⟩ := exceptBind_ok helse
      obtain ⟨hgT, hextT, hnbT, hopsT, hfnT, hlenT, hbfnT, hpiT, hfoldT⟩ :=
        createBlockAfter_step 0 hg ht.1
      set TB := createBlockAfter s tr.block 0 with hTB
      have hnbT' : TB.1 = s.blocks.length := hnbT
      have hlenT' : TB.2.2.blocks.length = s.blocks.length + 1 := hlenT
      have hbfnT' : blockFunc TB.2.2 s.blocks.length = blockFunc s tr.block := hbfnT
      have hsA : StepOk tr s tr TB.2.2 := createBlockAfter_stepOk 0 hg ht ht.1
      have hvtr : tr.block < TB.2.2.blocks.length := by
        rw [hlenT']
        exact Nat.lt_succ_of_lt ht.1
      have hsB : StepOk tr TB.2.2 tr (emitOp TB.2.2 tr.block (OpKind.branch [] TB.1)) :=
        emitOp_step hsA.1 hsA.2.1 hvtr rfl (fun w hh => OpKind.noConfusion hh)
      have hvalT : TB.1 <
          (emitOp TB.2.2 tr.block (OpKind.branch [] TB.1)).blocks.length := by
        show TB.1 < TB.2.2.blocks.length
        rw [hnbT', hlenT']
        exact Nat.lt_succ_self _
      have hbfT : blockFunc (emitOp TB.2.2 tr.block (OpKind.branch [] TB.1)) TB.1 =
          blockFunc s tr.block := by
        show blockFunc TB.2.2 TB.1 = blockFunc s tr.block
        rw [hnbT']
        exact hbfnT'
      have hsRe := StepOk_retarget (StepOk_trans hsA hsB) hvalT hbfT
      obtain ⟨p1, hok2, hok3⟩ := exceptBind_ok hok1
      obtain ⟨testV, tr2, s2⟩ := p1
      have hs1 := h.expr test { tr with block := TB.1 }
        (emitOp TB.2.2 tr.block (OpKind.branch [] TB.1)) testV tr2 s2
        hsRe.1 hsRe.2.1 hok2
      set C2 := emitOpV s2 tr2.block (OpKind.truthyOp testV) with hC2
      have hs2 : StepOk tr2 s2 tr2 C2.2 :=
        emitOpV_step hs1.1 hs1.2.1 hs1.2.1.1 rfl (fun w hh => OpKind.noConfusion hh)
      obtain ⟨hgB, hextB, hnbB, hopsB, hfnB, hlenB, hbfnB, hpiB, hfoldB⟩ :=
        createBlockAfter_step 0 hs2.1 hs2.2.1.1
      set BB := createBlockAfter C2.2 tr2.block 0 with hBB
      have hnbB' : BB.1 = C2.2.blocks.length := hnbB
      have hlenB' : BB.2.2.blocks.length = C2.2.blocks.length + 1 := hlenB
      have hbfnB' : blockFunc BB.2.2 C2.2.blocks.length = blockFunc C2.2 tr2.block :=
        hbfnB
      have hs3 : StepOk tr2 C2.2 tr2 BB.2.2 :=
        createBlockAfter_stepOk 0 hs2.1 hs2.2.1 hs2.2.1.1
      have hvBB : BB.1 < BB.2.2.blocks.length := by
        rw [hnbB', hlenB']
        exact Nat.lt_succ_self _
      obtain ⟨hgD2, hextD2, hnbD2, hopsD2, hfnD2, hlenD2, hbfnD2, hpiD2, hfoldD2⟩ :=
        createBlockAfter_step 0 hs3.1 hvBB
      set DB := createBlockAfter BB.2.2 BB.1 0 with hDB
      have hnbD2' : DB.1 = BB.2.2.blocks.length := hnbD2
      have hlenD2' : DB.2.2.blocks.length = BB.2.2.blocks.length + 1 := hlenD2
      have hbfnD2' : blockFunc DB.2.2 BB.2.2.blocks.length = blockFunc BB.2.2 BB.1 :=
        hbfnD2
      have hs4 : StepOk tr2 BB.2.2 tr2 DB.2.2 :=
        createBlockAfter_stepOk 0 hs3.1 hs3.2.1 hvBB
      have hvtr2 : tr2.block < DB.2.2.blocks.length := by
        have h0 : tr2.block < C2.2.blocks.length := hs2.2.1.1
        have hx := blocks_length_mono (StepOk_trans hs3 hs4).2.2.1
        exact lt_of_lt_of_le h0 hx
      have hs5 : StepOk tr2 DB.2.2 tr2
          (emitOp DB.2.2 tr2.block (OpKind.condBranch C2.1 [] [] BB.1 DB.1)) :=
        emitOp_step hs4.1 hs4.2.1 hvtr2 rfl (fun w hh => OpKind.noConfusion hh)
      have hmid : StepOk tr2 s2 tr2
          (emitOp DB.2.2 tr2.block (OpKind.condBranch C2.1 [] [] BB.1 DB.1)) :=
        StepOk_trans hs2 (StepOk_trans hs3 (StepOk_trans hs4 hs5))
      have hvBB2 : BB.1 <
          (emitOp DB.2.2 tr2.block
            (OpKind.condBranch C2.1 [] [] BB.1 DB.1)).blocks.length := by
        show BB.1 < DB.2.2.blocks.length
        rw [hlenD2']
        exact Nat.lt_succ_of_lt hvBB
      have hbfBB0 : blockFunc BB.2.2 BB.1 = blockFunc s tr.block := by
        rw [hnbB', hbfnB']
        exact (StepOk_trans (StepOk_trans hsRe hs1) hs2).2.2.2.1
      have hbfBB : blockFunc (emitOp DB.2.2 tr2.block
          (OpKind.condBranch C2.1 [] [] BB.1 DB.1)) BB.1 = blockFunc s tr.block := by
        show blockFunc DB.2.2 BB.1 = blockFunc s tr.block
        rw [blockFunc_mono hextD2 hvBB, hbfBB0]
      have hfull0 : StepOk tr s tr2
          (emitOp DB.2.2 tr2.block (OpKind.condBranch C2.1 [] [] BB.1 DB.1)) :=
        StepOk_trans hsRe (StepOk_trans hs1 hmid)
      have hsRe2 := StepOk_retarget hfull0 hvBB2 hbfBB
      obtain ⟨p2, hok4, hok5⟩ := exceptBind_ok hok3
      obtain ⟨bodyCont, tr3, s3⟩ := p2
      have hs6 := h.stmts body { tr2 with block := BB.1 }
        (emitOp DB.2.2 tr2.block (OpKind.condBranch C2.1 [] [] BB.1 DB.1))
        bodyCont tr3 s3 hsRe2.1 hsRe2.2.1 hok4
      have hvDB0 : DB.1 < DB.2.2.blocks.length := by
        rw [hnbD2', hlenD2']
        exact Nat.lt_succ_self _
      have hbfDB0 : blockFunc DB.2.2 DB.1 = blockFunc s tr.block := by
        rw [hnbD2', hbfnD2']
        exact hbfBB0
      have hvDB1 : DB.1 <
          (emitOp DB.2.2 tr2.block
            (OpKind.condBranch C2.1 [] [] BB.1 DB.1)).blocks.length := hvDB0
      have hbfDB1 : blockFunc (emitOp DB.2.2 tr2.block
          (OpKind.condBranch C2.1 [] [] BB.1 DB.1)) DB.1 = blockFunc s tr.block :=
        hbfDB0
      cases bodyCont with
      | true =>
        have hpe := pure_ok hok5
        injection hpe with h1 h2
        injection h2 with h2 h3
        subst h2
        subst h3
        have hs7 : StepOk tr3 s3 tr3 (emitOp s3 tr3.block (OpKind.branch [] TB.1)) :=
          emitOp_step hs6.1 hs6.2.1 hs6.2.1.1 rfl (fun w hh => OpKind.noConfusion hh)
        have hsuf : StepOk { tr2 with block := BB.1 }
            (emitOp DB.2.2 tr2.block (OpKind.condBranch C2.1 [] [] BB.1 DB.1)) tr3
            (emitOp s3 tr3.block (OpKind.branch [] TB.1)) :=
          StepOk_trans hs6 hs7
        have hvDB : DB.1 < (emitOp s3 tr3.block (OpKind.branch [] TB.1)).blocks.length :=
          lt_of_lt_of_le hvDB1 (blocks_length_mono hsuf.2.2.1)
        have hbfDB : blockFunc (emitOp s3 tr3.block (OpKind.branch [] TB.1)) DB.1 =
            blockFunc s tr.block := by
          rw [blockFunc_mono hsuf.2.2.1 hvDB1, hbfDB1]
        exact StepOk_retarget (StepOk_trans hsRe2 hsuf) hvDB hbfDB
      | false =>
        have hpe := pure_ok hok5
        injection hpe with h1 h2
        injection h2 with h2 h3
        subst h2
        subst h3
        have hvDB : DB.1 < s3.blocks.length :=
          lt_of_lt_of_le hvDB1 (blocks_length_mono hs6.2.2.1)
        have hbfDB : blockFunc s3 DB.1 = blockFunc s tr.block := by
          rw [blockFunc_mono hs6.2.2.1 hvDB1, hbfDB1]
        exact StepOk_retarget (StepOk_trans hsRe2 hs6) hvDB hbfDB

theorem vStmtsF_pres {rec : LowerF} (h : LowerFPres rec) (sts : List Stmt) :
    Pres (vStmtsF rec sts) := by
  intro tr s a tr' s' hg ht hok
  cases sts with
  | nil =>
    have hpe := pure_ok hok
    injection hpe with h1 h2
    injection h2 with h2 h3
    subst h2
    subst h3
    exact StepOk_refl hg ht
  | cons st rest =>
    obtain ⟨p1, hok1, hok2⟩ := exceptBind_ok hok
    obtain ⟨cont, tr1, s1⟩ := p1
    have hs1 := h.stmt st tr s cont tr1 s1 hg ht hok1
    cases cont with
    | true =>
      have hs2 := h.stmts rest tr1 s1 a tr' s' hs1.1 hs1.2.1 hok2
      exact StepOk_trans hs1 hs2
    | false =>
      have hpe := pure_ok hok2
      injection hpe with h1 h2
      injection h2 with h2 h3
      subst h2
      subst h3
      exact hs1

/-! ### Tying the recursion: every finite-depth lowerer preserves the
invariants -/

theorem lowerFail_pres : LowerFPres lowerFail := by
  refine ⟨?_, ?_, ?_, ?_, ?_, ?_, ?_, ?_, ?_, ?_, ?_⟩
  · intro e tr s a tr' s' hg ht hok
    exact absurd hok throw_ne_ok
  · intro es tr s a tr' s' hg ht hok
    exact absurd hok throw_ne_ok
  · intro ks args keys tr s a b tr' s' hg ht hok
    exact absurd hok throw_ne_ok
  · intro left ops cs tr s a tr' s' hg ht hok
    exact absurd hok throw_ne_ok
  · intro es tr s a tr' s' hg ht hok
    exact absurd hok throw_ne_ok
  · intro e v tr s tr' s' hg ht hok
    exact absurd hok throw_ne_ok
  · intro es i v b0 tr s tr' s' hg ht hb0 hok
    exact absurd hok throw_ne_ok
  · intro gens dn thr l tr s out dn' tr' s' hg ht hthr hthrf hok
    exact absurd hok throw_ne_ok
  · intro items acc tr s a tr' s' hg ht hok
    exact absurd hok throw_ne_ok
  · intro st tr s a tr' s' hg ht hok
    exact absurd hok throw_ne_ok
  · intro sts tr s a tr' s' hg ht hok
    exact absurd hok throw_ne_ok

theorem lowerStep_pres {rec : LowerF} (h : LowerFPres rec) :
    LowerFPres (lowerStep rec) :=
  ⟨fun e => vExprF_pres h e, fun es => vExprListF_pres h es,
   fun ks args keys => vKeywordsF_pres h ks args keys,
   fun left ops cs => vCompareChainF_pres h left ops cs,
   fun es => vJoinedPartsF_pres h es,
   fun e v => vAssignLhsF_pres h e v,
   vAssignTupleEltsF_pres h, vListCompGensF_pres h,
   fun items acc => vWithItemsF_pres h items acc,
   fun st => vStmtF_pres h st, fun sts => vStmtsF_pres h sts⟩

theorem lowerAt_pres (n : Nat) : LowerFPres (lowerAt n) := by
  induction n with
  | zero => exact lowerFail_pres
  | succ n ih => exact lowerStep_pres ih

/-! ### The module driver establishes and preserves the invariants -/

theorem translateModule_ginv (fuel : Nat) (body : List Stmt) (s : EmitState)
    (h : translateModule fuel body = (.ok (), s)) : GINV s := by
  simp only [translateModule] at h
  split at h
  next e heq =>
    injection h with h1 h2
    exact Except.noConfusion h1
  next vc heq =>
    split at h
    next hrefs =>
      injection h with h1 h2
      exact Except.noConfusion h1
    next hrefs =>
      split at h
      next hpv =>
        injection h with h1 h2
        exact Except.noConfusion h1
      next hpv =>
        -- the initial state: one function, one empty entry block, no ops
        have hgI : GINV (⟨0, [⟨0, []⟩], [], [str "script_main"], [],
            vc.map⟩ : EmitState) := by
          refine ⟨?_, ?_, ?_, ?_⟩
          · intro op hop
            exact absurd hop (List.not_mem_nil op)
          · intro bi hbi
            simp only [List.mem_cons, List.not_mem_nil, or_false] at hbi
            subst hbi
            show (0 : Nat) < 1
            exact Nat.zero_lt_one
          · intro b1 b2 h1 h2 hf
            obtain ⟨op, rest, hob, _⟩ := h1
            have hnil : ([] : List Op) = op :: rest := hob
            exact List.noConfusion hnil
          · intro op hop
            exact absurd hop (List.not_mem_nil op)
        have hnopadI : ∀ b, ¬ padAt (⟨0, [⟨0, []⟩], [], [str "script_main"], [],
            vc.map⟩ : EmitState) b := by
          intro b hp
          obtain ⟨op, rest, hob, _⟩ := hp
          have hnil : ([] : List Op) = op :: rest := hob
          exact List.noConfusion hnil
        obtain ⟨hgA, hblA, hfnA, ⟨tA, hopA⟩, hpiA⟩ :=
          alloc_variable_cells_emits vc.mkScope.vars [] [] [] 0
            (⟨0, [⟨0, []⟩], [], [str "script_main"], [], vc.map⟩ : EmitState)
            hgI Nat.zero_lt_one
        set SA := alloc_variable_cells [] [] [] 0 vc.mkScope.vars
          (⟨0, [⟨0, []⟩], [], [str "script_main"], [], vc.map⟩ : EmitState)
          with hSA
        have hblA' : SA.2.2.2.blocks = [⟨0, []⟩] := hblA
        have hpiA' : ∀ b, padAt SA.2.2.2 b ↔ padAt (⟨0, [⟨0, []⟩], [],
            [str "script_main"], [], vc.map⟩ : EmitState) b := hpiA
        have hb0A : 0 < SA.2.2.2.blocks.length := by
          rw [hblA']
          decide
        obtain ⟨hgB, hblB, hfnB, ⟨tB, hopB⟩, hpiB⟩ :=
          emitOpV_emits (OpKind.scopeInit SA.2.1 SA.2.2.1) hgA hb0A rfl
            (fun w hh => OpKind.noConfusion hh)
        set SB := (emitOpV SA.2.2.2 0 (OpKind.scopeInit SA.2.1 SA.2.2.1)).2 with hSB
        have hblB' : SB.blocks = SA.2.2.2.blocks := hblB
        have hpiB' : ∀ b, padAt SB b ↔ padAt SA.2.2.2 b := hpiB
        have hb0B : 0 < SB.blocks.length := by
          rw [hblB']
          exact hb0A
        have htB : TINV ⟨0, [], none, SA.1,
            (emitOpV SA.2.2.2 0 (OpKind.scopeInit SA.2.1 SA.2.2.1)).1⟩ SB := by
          refine ⟨hb0B, ?_, ?_⟩
          · intro pb hbe
            exact Option.noConfusion hbe
          · intro hne b hp
            exact absurd ((hpiA' b).mp ((hpiB' b).mp hp)) (hnopadI b)
        split at h
        next e2 heq2 =>
          injection h with h1 h2
          exact Except.noConfusion h1
        next cont t2 s2 heq2 =>
          have hstep := (lowerAt_pres fuel).stmts body
            ⟨0, [], none, SA.1,
              (emitOpV SA.2.2.2 0 (OpKind.scopeInit SA.2.1 SA.2.2.1)).1⟩ SB
            cont t2 s2 hgB htB heq2
          split at h
          next hcont =>
            have he1 : StepOk t2 s2 t2 (emitOpV s2 t2.block OpKind.noneOp).2 :=
              emitOpV_step hstep.1 hstep.2.1 hstep.2.1.1 rfl
                (fun w hh => OpKind.noConfusion hh)
            have he2 : StepOk t2 (emitOpV s2 t2.block OpKind.noneOp).2 t2
                (emitOpV (emitOpV s2 t2.block OpKind.noneOp).2 t2.block
                  (OpKind.mkReturn (emitOpV s2 t2.block OpKind.noneOp).1)).2 :=
              emitOpV_step he1.1 he1.2.1 he1.2.1.1 rfl
                (fun w hh => OpKind.noConfusion hh)
            have he3 : StepOk t2
                (emitOpV (emitOpV s2 t2.block OpKind.noneOp).2 t2.block
                  (OpKind.mkReturn (emitOpV s2 t2.block OpKind.noneOp).1)).2 t2
                (emitOp (emitOpV (emitOpV s2 t2.block OpKind.noneOp).2 t2.block
                    (OpKind.mkReturn (emitOpV s2 t2.block OpKind.noneOp).1)).2
                  t2.block
                  (OpKind.funcReturn
                    [(emitOpV (emitOpV s2 t2.block OpKind.noneOp).2 t2.block
                      (OpKind.mkReturn (emitOpV s2 t2.block OpKind.noneOp).1)).1])) :=
              emitOp_step he2.1 he2.2.1 he2.2.1.1 rfl
                (fun w hh => OpKind.noConfusion hh)
            injection h with h1 h2
            exact h2 ▸ he3.1
          next hcont =>
            injection h with h1 h2
            exact h2 ▸ hstep.1

/-- C5: in any successful `translateModule` run, the emitted module has
at most one landing-pad block per function (so `get_except_block`
creates the pad at most once and every later request reuses it), and
every fallible op (invoke, binary op, unary op — including the invoke
emitted by `invoke_next`) carries exactly two successors whose failure
successor reaches that function's unique landing pad, either directly
or through the StopIteration-test block that `invoke_next` emits. -/
theorem C5_landing_pad_protocol (fuel : Nat) (body : List Stmt) (s : EmitState)
    (h : translateModule fuel body = (.ok (), s)) :
    (∀ b1 b2, padAt s b1 → padAt s b2 → blockFunc s b1 = blockFunc s b2 → b1 = b2) ∧
    (∀ op ∈ s.ops, op.kind.fallible = true →
      ∃ f rb fb, blockFunc s op.block = some f ∧
        op.kind.succsOf = [rb, fb] ∧ failTargetOk s f fb) := by
  have hg := translateModule_ginv fuel body s h
  exact ⟨hg.2.2.1, fun op hop hfal => hg.2.2.2 op hop hfal⟩

/-- Witness for C5 on the two-statement program `x = 1` then `x + x`,
whose lowering creates the landing pad and one fallible binary op. -/
theorem C5_landing_pad_protocol_witness :
    (∀ b1 b2,
        padAt (translateModule 20
          [.assign [.name (str "x") 1 0] (.const (.int 1)),
           .exprStmt (.binop (.name (str "x") 2 0) .add (.name (str "x") 2 4))]).2 b1 →
        padAt (translateModule 20
          [.assign [.name (str "x") 1 0] (.const (.int 1)),
           .exprStmt (.binop (.name (str "x") 2 0) .add (.name (str "x") 2 4))]).2 b2 →
        blockFunc (translateModule 20
          [.assign [.name (str "x") 1 0] (.const (.int 1)),
           .exprStmt (.binop (.name (str "x") 2 0) .add (.name (str "x") 2 4))]).2 b1 =
        blockFunc (translateModule 20
          [.assign [.name (str "x") 1 0] (.const (.int 1)),
           .exprStmt (.binop (.name (str "x") 2 0) .add (.name (str "x") 2 4))]).2 b2 →
        b1 = b2) ∧
    (∀ op ∈ (translateModule 20
        [.assign [.name (str "x") 1 0] (.const (.int 1)),
         .exprStmt (.binop (.name (str "x") 2 0) .add (.name (str "x") 2 4))]).2.ops,
      op.kind.fallible = true →
      ∃ f rb fb, blockFunc (translateModule 20
          [.assign [.name (str "x") 1 0] (.const (.int 1)),
           .exprStmt (.binop (.name (str "x") 2 0) .add (.name (str "x") 2 4))]).2
            op.block = some f ∧
        op.kind.succsOf = [rb, fb] ∧
        failTargetOk (translateModule 20
          [.assign [.name (str "x") 1 0] (.const (.int 1)),
           .exprStmt (.binop (.name (str "x") 2 0) .add (.name (str "x") 2 4))]).2
          f fb) :=
  C5_landing_pad_protocol 20
    [.assign [.name (str "x") 1 0] (.const (.int 1)),
     .exprStmt (.binop (.name (str "x") 2 0) .add (.name (str "x") 2 4))]
    (translateModule 20
      [.assign [.name (str "x") 1 0] (.const (.int 1)),
       .exprStmt (.binop (.name (str "x") 2 0) .add (.name (str "x") 2 4))]).2
    (by rfl)

end Genmlir
